import Mathlib

/-!
# Ububu: task orchestration and maintenance modules

A shallow embedding of `cmd/ububu/main.go` (the Bubble Tea model and its
`Update` function) and of the five maintenance modules under
`internal/modules`, followed by theorems about them.

Conventions of the embedding.

* Go `string` values are Lean `String`s (sequences of Unicode characters;
  byte strings that are not valid UTF-8 are outside the model).
* Go `error` values are represented by the text of `Error()`; a nullable
  error is an `Option Err`, and a `(value, error)` result is an `Except`.
* `float64` progress fractions written as literals in the source are the
  rationals they denote (`0.1` is `1/10`). Where the fraction is printed for a
  detail line, the literal is first rounded to the `float64` it is compiled
  to and the product by 100 is rounded again (`Float64.ofRat`).
* External commands, file reads and the clock are inputs: every function
  that performs them takes a record with the outcome of each such call.
* A module run is described by the ordered list of its observable events
  (progress callbacks and external command invocations) together with what
  `Execute` returned.
* Go `int` fields are `Int`s; the increments of the session counters wrap
  around at 64 bits. A run-time panic (an index out of range) is the result
  `none` of the function in which it happens.
* The widgets of the bubbles library (`progress.Model`, `spinner.Model`) are
  kept only as far as `Update` writes to them, and the commands they return
  are the opaque `Cmd.widget`.
-/

namespace Ububu

/-! ## Go library helpers -/

/-- Text of a Go `error` value. -/
abbrev Err := String

/-- Two's-complement wrap-around of a 64-bit Go `int`. -/
def wrap64 (x : Int) : Int :=
  (x + 9223372036854775808) % 18446744073709551616 - 9223372036854775808

/-- Go `unicode.IsSpace`. -/
def isSpace (c : Char) : Bool :=
  c = '\t' || c = '\n' || c.toNat = 11 || c.toNat = 12 || c = '\r' || c = ' ' ||
  c.toNat = 0x85 || c.toNat = 0xA0 || c.toNat = 0x1680 ||
  (0x2000 ≤ c.toNat && c.toNat ≤ 0x200A) ||
  c.toNat = 0x2028 || c.toNat = 0x2029 || c.toNat = 0x202F ||
  c.toNat = 0x205F || c.toNat = 0x3000

/-- Go `strings.TrimSpace`. -/
def TrimSpace (s : String) : String :=
  String.mk (((s.toList.dropWhile isSpace).reverse.dropWhile isSpace).reverse)

/-- Go `strings.Contains` (a substring test). -/
def Contains (s sub : String) : Bool :=
  s.toList.tails.any (fun t => sub.toList.isPrefixOf t)

/-- Go `strings.ToLower`, on the ASCII letters. -/
def ToLower (s : String) : String :=
  String.mk (s.toList.map Char.toLower)

/-- Go `strings.Count(s, "\n")`. -/
def countNewlines (s : String) : Int :=
  (s.toList.count '\n' : Nat)

/-- Splitting a character list at every occurrence of `sep`; the result always
has at least one element, like Go `strings.Split` with a one-character
separator. -/
def splitChars (sep : Char) : List Char → List (List Char)
  | [] => [[]]
  | c :: cs =>
    if c = sep then [] :: splitChars sep cs
    else
      match splitChars sep cs with
      | [] => [[c]]
      | l :: ls => (c :: l) :: ls

/-- Go `strings.Split(s, "\n")`. -/
def SplitLines (s : String) : List String :=
  (splitChars '\n' s.toList).map String.mk

/-- Go slice expression `xs[i:]`: `none` stands for the run-time panic raised
when `i` exceeds the length. -/
def sliceFrom {α : Type} (xs : List α) (i : Nat) : Option (List α) :=
  if i ≤ xs.length then some (xs.drop i) else none

/-- Go `strconv.Atoi`: an optional sign followed by one or more decimal digits,
the value fitting a 64-bit `int`. -/
def Atoi (s : String) : Except Err Int :=
  let cs := s.toList
  let neg := cs.head? = some '-'
  let ds := if cs.head? = some '-' ∨ cs.head? = some '+' then cs.drop 1 else cs
  if ds = [] ∨ ¬ ds.all Char.isDigit then
    .error ("strconv.Atoi: parsing \"" ++ s ++ "\": invalid syntax")
  else
    let n : Nat := ds.foldl (fun a c => 10 * a + (c.toNat - 48)) 0
    let v : Int := if neg then -(n : Int) else (n : Int)
    if v < -9223372036854775808 ∨ 9223372036854775807 < v then
      .error ("strconv.Atoi: parsing \"" ++ s ++ "\": value out of range")
    else .ok v

/-- The loop of Go `strings.Fields` over the characters: `cur` holds the
characters of the field being read, last first. -/
def fieldsAux : List Char → List Char → List (List Char)
  | [], cur => if cur = [] then [] else [cur.reverse]
  | c :: cs, cur =>
    if isSpace c then
      if cur = [] then fieldsAux cs [] else cur.reverse :: fieldsAux cs []
    else fieldsAux cs (c :: cur)

/-- Go `strings.Fields`: the maximal runs of characters that are not white
space, in order. -/
def Fields (s : String) : List String :=
  (fieldsAux s.toList []).map String.mk

/-- Go `strings.TrimSuffix`. -/
def TrimSuffix (s suffix : String) : String :=
  if suffix.toList.isSuffixOf s.toList then
    String.mk (s.toList.take (s.toList.length - suffix.toList.length))
  else s

/-! ## Module runs -/

/-- Observable event of a module run. -/
inductive Event where
  | progress (fraction : ℚ) (message : String)
  | command (argv : List String)
  deriving DecidableEq

/-- What a Go function returning `error` did: returned nil, returned an error,
or panicked. -/
inductive Ret where
  | nil
  | err (e : Err)
  | panic (what : String)
  deriving DecidableEq

/-- A finished run: the events in order and the returned value. -/
structure Exec where
  events : List Event
  ret : Ret
  deriving DecidableEq

/-- Returning `r` with no further event. -/
def Exec.done (r : Ret) : Exec := ⟨[], r⟩

/-- The events `evs` followed by the run `k`. -/
def Exec.after (evs : List Event) (k : Exec) : Exec := ⟨evs ++ k.events, k.ret⟩

/-- Calling a helper `r` and continuing with `k` on the error it returned
(`none` for nil); a panic of the helper ends the run. -/
def Exec.call (r : Exec) (k : Option Err → Exec) : Exec :=
  match r.ret with
  | .nil => Exec.after r.events (k none)
  | .err e => Exec.after r.events (k (some e))
  | .panic w => ⟨r.events, .panic w⟩

/-- The progress callbacks of an event list, in call order. -/
def progressCalls : List Event → List (ℚ × String)
  | [] => []
  | .progress f s :: es => (f, s) :: progressCalls es
  | .command _ :: es => progressCalls es

/-- The fractions passed to the progress callback, in call order. -/
def fractions (es : List Event) : List ℚ := (progressCalls es).map Prod.fst

/-- The external commands invoked, in order. -/
def commands : List Event → List (List String)
  | [] => []
  | .progress _ _ :: es => commands es
  | .command a :: es => a :: commands es

/-! ## `internal/modules/health.go` -/

/-- Results of the four checks `HealthModule.Execute` calls. The checks do not
receive the progress callback, so each contributes only its
`(string, error)` result. -/
structure HealthEnv where
  checkDiskHealth : Except Err String
  checkTemperature : Except Err String
  checkMemoryUsage : Except Err String
  analyzeProcesses : Except Err String

/-- Embedding of `HealthModule.Execute`. -/
def HealthModule.Execute (env : HealthEnv) : Exec :=
  Exec.after [.progress 0.1 "Checking disk health..."] <|
  Exec.after [match env.checkDiskHealth with
    | .error err => .progress 0.25 ("Disk health check failed: " ++ err)
    | .ok diskHealth => .progress 0.25 diskHealth] <|
  Exec.after [.progress 0.3 "Checking system temperature..."] <|
  Exec.after [match env.checkTemperature with
    | .error err => .progress 0.5 ("Temperature check failed: " ++ err)
    | .ok tempInfo => .progress 0.5 tempInfo] <|
  Exec.after [.progress 0.6 "Analyzing memory usage..."] <|
  Exec.after [match env.checkMemoryUsage with
    | .error err => .progress 0.75 ("Memory check failed: " ++ err)
    | .ok memInfo => .progress 0.75 memInfo] <|
  Exec.after [.progress 0.8 "Analyzing running processes..."] <|
  Exec.after [match env.analyzeProcesses with
    | .error err => .progress 0.95 ("Process analysis failed: " ++ err)
    | .ok procInfo => .progress 0.95 procInfo] <|
  Exec.after [.progress 1.0 "System health check completed"] <|
  Exec.done .nil

/-! ## `internal/modules/cleanup.go` -/

/-- Results `(freed, err)` of the four cleaning helpers `CleanupModule.Execute`
calls; the helpers do not receive the progress callback. -/
structure CleanupEnv where
  cleanPackageCache : Except Err Int
  cleanBrowserCache : Except Err Int
  cleanTempFiles : Except Err Int
  cleanOldLogs : Except Err Int

/-- The text of `freed/1024/1024` printed with `%d`. -/
def megabytes (n : Int) : String := toString ((n.tdiv 1024).tdiv 1024)

/-- Embedding of `CleanupModule.Execute`. After each helper, `totalFreed` is increased and the
result reported only when the helper returned no error. -/
def CleanupModule.Execute (env : CleanupEnv) : Exec :=
  let totalFreed : Int := 0
  Exec.after [.progress 0.1 "Cleaning package cache..."] <|
  let (totalFreed, reported) : Int × List Event :=
    match env.cleanPackageCache with
    | .ok freed => (wrap64 (totalFreed + freed),
        [.progress 0.25 ("Package cache cleaned: " ++ megabytes freed ++ " MB freed")])
    | .error _ => (totalFreed, [])
  Exec.after reported <|
  Exec.after [.progress 0.3 "Cleaning browser caches..."] <|
  let (totalFreed, reported) : Int × List Event :=
    match env.cleanBrowserCache with
    | .ok freed => (wrap64 (totalFreed + freed),
        [.progress 0.5 ("Browser cache cleaned: " ++ megabytes freed ++ " MB freed")])
    | .error _ => (totalFreed, [])
  Exec.after reported <|
  Exec.after [.progress 0.6 "Cleaning temporary files..."] <|
  let (totalFreed, reported) : Int × List Event :=
    match env.cleanTempFiles with
    | .ok freed => (wrap64 (totalFreed + freed),
        [.progress 0.75 ("Temp files cleaned: " ++ megabytes freed ++ " MB freed")])
    | .error _ => (totalFreed, [])
  Exec.after reported <|
  Exec.after [.progress 0.8 "Cleaning old logs..."] <|
  let (totalFreed, reported) : Int × List Event :=
    match env.cleanOldLogs with
    | .ok freed => (wrap64 (totalFreed + freed),
        [.progress 0.9 ("Old logs cleaned: " ++ megabytes freed ++ " MB freed")])
    | .error _ => (totalFreed, [])
  Exec.after reported <|
  Exec.after [.progress 1.0
    ("Cleanup completed! Total freed: " ++ megabytes totalFreed ++ " MB")] <|
  Exec.done .nil

/-! ## `internal/modules/updates.go` -/

/-- Outcome of each external command of `UpdatesModule.Execute`, were it run:
`none` is success, `some e` the error of `Run`; `aptList` is the result of
`Output` for `apt list --upgradable`. -/
structure UpdatesEnv where
  aptUpdate : Option Err
  aptList : Except Err String
  aptUpgrade : Option Err
  snapRefresh : Option Err
  aptAutoremove : Option Err

/-- The count `strings.Count(output, "\n") - 1` of upgradeable packages. -/
def UpdatesModule.upgradeable (output : String) : Int := countNewlines output - 1

/-- Embedding of `UpdatesModule.Execute`. -/
def UpdatesModule.Execute (env : UpdatesEnv) : Exec :=
  Exec.after [.progress 0.1 "Updating package lists...",
              .command ["sudo", "apt", "update"]] <|
  match env.aptUpdate with
  | some err => Exec.done (.err ("failed to update package lists: " ++ err))
  | none =>
  Exec.after [.progress 0.3 "Checking for upgradeable packages...",
              .command ["apt", "list", "--upgradable"]] <|
  match env.aptList with
  | .error err => Exec.done (.err ("failed to check upgradeable packages: " ++ err))
  | .ok output =>
  let upgradeable := UpdatesModule.upgradeable output
  if upgradeable ≤ 0 then
    Exec.after [.progress 1.0 "No packages to update"] (Exec.done .nil)
  else
  Exec.after [.progress 0.5 ("Found " ++ toString upgradeable ++ " upgradeable packages"),
              .progress 0.6 "Installing package updates...",
              .command ["sudo", "apt", "upgrade", "-y"]] <|
  match env.aptUpgrade with
  | some err => Exec.done (.err ("failed to upgrade packages: " ++ err))
  | none =>
  Exec.after [.progress 0.8 "Checking for snap updates...",
              .command ["sudo", "snap", "refresh"],
              .progress 0.9 "Cleaning up...",
              .command ["sudo", "apt", "autoremove", "-y"],
              .progress 1.0 ("Successfully updated " ++ toString upgradeable ++ " packages")] <|
  Exec.done .nil

/-! ## `internal/modules/drivers.go` -/

/-- Outcome of each external command of `DriversModule`, were it run. -/
structure DriversEnv where
  ubuntuDriversDevices : Except Err String
  autoinstall : Option Err
  nvidiaSmi : Option Err
  lspci : Except Err String

/-- Embedding of `DriversModule.checkManualDrivers`. -/
def DriversModule.checkManualDrivers (env : DriversEnv) : Exec :=
  Exec.after [.progress 0.4 "Checking for NVIDIA hardware...",
              .command ["lspci"]] <|
  match env.lspci with
  | .error _ => Exec.after [.progress 1.0 "Could not detect hardware"] (Exec.done .nil)
  | .ok output =>
  let outputStr := ToLower output
  Exec.after
    (if Contains outputStr "nvidia" then
      [.progress 0.6 "NVIDIA hardware detected",
       .command ["nvidia-smi"],
       (match env.nvidiaSmi with
         | some _ => .progress 0.8 "NVIDIA driver not installed or not working"
         | none => .progress 0.8 "NVIDIA driver is working")]
     else []) <|
  Exec.after
    (if Contains outputStr "amd" || Contains outputStr "radeon" then
      [.progress 0.7 "AMD hardware detected"]
     else []) <|
  Exec.after [.progress 1.0 "Hardware check completed"] <|
  Exec.done .nil

/-- Embedding of `DriversModule.Execute`. -/
def DriversModule.Execute (env : DriversEnv) : Exec :=
  Exec.after [.progress 0.1 "Detecting available drivers...",
              .command ["ubuntu-drivers", "devices"]] <|
  match env.ubuntuDriversDevices with
  | .error _ =>
    Exec.after [.progress 0.5 "ubuntu-drivers not available, checking manually..."] <|
    DriversModule.checkManualDrivers env
  | .ok outputStr =>
  Exec.after [.progress 0.3 "Analyzing driver recommendations..."] <|
  if Contains outputStr "No devices" || (TrimSpace outputStr).utf8ByteSize = 0 then
    Exec.after [.progress 1.0 "No additional drivers needed"] (Exec.done .nil)
  else
  Exec.after [.progress 0.5 "Installing recommended drivers...",
              .command ["sudo", "ubuntu-drivers", "autoinstall"]] <|
  match env.autoinstall with
  | some err => Exec.done (.err ("failed to install drivers: " ++ err))
  | none =>
  Exec.after [.progress 0.8 "Checking NVIDIA drivers...",
              .command ["nvidia-smi"]] <|
  Exec.after
    (match env.nvidiaSmi with
      | none => [.progress 0.9 "NVIDIA drivers are working correctly"]
      | some _ => []) <|
  Exec.after [.progress 1.0 "Driver updates completed"] <|
  Exec.done .nil

/-! ## `internal/modules/optimize.go` -/

/-- Outcome of each external command and file read of `OptimizationModule`,
were it performed. -/
structure OptimizationEnv where
  lsblk : Except Err String
  fstrim : Option Err
  swappinessFile : Except Err String
  sysctlSet : Option Err
  sysctlPersist : Option Err
  flushDns : Option Err
  resolveFlush : Option Err
  restartNetworkManager : Option Err

/-- Embedding of `OptimizationModule.optimizeSSD`. -/
def OptimizationModule.optimizeSSD (env : OptimizationEnv) : Exec :=
  Exec.after [.command ["lsblk", "-d", "-o", "name,rota"]] <|
  match env.lsblk with
  | .error err => Exec.done (.err err)
  | .ok output =>
  let lines := SplitLines output
  match sliceFrom lines 1 with
  | none => Exec.done (.panic "slice bounds out of range")
  | some rest =>
  let hasSSD := rest.any (fun line => Contains line "0")
  if !hasSSD then
    Exec.after [.progress 0.2 "No SSD detected, skipping SSD optimization"] (Exec.done .nil)
  else
  Exec.after [.progress 0.15 "SSD detected, running TRIM...",
              .command ["sudo", "fstrim", "-av"]] <|
  match env.fstrim with
  | some err => Exec.done (.err ("TRIM failed: " ++ err))
  | none =>
  Exec.after [.progress 0.25 "TRIM completed successfully"] <|
  Exec.done .nil

/-- Embedding of `OptimizationModule.optimizeMemory`. -/
def OptimizationModule.optimizeMemory (env : OptimizationEnv) : Exec :=
  Exec.after [.progress 0.45 "Checking current swappiness..."] <|
  match env.swappinessFile with
  | .error err => Exec.done (.err err)
  | .ok data =>
  match Atoi (TrimSpace data) with
  | .error err => Exec.done (.err err)
  | .ok currentSwappiness =>
  Exec.after [.progress 0.5 ("Current swappiness: " ++ toString currentSwappiness)] <|
  let optimalSwappiness : Int := 10
  if currentSwappiness ≠ optimalSwappiness then
    Exec.after [.progress 0.55 ("Setting swappiness to " ++ toString optimalSwappiness ++ "..."),
                .command ["sudo", "sysctl", "vm.swappiness=" ++ toString optimalSwappiness]] <|
    match env.sysctlSet with
    | some err => Exec.done (.err ("failed to set swappiness: " ++ err))
    | none =>
    Exec.after [.command ["sudo", "sh", "-c",
        "echo \x27vm.swappiness=" ++ toString optimalSwappiness ++ "\x27 >> /etc/sysctl.conf"]] <|
    Exec.done .nil
  else
  Exec.done .nil

/-- Embedding of `OptimizationModule.clearNetworkCache`; `rest` is the part of the function
after the DNS flush. -/
def OptimizationModule.clearNetworkCache (env : OptimizationEnv) : Exec :=
  let rest : Exec :=
    Exec.after [.progress 0.85 "Clearing network manager cache...",
                .command ["sudo", "systemctl", "restart", "NetworkManager"]] <|
    Exec.after
      (match env.restartNetworkManager with
        | some _ => [.progress 0.87 "NetworkManager restart failed, continuing..."]
        | none => []) <|
    Exec.done .nil
  Exec.after [.progress 0.75 "Flushing DNS cache...",
              .command ["sudo", "systemctl", "flush-dns"]] <|
  match env.flushDns with
  | none => rest
  | some _ =>
    Exec.after [.command ["sudo", "systemd-resolve", "--flush-caches"]] <|
    match env.resolveFlush with
    | some err => Exec.done (.err ("failed to flush DNS cache: " ++ err))
    | none => rest

/-- Embedding of `OptimizationModule.Execute`. -/
def OptimizationModule.Execute (env : OptimizationEnv) : Exec :=
  Exec.after [.progress 0.1 "Checking SSD optimization..."] <|
  Exec.call (OptimizationModule.optimizeSSD env) fun r1 =>
  Exec.after [match r1 with
    | some err => .progress 0.3 ("SSD optimization failed: " ++ err)
    | none => .progress 0.3 "SSD optimization completed"] <|
  Exec.after [.progress 0.4 "Optimizing memory settings..."] <|
  Exec.call (OptimizationModule.optimizeMemory env) fun r2 =>
  Exec.after [match r2 with
    | some err => .progress 0.6 ("Memory optimization failed: " ++ err)
    | none => .progress 0.6 "Memory settings optimized"] <|
  Exec.after [.progress 0.7 "Clearing network cache..."] <|
  Exec.call (OptimizationModule.clearNetworkCache env) fun r3 =>
  Exec.after [match r3 with
    | some err => .progress 0.9 ("Network cache clear failed: " ++ err)
    | none => .progress 0.9 "Network cache cleared"] <|
  Exec.after [.progress 1.0 "System optimization completed"] <|
  Exec.done .nil

/-! ## `cmd/ububu/main.go`: data -/

/-- The five implementations of `modules.SystemModule`. -/
inductive SystemModule where
  | HealthModule
  | CleanupModule
  | UpdatesModule
  | DriversModule
  | OptimizationModule
  deriving DecidableEq

/-- The outcomes of everything the five modules do to the host. -/
structure World where
  health : HealthEnv
  cleanup : CleanupEnv
  updates : UpdatesEnv
  drivers : DriversEnv
  optimization : OptimizationEnv

/-- Dynamic dispatch of `SystemModule.Execute`. -/
def SystemModule.Execute (mod : SystemModule) (w : World) : Exec :=
  match mod with
  | .HealthModule => HealthModule.Execute w.health
  | .CleanupModule => CleanupModule.Execute w.cleanup
  | .UpdatesModule => UpdatesModule.Execute w.updates
  | .DriversModule => DriversModule.Execute w.drivers
  | .OptimizationModule => OptimizationModule.Execute w.optimization

/-- Embedding of `HealthModule.RequiresRoot`. -/
def HealthModule.RequiresRoot : Bool := false

/-- Embedding of `CleanupModule.RequiresRoot`. -/
def CleanupModule.RequiresRoot : Bool := false

/-- Embedding of `UpdatesModule.RequiresRoot`. -/
def UpdatesModule.RequiresRoot : Bool := true

/-- Embedding of `DriversModule.RequiresRoot`. -/
def DriversModule.RequiresRoot : Bool := true

/-- Embedding of `OptimizationModule.RequiresRoot`. -/
def OptimizationModule.RequiresRoot : Bool := true

/-- Dynamic dispatch of `SystemModule.RequiresRoot`. The module types are empty
structs, so the method has nothing to read but the type of its receiver. -/
def SystemModule.RequiresRoot (mod : SystemModule) : Bool :=
  match mod with
  | .HealthModule => HealthModule.RequiresRoot
  | .CleanupModule => CleanupModule.RequiresRoot
  | .UpdatesModule => UpdatesModule.RequiresRoot
  | .DriversModule => DriversModule.RequiresRoot
  | .OptimizationModule => OptimizationModule.RequiresRoot

/-- A reading of the wall clock (`time.Time`), by its calendar fields. -/
structure Time where
  year : Nat
  month : Nat
  day : Nat
  hour : Nat
  minute : Nat
  second : Nat
  deriving DecidableEq

/-- The zero value of `time.Time`: January 1, year 1, 00:00:00. -/
def Time.zero : Time := ⟨1, 1, 1, 0, 0, 0⟩

/-- A number printed in decimal, padded with zeros to `width` digits. -/
def padded (width n : Nat) : String :=
  String.mk (List.replicate (width - (toString n).length) '0') ++ toString n

/-- Embedding of `t.Format("15:04:05")`. -/
def Time.clock (t : Time) : String :=
  padded 2 t.hour ++ ":" ++ padded 2 t.minute ++ ":" ++ padded 2 t.second

/-- Embedding of `t.Format("2006-01-02_15-04-05")`. -/
def Time.fileStamp (t : Time) : String :=
  padded 4 t.year ++ "-" ++ padded 2 t.month ++ "-" ++ padded 2 t.day ++ "_" ++
  padded 2 t.hour ++ "-" ++ padded 2 t.minute ++ "-" ++ padded 2 t.second

/-- A `float64` value: a finite number (taken exactly), an infinity, or NaN. -/
inductive Float64 where
  | finite (q : ℚ)
  | posInf
  | negInf
  | nan
  deriving DecidableEq

/-- The quotient `float64(a) / float64(b)` of two Go `int`s. -/
def Float64.ofIntDiv (a b : Int) : Float64 :=
  if b = 0 then
    if a = 0 then .nan else if 0 < a then .posInf else .negInf
  else .finite ((a : ℚ) / (b : ℚ))

/-- The struct `Task`. -/
structure Task where
  Name : String
  Description : String
  Icon : String
  Module : SystemModule
  Selected : Bool
  Progress : Float64 := .finite 0
  Status : String := ""
  Error : Option Err := none
  StartTime : Time := Time.zero
  EndTime : Time := Time.zero
  Details : List String := []
  deriving DecidableEq

/-- The fields of `progress.Model` (bubbles) this program sets. -/
structure ProgressModel where
  Width : Int
  percent : Float64
  deriving DecidableEq

/-- The state of `spinner.Model` (bubbles), by the number of ticks it has seen. -/
structure SpinnerModel where
  frame : Nat
  deriving DecidableEq

/-- The struct `model`. -/
structure model where
  tasks : List Task
  cursor : Int
  running : Bool
  currentTask : Int
  progress : ProgressModel
  spinner : SpinnerModel
  logs : List String
  width : Int
  height : Int
  phase : String
  totalTasks : Int
  completedTasks : Int
  overallProgress : Float64
  reportGenerated : Bool
  deriving DecidableEq

/-- The struct `taskCompleteMsg`. -/
structure taskCompleteMsg where
  taskIndex : Int
  success : Bool
  message : String
  error : Option Err
  startTime : Time
  endTime : Time
  details : List String
  deriving DecidableEq

/-- The struct `progressMsg`. -/
structure progressMsg where
  taskIndex : Int
  progress : Float64
  message : String
  deriving DecidableEq

/-- The struct `logMsg`. -/
structure logMsg where
  level : String
  message : String
  deriving DecidableEq

/-- The messages `Update` distinguishes (`tea.Msg`); a key message is given by
its `String()`, and `other` is a message of any other type. -/
inductive Msg where
  | windowSize (Width Height : Int)
  | key (s : String)
  | spinnerTick
  | progressFrame
  | progress (p : progressMsg)
  | taskComplete (c : taskCompleteMsg)
  | log (l : logMsg)
  | other
  deriving DecidableEq

/-- The commands `Update` returns (`tea.Cmd`): nil, `tea.Quit`, a command of a
bubbles widget, the closure built by `executeNextTask` (with the variables
`taskIndex` and `task` it captures), and `tea.Batch` of two commands. -/
inductive Cmd where
  | nil
  | quit
  | widget (name : String)
  | task (taskIndex : Nat) (task : Task)
  | batch (c1 c2 : Cmd)
  deriving DecidableEq

/-- The task closures contained in a command. -/
def Cmd.tasks : Cmd → List (Nat × Task)
  | .nil => []
  | .quit => []
  | .widget _ => []
  | .task i t => [(i, t)]
  | .batch c1 c2 => c1.tasks ++ c2.tasks

/-- What the runtime supplies while one call of `Update` runs: the successive
readings of `time.Now()` and the error returned by `os.WriteFile`. -/
structure Runtime where
  now : Nat → Time
  writeFile : Option Err

/-- Embedding of `initialModel`. -/
def initialModel : model :=
  let tasks : List Task := [
    { Name := "Health Check", Description := "System health & performance",
      Icon := "🏥", Module := .HealthModule, Selected := true },
    { Name := "Cleanup", Description := "Clean temp files & caches",
      Icon := "🧹", Module := .CleanupModule, Selected := true },
    { Name := "Updates", Description := "System & security updates",
      Icon := "🔄", Module := .UpdatesModule, Selected := false },
    { Name := "Drivers", Description := "Driver updates",
      Icon := "🖥️", Module := .DriversModule, Selected := false },
    { Name := "Optimization", Description := "Performance optimization",
      Icon := "⚡", Module := .OptimizationModule, Selected := false }]
  { tasks := tasks
    cursor := 0
    running := false
    currentTask := 0
    progress := ⟨50, .finite 0⟩
    spinner := ⟨0⟩
    logs := []
    width := 0
    height := 0
    phase := "select"
    totalTasks := 0
    completedTasks := 0
    overallProgress := .finite 0
    reportGenerated := false }

/-! ## `cmd/ububu/main.go`: operations -/

/-- Go index expression `xs[i]` with an `int` index: `none` stands for the
run-time panic raised when `i` is negative or not below the length. -/
def index {α : Type} (xs : List α) (i : Int) : Option α :=
  if 0 ≤ i then xs[i.toNat]? else none

/-- Assignment to fields of `xs[i]`: the element at an index in range is
replaced by `f` of it. -/
def updateAt {α : Type} (xs : List α) (i : Nat) (f : α → α) : List α :=
  match xs[i]? with
  | some a => xs.set i (f a)
  | none => xs

/-- Embedding of `model.addLog`; `now` is the reading of `time.Now()`. The level is not
part of the entry. -/
def model.addLog (m : model) (now : Time) (_level message : String) : model :=
  let logEntry := "[" ++ now.clock ++ "] " ++ message
  let logs := m.logs ++ [logEntry]
  if logs.length > 20 then { m with logs := logs.drop (logs.length - 20) }
  else { m with logs := logs }

/-- Embedding of `model.getSelectedTasks`: the indices of the selected tasks, ascending. -/
def model.getSelectedTasks (m : model) : List Nat :=
  (List.range m.tasks.length).filter fun i =>
    match m.tasks[i]? with
    | some task => task.Selected
    | none => false

/-- Embedding of `model.executeNextTask`: `none` stands for the panic of
`selectedTasks[m.currentTask]` on a negative index. -/
def model.executeNextTask (m : model) : Option Cmd :=
  let selectedTasks := m.getSelectedTasks
  if m.currentTask ≥ selectedTasks.length then some .nil
  else
    match index selectedTasks m.currentTask with
    | none => none
    | some taskIndex =>
      match m.tasks[taskIndex]? with
      | none => none
      | some task => some (.task taskIndex task)

/-- Rounding of a rational that is not negative to the nearest integer, ties
to even. -/
def roundHalfEven (x : ℚ) : Nat :=
  let fl := ⌊x⌋.toNat
  let r := x - fl
  if r < 1/2 then fl else if 1/2 < r then fl + 1
  else if fl % 2 = 0 then fl else fl + 1

/-- The number of halvings that bring `n` below 2, with `fuel` rounds at most. -/
def log2Fuel : Nat → Nat → Nat
  | 0, _ => 0
  | fuel + 1, n => if n ≥ 2 then log2Fuel fuel (n / 2) + 1 else 0

/-- The power `2^e` for an integer exponent. -/
def twoPow (e : Int) : ℚ :=
  if 0 ≤ e then ((2 ^ e.toNat : Nat) : ℚ) else 1 / ((2 ^ (-e).toNat : Nat) : ℚ)

/-- The exponent `e` with `2^e <= x < 2^(e+1)`, for a positive rational. -/
def floorLog2 (x : ℚ) : Int :=
  let e : Int := (log2Fuel x.num.toNat x.num.toNat : Int) - (log2Fuel x.den x.den : Int)
  if twoPow e ≤ x then e else e - 1

/-- The `float64` nearest to a rational (IEEE 754 binary64, round to nearest,
ties to even): 53 significant bits, exponents from -1022, subnormal numbers
below, an infinity from `2^1024` on. This is the value a decimal literal is
compiled to and the result of an arithmetic operation whose exact result is
the rational. The sign of a zero result is not kept. -/
def Float64.ofRat (q : ℚ) : Float64 :=
  if q = 0 then .finite 0
  else
    let e := max (floorLog2 |q|) (-1022)
    let ulp := twoPow (e - 52)
    let v := (roundHalfEven (|q| / ulp) : ℚ) * ulp
    if twoPow 1024 ≤ v then (if q < 0 then .negInf else .posInf)
    else .finite (if q < 0 then -v else v)

/-- The text of `progress*100` printed with `%.0f`, for the `float64` that the
fraction `progress` is: the product is a `float64` again, and it is printed
rounded to the nearest integer, ties to even, after its sign (a negative
product that rounds to zero is printed "-0"). -/
def percent0 (progress : ℚ) : String :=
  match Float64.ofRat progress with
  | .finite f =>
    match Float64.ofRat (f * 100) with
    | .finite x => (if x < 0 then "-" else "") ++ toString (roundHalfEven |x|)
    | .posInf => "+Inf"
    | .negInf => "-Inf"
    | .nan => "NaN"
  | .posInf => "+Inf"
  | .negInf => "-Inf"
  | .nan => "NaN"

/-- What happened while a task closure ran: the two clock readings and the run
of `task.Module.Execute`. -/
structure TaskRun where
  startTime : Time
  exec : Exec
  endTime : Time

/-- The body of the closure returned by `executeNextTask`, for the captured
`taskIndex` and `task`: the completion message it returns, or `none` when
`Execute` panicked. -/
def runTask (taskIndex : Nat) (task : Task) (r : TaskRun) : Option taskCompleteMsg :=
  let details := (progressCalls r.exec.events).map fun c =>
    percent0 c.1 ++ "% - " ++ c.2
  match r.exec.ret with
  | .panic _ => none
  | .nil =>
    some { taskIndex := taskIndex, success := true,
           message := "✅ " ++ task.Name ++ " completed successfully",
           error := none, startTime := r.startTime, endTime := r.endTime,
           details := details }
  | .err err =>
    some { taskIndex := taskIndex, success := false,
           message := "❌ " ++ task.Name ++ " failed: " ++ err,
           error := some err, startTime := r.startTime, endTime := r.endTime,
           details := details }

/-- The loop of `startTasks` that stamps `StartTime` on the selected tasks; the
`k`-th reading of the clock is `now k`. -/
def stampStartTimes (now : Nat → Time) : List Task → List Nat → Nat → List Task
  | tasks, [], _ => tasks
  | tasks, taskIndex :: rest, k =>
    stampStartTimes now
      (updateAt tasks taskIndex fun t => { t with StartTime := now k }) rest (k + 1)

/-- Embedding of `model.startTasks`. -/
def model.startTasks (m : model) (rt : Runtime) : Option (model × Cmd) :=
  let selectedTasks := m.getSelectedTasks
  if selectedTasks.length = 0 then
    some (m.addLog (rt.now 0) "ERROR" "No tasks selected!", .nil)
  else
    let m := { m with phase := "running", running := true, currentTask := 0,
                      totalTasks := selectedTasks.length, completedTasks := 0,
                      overallProgress := .finite 0 }
    let m := m.addLog (rt.now 0) "INFO" "🚀 Starting Ububu optimization..."
    let m := { m with tasks := stampStartTimes rt.now m.tasks selectedTasks 1 }
    match m.executeNextTask with
    | none => none
    | some c => some (m, .batch (.widget "progress.Init") c)

/-- Embedding of `model.generateReport`, as far as the returned model and command go; the
report text handed to `os.WriteFile` is not part of either. The clock is read
by `addLog`, by `createDetailedReport`, for the file name, and by `addLog`. -/
def model.generateReport (m : model) (rt : Runtime) : model × Cmd :=
  let m := { m with phase := "report", reportGenerated := true }
  let m := m.addLog (rt.now 0) "INFO" "📄 Generating detailed report..."
  let filename := "ububu_report_" ++ (rt.now 2).fileStamp ++ ".txt"
  match rt.writeFile with
  | some err => (m.addLog (rt.now 3) "ERROR" ("Failed to save report: " ++ err), .nil)
  | none => (m.addLog (rt.now 3) "SUCCESS" ("📄 Report saved to: " ++ filename), .nil)

/-- The `tea.KeyMsg` case of `model.Update`. -/
def model.updateKey (m : model) (key : String) (rt : Runtime) : Option (model × Cmd) :=
  if m.phase = "select" then
    if key = "ctrl+c" ∨ key = "q" then some (m, .quit)
    else if key = "up" ∨ key = "k" then
      some (if m.cursor > 0 then { m with cursor := m.cursor - 1 } else m, .nil)
    else if key = "down" ∨ key = "j" then
      some (if m.cursor < (m.tasks.length : Int) - 1 then { m with cursor := m.cursor + 1 }
            else m, .nil)
    else if key = " " then
      match index m.tasks m.cursor with
      | none => none
      | some task =>
        let task := { task with Selected := !task.Selected }
        some ({ m with tasks := m.tasks.set m.cursor.toNat task }, .nil)
    else if key = "enter" then m.startTasks rt
    else if key = "a" then
      some ({ m with tasks := m.tasks.map fun t => { t with Selected := true } }, .nil)
    else if key = "n" then
      some ({ m with tasks := m.tasks.map fun t => { t with Selected := false } }, .nil)
    else some (m, .nil)
  else if m.phase = "running" then
    if key = "ctrl+c" ∨ key = "q" then some (m, .quit)
    else if key = "p" then some (m.generateReport rt)
    else some (m, .nil)
  else if m.phase = "complete" then
    if key = "ctrl+c" ∨ key = "q" ∨ key = "enter" then some (m, .quit)
    else if key = "p" then some (m.generateReport rt)
    else some (m, .nil)
  else if m.phase = "report" then
    if key = "ctrl+c" ∨ key = "q" ∨ key = "enter" then some (m, .quit)
    else some (m, .nil)
  else some (m, .nil)

/-- The assignments to the fields of `m.tasks[msg.taskIndex]` in the
`taskCompleteMsg` case of `model.Update`. -/
def recordCompletion (task : Task) (msg : taskCompleteMsg) : Task :=
  let task := { task with Progress := .finite 1.0, Error := msg.error,
                          StartTime := msg.startTime, EndTime := msg.endTime,
                          Details := msg.details }
  if msg.success then { task with Status := "✅ Complete" }
  else { task with Status := "❌ Failed" }

/-- The `taskCompleteMsg` case of `model.Update`. -/
def model.updateTaskComplete (m : model) (msg : taskCompleteMsg) (rt : Runtime) :
    Option (model × Cmd) :=
  if msg.taskIndex < m.tasks.length then
    match index m.tasks msg.taskIndex with
    | none => none
    | some task =>
      let m := { m with tasks := m.tasks.set msg.taskIndex.toNat (recordCompletion task msg) }
      let m := m.addLog (rt.now 0) "INFO" msg.message
      let m := { m with completedTasks := wrap64 (m.completedTasks + 1) }
      let m := { m with overallProgress := Float64.ofIntDiv m.completedTasks m.totalTasks }
      let m := { m with progress := { m.progress with percent := m.overallProgress } }
      let cmd := Cmd.widget "progress.SetPercent"
      let m := { m with currentTask := wrap64 (m.currentTask + 1) }
      if m.currentTask ≥ m.getSelectedTasks.length then
        let m := { m with phase := "complete", running := false }
        let m := m.addLog (rt.now 1) "SUCCESS" "🎉 All tasks completed!"
        some (m, cmd)
      else
        match m.executeNextTask with
        | none => none
        | some next => some (m, .batch cmd next)
  else some (m, .nil)

/-- Embedding of `model.Update`: `none` stands for a run-time panic. -/
def model.Update (m : model) (msg : Msg) (rt : Runtime) : Option (model × Cmd) :=
  match msg with
  | .windowSize Width Height =>
    let m := { m with width := Width, height := Height }
    some ({ m with progress :=
              { m.progress with Width := if Width > 60 then Width - 20 else 40 } }, .nil)
  | .key s => m.updateKey s rt
  | .spinnerTick =>
    some ({ m with spinner := ⟨m.spinner.frame + 1⟩ }, .widget "spinner.Tick")
  | .progressFrame => some (m, .widget "progress.Frame")
  | .progress msg =>
    if msg.taskIndex < m.tasks.length then
      match index m.tasks msg.taskIndex with
      | none => none
      | some task =>
        let task := { task with Progress := msg.progress }
        let m := { m with tasks := m.tasks.set msg.taskIndex.toNat task }
        let m := { m with progress := { m.progress with percent := msg.progress } }
        some (m.addLog (rt.now 0) "PROGRESS" msg.message, .widget "progress.SetPercent")
    else some (m, .nil)
  | .taskComplete msg => m.updateTaskComplete msg rt
  | .log msg => some (m.addLog (rt.now 0) msg.level msg.message, .nil)
  | .other => some (m, .nil)

/-! ## `cmd/ububu/main.go`: the report -/

/-- Embedding of `t.Format("2006-01-02 15:04:05")`. -/
def Time.stamp (t : Time) : String :=
  padded 4 t.year ++ "-" ++ padded 2 t.month ++ "-" ++ padded 2 t.day ++ " " ++
  padded 2 t.hour ++ ":" ++ padded 2 t.minute ++ ":" ++ padded 2 t.second

/-- Embedding of `t.IsZero()`. -/
def Time.IsZero (t : Time) : Bool := t = Time.zero

/-- A rational printed with `%.1f`: the magnitude rounded to one decimal,
ties to even, after the sign. -/
def fixed1 (x : ℚ) : String :=
  let y := |x| * 10
  let fl := ⌊y⌋.toNat
  let r := y - fl
  let n := if r < 1/2 then fl else if 1/2 < r then fl + 1
           else if fl % 2 = 0 then fl else fl + 1
  (if x < 0 then "-" else "") ++ toString (n / 10) ++ "." ++ toString (n % 10)

/-- The text of `x*100` printed with `%.1f`. -/
def Float64.percentText : Float64 → String
  | .finite q => fixed1 (q * 100)
  | .posInf => "+Inf"
  | .negInf => "-Inf"
  | .nan => "NaN"

/-- The strings written to the report for one selected task: the body of the
task loop of `createDetailedReport`, one element per `WriteString` call.
`duration start end` is the text of `end.Sub(start)` printed with `%v`. -/
def taskWrites (duration : Time → Time → String) (task : Task) : List String :=
  [task.Icon ++ " " ++ task.Name ++ "\n",
   "Description: " ++ task.Description ++ "\n",
   "Status: " ++ task.Status ++ "\n"] ++
  (if !task.StartTime.IsZero then ["Start Time: " ++ task.StartTime.clock ++ "\n"] else []) ++
  (if !task.EndTime.IsZero then
    ["End Time: " ++ task.EndTime.clock ++ "\n",
     "Duration: " ++ duration task.StartTime task.EndTime ++ "\n"]
   else []) ++
  (match task.Error with
    | some err => ["❌ ERROR: " ++ err ++ "\n"]
    | none => []) ++
  (if task.Details.length > 0 then
    "Progress Details:\n" :: task.Details.map fun detail => "  • " ++ detail ++ "\n"
   else []) ++
  ["\n" ++ String.mk (List.replicate 40 '-') ++ "\n\n"]

/-- The count `failedTasks` of `createDetailedReport`: the selected tasks whose
`Error` is not nil. -/
def model.failedTasks (m : model) : Nat :=
  (m.tasks.filter fun task => task.Selected && task.Error.isSome).length

/-- The strings `createDetailedReport` writes for the execution log. -/
def model.logWrites (m : model) : List String :=
  if m.logs.length > 0 then
    ["📝 EXECUTION LOG\n", String.mk (List.replicate 40 '-') ++ "\n\n"] ++
    (m.logs.map fun log => log ++ "\n") ++ ["\n"]
  else []

/-- The strings `createDetailedReport` writes under the recommendations
heading, chosen by `failedTasks > 0`. -/
def model.adviceWrites (m : model) : List String :=
  if m.failedTasks > 0 then
    ["⚠️  " ++ toString m.failedTasks ++ " task(s) failed. Review error details above.\n",
     "• Check system permissions for failed operations\n",
     "• Ensure sufficient disk space for cleanup operations\n",
     "• Verify network connectivity for update operations\n\n"]
  else
    ["✅ All selected tasks completed successfully!\n",
     "• System optimization completed without errors\n",
     "• Consider running optimization regularly for best performance\n\n"]

/-- The strings `createDetailedReport` writes to its builder, in order; `now`
is the reading of `time.Now()`. -/
def model.reportWrites (m : model) (now : Time) (duration : Time → Time → String) :
    List String :=
  ["🐧 UBUBU 1.0 - SYSTEM OPTIMIZATION REPORT\n",
   String.mk (List.replicate 60 '=') ++ "\n",
   "Generated: " ++ now.stamp ++ "\n",
   "Total Tasks: " ++ toString m.totalTasks ++ "\n",
   "Completed: " ++ toString m.completedTasks ++ "\n",
   "Overall Progress: " ++ m.overallProgress.percentText ++ "%\n\n",
   "📋 TASK DETAILS\n",
   String.mk (List.replicate 40 '-') ++ "\n\n"] ++
  ((m.tasks.filter fun task => task.Selected).map (taskWrites duration)).flatten ++
  m.logWrites ++
  ["💡 RECOMMENDATIONS\n", String.mk (List.replicate 40 '-') ++ "\n\n"] ++
  m.adviceWrites ++
  ["Generated by Ububu 1.0 - Ubuntu System Optimizer\n",
   "https://github.com/rokoss21/ububu\n"]

/-- Embedding of `model.createDetailedReport`: the content of the builder. -/
def model.createDetailedReport (m : model) (now : Time) (duration : Time → Time → String) :
    String :=
  String.join (m.reportWrites now duration)

/-- The arguments of `os.WriteFile` in `model.generateReport`: the file name
and the report, built after the phase is set and the request is logged. -/
def model.generateReportFile (m : model) (rt : Runtime) (duration : Time → Time → String) :
    String × String :=
  let m := { m with phase := "report", reportGenerated := true }
  let m := m.addLog (rt.now 0) "INFO" "📄 Generating detailed report..."
  let report := m.createDetailedReport (rt.now 1) duration
  let filename := "ububu_report_" ++ (rt.now 2).fileStamp ++ ".txt"
  (filename, report)

/-- The number of lines of a text that begin with `Status: `. -/
def statusLines (text : String) : Nat :=
  ((splitChars '\n' text.toList).filter fun line => "Status: ".toList.isPrefixOf line).length

/-! ## `cmd/ububu/main.go`: the status list of `renderRunning` -/

/-- The status `renderRunning` shows for the selected task `task` at registry
index `i`; `none` stands for the panic of `selectedTasks[m.currentTask]`,
which is evaluated only when `i < len(selectedTasks)`. -/
def model.runningStatus (m : model) (i : Nat) (task : Task) : Option String :=
  let selectedTasks := m.getSelectedTasks
  let other := if task.Status ≠ "" then task.Status else "⏳ Pending"
  if i < selectedTasks.length then
    match index selectedTasks m.currentTask with
    | none => none
    | some current => if current = i then some "🔄 Running" else some other
  else some other

/-- The loop of `renderRunning` over `m.tasks` that writes the status list: for
every selected task, in registry order, its index and the status shown. -/
def model.renderRunningStatus (m : model) : Option (List (Nat × String)) :=
  (m.tasks.enum.filter fun it => it.2.Selected).mapM fun it =>
    (m.runningStatus it.1 it.2).map fun status => (it.1, status)

/-! ## `internal/modules/health.go`: the four checks -/

/-- What the checks of `HealthModule` read from the host: the result of
`Output` of each command and of `ReadFile` of each file, were it performed.
`ParseFloat` stands for `strconv.ParseFloat(s, 64)` and `format2` for
printing a `float64` with `%.2f`. -/
structure HealthHost where
  df : Except Err String
  smartctl : Except Err String
  thermalZone0 : Except Err String
  thermalZone1 : Except Err String
  meminfo : Except Err String
  ps : Except Err String
  loadavg : Except Err String
  ParseFloat : String → Except Err Float64
  format2 : Float64 → String

/-- Comparison `a > b` of two `float64` values. -/
def Float64.gt : Float64 → Float64 → Bool
  | .finite a, .finite b => decide (a > b)
  | .posInf, .finite _ => true
  | .posInf, .negInf => true
  | .finite _, .negInf => true
  | _, _ => false

/-- Embedding of `HealthModule.checkDiskHealth`; `none` stands for a run-time panic. -/
def HealthModule.checkDiskHealth (host : HealthHost) : Option (Except Err String) :=
  match host.df with
  | .error err => some (.error err)
  | .ok output =>
  let lines := SplitLines output
  if lines.length < 2 then some (.error "unexpected df output")
  else
  match lines[1]? with
  | none => none
  | some line =>
  let fields := Fields line
  if fields.length < 5 then some (.error "unexpected df fields")
  else
  match fields[4]? with
  | none => none
  | some used =>
  match Atoi (TrimSuffix used "%") with
  | .error err => some (.error err)
  | .ok usedPercent =>
  let status :=
    if usedPercent > 90 then "⚠️ WARNING: Disk usage is high"
    else if usedPercent > 80 then "⚠️ CAUTION: Disk usage is moderate"
    else "✅ GOOD: Disk usage is normal"
  let status :=
    match host.smartctl with
    | .ok smartOutput =>
      if Contains smartOutput "PASSED" then status ++ " • SMART: PASSED" else status
    | .error _ => status
  some (.ok (status ++ " (" ++ used ++ " used)"))

/-- The first loop of `checkTemperature`: the readings of the files that could
be read and parsed, in degrees. -/
def HealthModule.readTemps (files : List (Except Err String)) : List Int :=
  files.filterMap fun file =>
    match file with
    | .error _ => none
    | .ok data =>
      match Atoi (TrimSpace data) with
      | .error _ => none
      | .ok temp => some (temp.tdiv 1000)

/-- Embedding of `HealthModule.checkTemperature`; `none` stands for a run-time panic. -/
def HealthModule.checkTemperature (host : HealthHost) : Option (Except Err String) :=
  let temps := HealthModule.readTemps [host.thermalZone0, host.thermalZone1]
  if temps.length = 0 then some (.ok "Temperature sensors not available")
  else
  match temps[0]? with
  | none => none
  | some first =>
  let maxTemp := temps.foldl (fun maxTemp temp => if temp > maxTemp then temp else maxTemp) first
  let status :=
    if maxTemp > 80 then "🔥 HOT"
    else if maxTemp > 70 then "⚠️ WARM"
    else "❄️ COOL"
  some (.ok (status ++ ": CPU temperature " ++ toString maxTemp ++ "°C"))

/-- One round of the loop of `checkMemoryUsage` over the lines: `acc` is
`(memTotal, memAvailable)`; `none` stands for a run-time panic. -/
def HealthModule.memoryLine (acc : Int × Int) (line : String) : Option (Int × Int) :=
  let fields := Fields line
  if fields.length < 2 then some acc
  else
  match fields[1]? with
  | none => none
  | some field1 =>
  match Atoi field1 with
  | .error _ => some acc
  | .ok value =>
  match fields[0]? with
  | none => none
  | some field0 =>
    if field0 = "MemTotal:" then some (value, acc.2)
    else if field0 = "MemFree:" then some acc
    else if field0 = "MemAvailable:" then some (acc.1, value)
    else some acc

/-- The loop of `checkMemoryUsage`: `(memTotal, memAvailable)` after all lines
of the file. -/
def HealthModule.parseMeminfo (data : String) : Option (Int × Int) :=
  (SplitLines data).foldlM HealthModule.memoryLine (0, 0)

/-- The part of `checkMemoryUsage` after the loop. The arithmetic is that of
the 64-bit `int`; `none` stands for the panic of a division by zero. -/
def HealthModule.memoryReport (memTotal memAvailable : Int) : Option (Except Err String) :=
  if memTotal = 0 then some (.error "could not parse memory info")
  else
  let used := wrap64 (memTotal - memAvailable)
  if memTotal = 0 then none
  else
  let usedPercent := wrap64 ((wrap64 (used * 100)).tdiv memTotal)
  let status :=
    if usedPercent > 90 then "🔴 CRITICAL"
    else if usedPercent > 80 then "⚠️ HIGH"
    else "✅ NORMAL"
  some (.ok (status ++ ": Memory usage " ++ toString usedPercent ++ "% (" ++
    toString (used.tdiv 1024) ++ " MB / " ++ toString (memTotal.tdiv 1024) ++ " MB)"))

/-- Embedding of `HealthModule.checkMemoryUsage`; `none` stands for a run-time panic. -/
def HealthModule.checkMemoryUsage (host : HealthHost) : Option (Except Err String) :=
  match host.meminfo with
  | .error err => some (.error err)
  | .ok data =>
    match HealthModule.parseMeminfo data with
    | none => none
    | some (memTotal, memAvailable) => HealthModule.memoryReport memTotal memAvailable

/-- Embedding of `HealthModule.analyzeProcesses`; `none` stands for a run-time panic. -/
def HealthModule.analyzeProcesses (host : HealthHost) : Option (Except Err String) :=
  match host.ps with
  | .error err => some (.error err)
  | .ok output =>
  let lines := SplitLines output
  let processCount : Int := (lines.length : Int) - 2
  match host.loadavg with
  | .error err => some (.error err)
  | .ok data =>
  let loadFields := Fields data
  if loadFields.length < 1 then some (.error "could not parse load average")
  else
  match loadFields[0]? with
  | none => none
  | some field0 =>
  match host.ParseFloat field0 with
  | .error err => some (.error err)
  | .ok load1min =>
  let loadStatus :=
    if load1min.gt (.finite 2.0) then "🔴 HIGH"
    else if load1min.gt (.finite 1.0) then "⚠️ MODERATE"
    else "✅ LOW"
  some (.ok (loadStatus ++ " load (" ++ host.format2 load1min ++ ") • " ++
    toString processCount ++ " active processes"))

/-- The results of the four checks on a host, as `HealthModule.Execute` receives
them; `none` when one of them panics. -/
def HealthHost.env (host : HealthHost) : Option HealthEnv :=
  match HealthModule.checkDiskHealth host, HealthModule.checkTemperature host,
    HealthModule.checkMemoryUsage host, HealthModule.analyzeProcesses host with
  | some disk, some temp, some mem, some proc => some ⟨disk, temp, mem, proc⟩
  | _, _, _, _ => none

/-! ## Runs of the program -/

/-- The return of one task closure and the delivery of its message: what
happened while the closure ran, and what the runtime supplies to the call of
`Update` that handles the message. -/
structure Completion where
  run : TaskRun
  rt : Runtime

/-- Running commands to completion, one completion per element of the list:
the pending command must contain exactly one task closure; it is run, its
message is handled by `Update`, and the command `Update` returns is the next
pending one. The result is the last model and command and the messages
handled, in order; `none` when a closure or `Update` panics or the pending
command does not hold exactly one task closure. -/
def runQueue (m : model) (cmd : Cmd) :
    List Completion → Option (model × Cmd × List taskCompleteMsg)
  | [] => some (m, cmd, [])
  | d :: ds =>
    match cmd.tasks with
    | [(taskIndex, task)] =>
      match runTask taskIndex task d.run with
      | none => none
      | some msg =>
        match m.Update (.taskComplete msg) d.rt with
        | none => none
        | some (m', cmd') =>
          match runQueue m' cmd' ds with
          | none => none
          | some (mf, cf, msgs) => some (mf, cf, msg :: msgs)
    | _ => none

/-- The messages a task closure hands to the runtime: the one value it returns
once `Execute` has returned. The callback it passes to `Execute` only
appends to `details` and sends nothing. -/
def taskMessages (taskIndex : Nat) (task : Task) (r : TaskRun) : List Msg :=
  match runTask taskIndex task r with
  | some msg => [.taskComplete msg]
  | none => []

/-- The program between two messages: the model, and the task closures that
were returned by `Update` and whose execution has not returned yet. -/
structure Session where
  m : model
  outstanding : List (Nat × Task)

/-- The program at start-up: `initialModel`; `Init` returns only the spinner
tick. -/
def Session.init : Session := ⟨initialModel, []⟩

/-- What can happen next: a message other than a completion message arrives
(a key press, a resize, a widget message), or the outstanding task closure at
position `pos` returns and its completion message is delivered. -/
inductive Input where
  | msg (msg : Msg) (rt : Runtime)
  | finish (pos : Nat) (run : TaskRun) (rt : Runtime)

/-- One step of the program; the result is the next state and the command
`Update` returned. `none` when the input is impossible (a completion message
that no task closure produced, a position with no outstanding closure) or
the program panics. -/
def Session.step (s : Session) : Input → Option (Session × Cmd)
  | .msg (.taskComplete _) _ => none
  | .msg msg rt =>
    match s.m.Update msg rt with
    | none => none
    | some (m', c) => some (⟨m', s.outstanding ++ c.tasks⟩, c)
  | .finish pos run rt =>
    match s.outstanding[pos]? with
    | none => none
    | some (taskIndex, task) =>
      match runTask taskIndex task run with
      | none => none
      | some msg =>
        match s.m.Update (.taskComplete msg) rt with
        | none => none
        | some (m', c) => some (⟨m', s.outstanding.eraseIdx pos ++ c.tasks⟩, c)

/-- The state after a sequence of inputs. -/
def Session.run (s : Session) : List Input → Option Session
  | [] => some s
  | i :: is =>
    match s.step i with
    | none => none
    | some (s', _) => s'.run is

/-- What a completion message decides about the rest of the run: the phase,
the cursor, the counters, the overall progress, and which task is launched. -/
def observe (r : model × Cmd) :
    String × Int × Int × Int × Float64 × Bool × List (Nat × String × SystemModule) :=
  (r.1.phase, r.1.currentTask, r.1.completedTasks, r.1.totalTasks, r.1.overallProgress,
   r.1.running, r.2.tasks.map fun t => (t.1, t.2.Name, t.2.Module))

/-- The model in the `taskCompleteMsg` case of `model.Update` at the test
`m.currentTask >= len(m.getSelectedTasks())`: the outcome is recorded in
`task`, the message logged, the counters and the cursor advanced. -/
def model.afterCompletion (m : model) (msg : taskCompleteMsg) (rt : Runtime) (task : Task) :
    model :=
  { m with
    tasks := m.tasks.set msg.taskIndex.toNat (recordCompletion task msg)
    logs := List.drop (m.logs.length + 1 - 20)
      (m.logs ++ ["[" ++ (rt.now 0).clock ++ "] " ++ msg.message])
    completedTasks := wrap64 (m.completedTasks + 1)
    overallProgress := Float64.ofIntDiv (wrap64 (m.completedTasks + 1)) m.totalTasks
    progress := { m.progress with
      percent := Float64.ofIntDiv (wrap64 (m.completedTasks + 1)) m.totalTasks }
    currentTask := wrap64 (m.currentTask + 1) }

/-- The model `startTasks` returns when at least one task is selected: the
session is reset, the start is logged and the selected tasks are stamped. -/
def model.started (m : model) (rt : Runtime) : model :=
  { m with
    phase := "running"
    running := true
    currentTask := 0
    totalTasks := m.getSelectedTasks.length
    completedTasks := 0
    overallProgress := .finite 0
    logs := List.drop (m.logs.length + 1 - 20)
      (m.logs ++ ["[" ++ (rt.now 0).clock ++ "] " ++ "🚀 Starting Ububu optimization..."])
    tasks := stampStartTimes rt.now m.tasks m.getSelectedTasks 1 }

/-! ## Predicates used in the statements -/

/-- At most one task closure is outstanding, and none while tasks are still
being selected. -/
def Sequential (s : Session) : Prop :=
  s.outstanding.length ≤ 1 ∧ (s.m.phase = "select" → s.outstanding = [])

/-- The task carries the outcome reported by the completion message: progress
1.0, the status derived from `success`, and the message's error, times and
details. -/
def Recorded (task : Task) (msg : taskCompleteMsg) : Prop :=
  task.Progress = .finite 1 ∧
  task.Status = (if msg.success then "✅ Complete" else "❌ Failed") ∧
  task.Status ≠ "" ∧
  task.Error = msg.error ∧
  task.StartTime = msg.startTime ∧ task.EndTime = msg.endTime ∧
  task.Details = msg.details

/-- The counters of the session agree with the selection: all zero while tasks
are being selected; once a run has started the total is the number of
selected tasks, the cursor equals the number of completed tasks and lies
within the selection, the overall progress is their quotient, and a task
closure is outstanding only while the cursor is inside the selection. -/
def Counted (s : Session) : Prop :=
  s.m.tasks.length < 9223372036854775807 ∧
  (s.m.phase = "select" →
    s.m.currentTask = 0 ∧ s.m.completedTasks = 0 ∧ s.m.totalTasks = 0) ∧
  (s.m.phase ≠ "select" →
    1 ≤ s.m.getSelectedTasks.length ∧
    s.m.totalTasks = s.m.getSelectedTasks.length ∧
    s.m.completedTasks = s.m.currentTask ∧
    s.m.overallProgress = Float64.ofIntDiv s.m.completedTasks s.m.totalTasks ∧
    0 ≤ s.m.currentTask ∧ s.m.currentTask ≤ s.m.getSelectedTasks.length ∧
    (s.outstanding ≠ [] → s.m.currentTask < s.m.getSelectedTasks.length))

/-- The writes make up whole lines without a line break inside, `k` of which
begin with `Status: `. -/
def StatusLines (writes : List String) (k : Nat) : Prop :=
  ∃ L : List (List Char), (String.join writes).toList = (L.map (· ++ ['\n'])).flatten ∧
    (∀ l ∈ L, '\n' ∉ l) ∧ L.countP (fun line => "Status: ".toList.isPrefixOf line) = k

/-- The text of a task as the report prints it has no line break inside a
field, and its heading line does not begin with `Status: `. -/
def Task.singleLine (duration : Time → Time → String) (task : Task) : Bool :=
  !task.Icon.toList.contains '\n' && !task.Name.toList.contains '\n' &&
  !task.Description.toList.contains '\n' && !task.Status.toList.contains '\n' &&
  (match task.Error with
   | some err => !err.toList.contains '\n'
   | none => true) &&
  task.Details.all (fun detail => !detail.toList.contains '\n') &&
  (task.EndTime.IsZero || !(duration task.StartTime task.EndTime).toList.contains '\n') &&
  !"Status: ".toList.isPrefixOf (task.Icon ++ " " ++ task.Name).toList

/-- In the words of the claim on `optimizeSSD`: a device is listed (a line after
the heading of the `lsblk` output) whose rota column, the second field of
its line, is `0`. -/
def listsSSD (output : String) : Bool :=
  ((SplitLines output).drop 1).any fun line => (Fields line)[1]? = some "0"

/-- A fraction list is non-decreasing and stays between two bounds. -/
def Within (lo hi : ℚ) (l : List ℚ) : Prop :=
  List.Pairwise (· ≤ ·) l ∧ ∀ x ∈ l, lo ≤ x ∧ x ≤ hi

/-! ## Lemmas on event lists -/

theorem progressCalls_append (a b : List Event) :
    progressCalls (a ++ b) = progressCalls a ++ progressCalls b := by
  induction a with
  | nil => rfl
  | cons e es ih => cases e <;> simp [progressCalls, ih]

theorem fractions_append (a b : List Event) :
    fractions (a ++ b) = fractions a ++ fractions b := by
  simp [fractions, progressCalls_append]

theorem fractions_nil : fractions [] = [] := rfl

theorem fractions_progress (f : ℚ) (s : String) (es : List Event) :
    fractions (.progress f s :: es) = f :: fractions es := rfl

theorem fractions_command (a : List String) (es : List Event) :
    fractions (.command a :: es) = fractions es := rfl

theorem splitChars_ne_nil (sep : Char) (cs : List Char) : splitChars sep cs ≠ [] := by
  induction cs with
  | nil => simp [splitChars]
  | cons c cs ih =>
    simp only [splitChars]
    split
    · simp
    · split <;> simp

theorem sliceFrom_SplitLines (s : String) :
    sliceFrom (SplitLines s) 1 = some ((SplitLines s).drop 1) := by
  have h : 1 ≤ (SplitLines s).length := by
    have := splitChars_ne_nil '\n' s.toList
    simp only [SplitLines, List.length_map]
    exact List.length_pos.mpr this
  simp [sliceFrom, h]

theorem optimizeSSD_ret (env : OptimizationEnv) :
    ∀ w, (OptimizationModule.optimizeSSD env).ret ≠ .panic w := by
  intro w
  unfold OptimizationModule.optimizeSSD
  simp only [Exec.after, Exec.done, sliceFrom_SplitLines]
  repeat' split
  all_goals simp_all

theorem optimizeSSD_within (env : OptimizationEnv) :
    Within 0.15 0.25 (fractions (OptimizationModule.optimizeSSD env).events) := by
  unfold OptimizationModule.optimizeSSD
  simp only [Exec.after, Exec.done, sliceFrom_SplitLines, Within]
  repeat' split
  all_goals simp_all [fractions, progressCalls]
  all_goals norm_num

theorem optimizeMemory_ret (env : OptimizationEnv) :
    ∀ w, (OptimizationModule.optimizeMemory env).ret ≠ .panic w := by
  intro w
  unfold OptimizationModule.optimizeMemory
  simp only [Exec.after, Exec.done]
  repeat' split
  all_goals simp_all

theorem optimizeMemory_within (env : OptimizationEnv) :
    Within 0.45 0.55 (fractions (OptimizationModule.optimizeMemory env).events) := by
  unfold OptimizationModule.optimizeMemory
  simp only [Exec.after, Exec.done, Within]
  repeat' split
  all_goals simp_all [fractions, progressCalls]
  all_goals norm_num

theorem clearNetworkCache_ret (env : OptimizationEnv) :
    ∀ w, (OptimizationModule.clearNetworkCache env).ret ≠ .panic w := by
  intro w
  unfold OptimizationModule.clearNetworkCache
  simp only [Exec.after, Exec.done]
  repeat' split
  all_goals simp_all

theorem clearNetworkCache_within (env : OptimizationEnv) :
    Within 0.75 0.87 (fractions (OptimizationModule.clearNetworkCache env).events) := by
  unfold OptimizationModule.clearNetworkCache
  simp only [Exec.after, Exec.done, Within]
  repeat' split
  all_goals simp_all [fractions, progressCalls]
  all_goals norm_num

theorem Within.append {a b c d : ℚ} {l₁ l₂ : List ℚ} (h₁ : Within a b l₁)
    (h₂ : Within c d l₂) (hab : a ≤ b) (hbc : b ≤ c) (hcd : c ≤ d) :
    Within a d (l₁ ++ l₂) := by
  refine ⟨List.pairwise_append.mpr ⟨h₁.1, h₂.1, ?_⟩, ?_⟩
  · intro x hx y hy
    have := (h₁.2 x hx).2
    have := (h₂.2 y hy).1
    linarith
  · intro x hx
    rcases List.mem_append.mp hx with hx | hx
    · have := h₁.2 x hx
      exact ⟨this.1, by linarith [this.2]⟩
    · have := h₂.2 x hx
      exact ⟨by linarith [this.1], this.2⟩

/-- The shape of every run of `OptimizationModule.Execute`: all seven stage
calls are made, around the events of the three helpers, and nil is returned. -/
theorem OptimizationModule.Execute_shape (env : OptimizationEnv) :
    ∃ m₁ m₂ m₃ : String,
      OptimizationModule.Execute env =
        ⟨[.progress 0.1 "Checking SSD optimization..."] ++
          (OptimizationModule.optimizeSSD env).events ++
          [.progress 0.3 m₁, .progress 0.4 "Optimizing memory settings..."] ++
          (OptimizationModule.optimizeMemory env).events ++
          [.progress 0.6 m₂, .progress 0.7 "Clearing network cache..."] ++
          (OptimizationModule.clearNetworkCache env).events ++
          [.progress 0.9 m₃, .progress 1.0 "System optimization completed"], .nil⟩ := by
  have h₁ := optimizeSSD_ret env
  have h₂ := optimizeMemory_ret env
  have h₃ := clearNetworkCache_ret env
  unfold OptimizationModule.Execute
  generalize OptimizationModule.optimizeSSD env = r₁ at h₁ ⊢
  generalize OptimizationModule.optimizeMemory env = r₂ at h₂ ⊢
  generalize OptimizationModule.clearNetworkCache env = r₃ at h₃ ⊢
  obtain ⟨e₁, t₁⟩ := r₁
  obtain ⟨e₂, t₂⟩ := r₂
  obtain ⟨e₃, t₃⟩ := r₃
  cases t₁ <;> cases t₂ <;> cases t₃ <;>
    first
    | exact absurd rfl (h₁ _)
    | exact absurd rfl (h₂ _)
    | exact absurd rfl (h₃ _)
    | exact ⟨_, _, _, by simp [Exec.call, Exec.after, Exec.done]; exact ⟨rfl, rfl, rfl⟩⟩

theorem OptimizationModule.Execute_within (env : OptimizationEnv) :
    Within 0.1 1.0 (fractions (OptimizationModule.Execute env).events) := by
  obtain ⟨m₁, m₂, m₃, h⟩ := OptimizationModule.Execute_shape env
  rw [h]
  simp only [fractions_append]
  have s₁ : Within 0.1 0.1 (fractions [.progress 0.1 "Checking SSD optimization..."]) := by
    simp [Within, fractions, progressCalls]
  have s₂ : Within 0.3 0.4
      (fractions [.progress 0.3 m₁, .progress 0.4 "Optimizing memory settings..."]) := by
    simp [Within, fractions, progressCalls]; norm_num
  have s₃ : Within 0.6 0.7
      (fractions [.progress 0.6 m₂, .progress 0.7 "Clearing network cache..."]) := by
    simp [Within, fractions, progressCalls]; norm_num
  have s₄ : Within 0.9 1.0
      (fractions [.progress 0.9 m₃, .progress 1.0 "System optimization completed"]) := by
    simp [Within, fractions, progressCalls]; norm_num
  have a₁ := s₁.append (optimizeSSD_within env) (by norm_num) (by norm_num) (by norm_num)
  have a₂ := a₁.append s₂ (by norm_num) (by norm_num) (by norm_num)
  have a₃ := a₂.append (optimizeMemory_within env) (by norm_num) (by norm_num) (by norm_num)
  have a₄ := a₃.append s₃ (by norm_num) (by norm_num) (by norm_num)
  have a₅ := a₄.append (clearNetworkCache_within env) (by norm_num) (by norm_num) (by norm_num)
  exact a₅.append s₄ (by norm_num) (by norm_num) (by norm_num)

/-! ## Theorems on the maintenance modules -/

/-- C5 (the code breaks it): when `ubuntu-drivers devices` fails, `DriversModule.Execute`
reports 0.5 and then `checkManualDrivers` reports 0.4, so the fractions of the
five modules are not non-decreasing for every outcome; here on a host with
neither `ubuntu-drivers` nor NVIDIA or AMD hardware. -/
theorem DriversModule.Execute_fallback_decreases :
    fractions (DriversModule.Execute
      { ubuntuDriversDevices := .error "exec: \"ubuntu-drivers\": executable file not found in $PATH"
        autoinstall := none
        nvidiaSmi := some "exec: \"nvidia-smi\": executable file not found in $PATH"
        lspci := .ok "00:02.0 VGA compatible controller: Intel Corporation\n" }).events
      = [0.1, 0.5, 0.4, 1.0] ∧
    ¬ List.Chain' (· ≤ ·) (fractions (DriversModule.Execute
      { ubuntuDriversDevices := .error "exec: \"ubuntu-drivers\": executable file not found in $PATH"
        autoinstall := none
        nvidiaSmi := some "exec: \"nvidia-smi\": executable file not found in $PATH"
        lspci := .ok "00:02.0 VGA compatible controller: Intel Corporation\n" }).events) := by
  have h₁ : Contains (ToLower "00:02.0 VGA compatible controller: Intel Corporation\n")
      "nvidia" = false := by decide
  have h₂ : Contains (ToLower "00:02.0 VGA compatible controller: Intel Corporation\n")
      "amd" = false := by decide
  have h₃ : Contains (ToLower "00:02.0 VGA compatible controller: Intel Corporation\n")
      "radeon" = false := by decide
  have h : fractions (DriversModule.Execute
      { ubuntuDriversDevices := .error "exec: \"ubuntu-drivers\": executable file not found in $PATH"
        autoinstall := none
        nvidiaSmi := some "exec: \"nvidia-smi\": executable file not found in $PATH"
        lspci := .ok "00:02.0 VGA compatible controller: Intel Corporation\n" }).events
      = [0.1, 0.5, 0.4, 1.0] := by
    simp [DriversModule.Execute, DriversModule.checkManualDrivers, Exec.after, Exec.done,
      fractions, progressCalls, h₁, h₂, h₃]
  refine ⟨h, ?_⟩
  rw [h]
  norm_num

/-- C6: for `HealthModule`, `CleanupModule`, `UpdatesModule` and
`OptimizationModule` (with the nested calls of `optimizeSSD`, `optimizeMemory`
and `clearNetworkCache`), for every outcome of the sub-steps, each progress
fraction reported during `Execute` is at least the one reported before it. -/
theorem Execute_fractions_nondecreasing (h : HealthEnv) (c : CleanupEnv) (u : UpdatesEnv)
    (o : OptimizationEnv) :
    List.Chain' (· ≤ ·) (fractions (HealthModule.Execute h).events) ∧
    List.Chain' (· ≤ ·) (fractions (CleanupModule.Execute c).events) ∧
    List.Chain' (· ≤ ·) (fractions (UpdatesModule.Execute u).events) ∧
    List.Chain' (· ≤ ·) (fractions (OptimizationModule.Execute o).events) := by
  refine ⟨?_, ?_, ?_, List.Pairwise.chain' (OptimizationModule.Execute_within o).1⟩
  · obtain ⟨a, b, c, d⟩ := h
    cases a <;> cases b <;> cases c <;> cases d <;>
      simp [HealthModule.Execute, Exec.after, Exec.done, fractions, progressCalls] <;> norm_num
  · obtain ⟨a, b, c, d⟩ := c
    cases a <;> cases b <;> cases c <;> cases d <;>
      simp [CleanupModule.Execute, Exec.after, Exec.done, fractions, progressCalls] <;> norm_num
  · obtain ⟨a, b, c, d, e⟩ := u
    cases a <;> cases b <;> cases c <;>
      simp only [UpdatesModule.Execute, Exec.after, Exec.done] <;>
      (try split) <;> simp [fractions, progressCalls] <;> norm_num

/-- C7: for every module and every outcome of its external operations, `Execute`
makes at least one progress call, and whenever it returns nil the last
progress call carries fraction 1.0. -/
theorem Execute_progress_reaches_one (mod : SystemModule) (w : World) :
    fractions (mod.Execute w).events ≠ [] ∧
    ((mod.Execute w).ret = .nil →
      (fractions (mod.Execute w).events).getLast? = some 1.0) := by
  cases mod
  · obtain ⟨⟨a, b, c, d⟩, _, _, _, _⟩ := w
    cases a <;> cases b <;> cases c <;> cases d <;>
      simp [SystemModule.Execute, HealthModule.Execute, Exec.after, Exec.done, fractions,
        progressCalls]
  · obtain ⟨_, ⟨a, b, c, d⟩, _, _, _⟩ := w
    cases a <;> cases b <;> cases c <;> cases d <;>
      simp [SystemModule.Execute, CleanupModule.Execute, Exec.after, Exec.done, fractions,
        progressCalls]
  · simp only [SystemModule.Execute, UpdatesModule.Execute, Exec.after, Exec.done]
    repeat' split
    all_goals simp_all [fractions, progressCalls]
  · simp only [SystemModule.Execute, DriversModule.Execute, DriversModule.checkManualDrivers,
      Exec.after, Exec.done]
    repeat' split
    all_goals simp_all [fractions, progressCalls]
  · obtain ⟨m₁, m₂, m₃, h⟩ := OptimizationModule.Execute_shape w.optimization
    simp only [SystemModule.Execute, h]
    generalize (OptimizationModule.optimizeSSD w.optimization).events = e₁
    generalize (OptimizationModule.optimizeMemory w.optimization).events = e₂
    generalize (OptimizationModule.clearNetworkCache w.optimization).events = e₃
    refine ⟨by simp [fractions_append, fractions_progress], fun _ => ?_⟩
    simp only [fractions_append]
    rw [List.getLast?_append_of_ne_nil _ (by simp [fractions, progressCalls])]
    simp [fractions, progressCalls]

/-- Witness for C7: the Updates module on a host with nothing to upgrade. -/
theorem Execute_progress_reaches_one_witness :
    (SystemModule.Execute .UpdatesModule
      ⟨⟨.ok "", .ok "", .ok "", .ok ""⟩, ⟨.ok 0, .ok 0, .ok 0, .ok 0⟩,
       ⟨none, .ok "Listing...\n", none, none, none⟩,
       ⟨.ok "", none, none, .ok ""⟩,
       ⟨.ok "", none, .ok "10", none, none, none, none, none⟩⟩).ret = .nil ∧
    (fractions (SystemModule.Execute .UpdatesModule
      ⟨⟨.ok "", .ok "", .ok "", .ok ""⟩, ⟨.ok 0, .ok 0, .ok 0, .ok 0⟩,
       ⟨none, .ok "Listing...\n", none, none, none⟩,
       ⟨.ok "", none, none, .ok ""⟩,
       ⟨.ok "", none, .ok "10", none, none, none, none, none⟩⟩).events).getLast? =
      some 1.0 :=
  have h : (SystemModule.Execute .UpdatesModule
      ⟨⟨.ok "", .ok "", .ok "", .ok ""⟩, ⟨.ok 0, .ok 0, .ok 0, .ok 0⟩,
       ⟨none, .ok "Listing...\n", none, none, none⟩,
       ⟨.ok "", none, none, .ok ""⟩,
       ⟨.ok "", none, .ok "10", none, none, none, none, none⟩⟩).ret = .nil := by
    have hu : UpdatesModule.upgradeable "Listing...\n" = 0 := by decide
    simp [SystemModule.Execute, UpdatesModule.Execute, Exec.after, Exec.done, hu]
  ⟨h, (Execute_progress_reaches_one _ _).2 h⟩

/-- C8: whenever `UpdatesModule.Execute` or `DriversModule.Execute` returns an
error, no progress call carried fraction 1.0 and the last thing the run did
was to invoke the essential command that failed: nothing is invoked or
reported after it. -/
theorem Execute_error_stops_at_failed_command (u : UpdatesEnv) (d : DriversEnv) :
    (∀ e, (UpdatesModule.Execute u).ret = .err e →
      (1.0 : ℚ) ∉ fractions (UpdatesModule.Execute u).events ∧
      (((UpdatesModule.Execute u).events.getLast? = some (.command ["sudo", "apt", "update"]) ∧
          u.aptUpdate ≠ none) ∨
        ((UpdatesModule.Execute u).events.getLast? =
            some (.command ["apt", "list", "--upgradable"]) ∧
          ∃ x, u.aptList = .error x) ∨
        ((UpdatesModule.Execute u).events.getLast? =
            some (.command ["sudo", "apt", "upgrade", "-y"]) ∧
          u.aptUpgrade ≠ none))) ∧
    (∀ e, (DriversModule.Execute d).ret = .err e →
      (1.0 : ℚ) ∉ fractions (DriversModule.Execute d).events ∧
      (DriversModule.Execute d).events.getLast? =
        some (.command ["sudo", "ubuntu-drivers", "autoinstall"]) ∧
      d.autoinstall ≠ none) := by
  constructor
  · intro e
    simp only [UpdatesModule.Execute, Exec.after, Exec.done]
    repeat' split
    all_goals simp_all [fractions, progressCalls]
    all_goals norm_num
  · intro e
    simp only [DriversModule.Execute, DriversModule.checkManualDrivers, Exec.after, Exec.done]
    repeat' split
    all_goals simp_all [fractions, progressCalls]
    all_goals norm_num

/-- Witness for C8: `sudo apt upgrade -y` fails with two packages upgradeable, and
`sudo ubuntu-drivers autoinstall` fails. -/
theorem Execute_error_stops_at_failed_command_witness :
    (UpdatesModule.Execute ⟨none, .ok "Listing...\na\nb\n", some "exit status 100", none, none⟩).ret
      = .err "failed to upgrade packages: exit status 100" ∧
    (1.0 : ℚ) ∉ fractions (UpdatesModule.Execute
      ⟨none, .ok "Listing...\na\nb\n", some "exit status 100", none, none⟩).events ∧
    (DriversModule.Execute
      ⟨.ok "vendor : NVIDIA Corporation\n", some "exit status 1", none, .ok ""⟩).ret
      = .err "failed to install drivers: exit status 1" ∧
    (DriversModule.Execute
      ⟨.ok "vendor : NVIDIA Corporation\n", some "exit status 1", none, .ok ""⟩).events.getLast?
      = some (.command ["sudo", "ubuntu-drivers", "autoinstall"]) :=
  have hu : (UpdatesModule.Execute
      ⟨none, .ok "Listing...\na\nb\n", some "exit status 100", none, none⟩).ret
      = .err "failed to upgrade packages: exit status 100" := by
    have h : UpdatesModule.upgradeable "Listing...\na\nb\n" = 2 := by decide
    simp [UpdatesModule.Execute, Exec.after, Exec.done, h]
  have hd : (DriversModule.Execute
      ⟨.ok "vendor : NVIDIA Corporation\n", some "exit status 1", none, .ok ""⟩).ret
      = .err "failed to install drivers: exit status 1" := by
    have h₁ : Contains "vendor : NVIDIA Corporation\n" "No devices" = false := by decide
    have h₂ : (TrimSpace "vendor : NVIDIA Corporation\n").utf8ByteSize ≠ 0 := by decide
    simp [DriversModule.Execute, Exec.after, Exec.done, h₁, h₂]
  ⟨hu,
   ((Execute_error_stops_at_failed_command
      ⟨none, .ok "Listing...\na\nb\n", some "exit status 100", none, none⟩
      ⟨.ok "vendor : NVIDIA Corporation\n", some "exit status 1", none, .ok ""⟩).1 _ hu).1,
   hd,
   ((Execute_error_stops_at_failed_command
      ⟨none, .ok "Listing...\na\nb\n", some "exit status 100", none, none⟩
      ⟨.ok "vendor : NVIDIA Corporation\n", some "exit status 1", none, .ok ""⟩).2 _ hd).2.1⟩

/-- C9: `HealthModule.Execute`, `CleanupModule.Execute` and
`OptimizationModule.Execute` return nil for every combination of sub-step
outcomes, and every stage is run up to the final 1.0 call: the progress calls
of Health are the nine calls of its four stages in order (a failed check only
changes the message of its call); those of Cleanup are the four stage
announcements and the final call, each announcement followed by the report of
its helper exactly when the helper returned no error; those of Optimization
are its seven stage calls around the events of the three helpers. -/
theorem Execute_soft_failures_continue (h : HealthEnv) (c : CleanupEnv)
    (o : OptimizationEnv) :
    ((HealthModule.Execute h).ret = .nil ∧
      ∃ m₁ m₂ m₃ m₄ : String,
        progressCalls (HealthModule.Execute h).events =
          [(0.1, "Checking disk health..."), (0.25, m₁),
           (0.3, "Checking system temperature..."), (0.5, m₂),
           (0.6, "Analyzing memory usage..."), (0.75, m₃),
           (0.8, "Analyzing running processes..."), (0.95, m₄),
           (1.0, "System health check completed")]) ∧
    ((CleanupModule.Execute c).ret = .nil ∧
      ∃ r₁ r₂ r₃ r₄ : List (ℚ × String),
        r₁.length = (if c.cleanPackageCache.toBool then 1 else 0) ∧
        r₂.length = (if c.cleanBrowserCache.toBool then 1 else 0) ∧
        r₃.length = (if c.cleanTempFiles.toBool then 1 else 0) ∧
        r₄.length = (if c.cleanOldLogs.toBool then 1 else 0) ∧
        ∃ total : String,
          progressCalls (CleanupModule.Execute c).events =
            (0.1, "Cleaning package cache...") :: r₁ ++
            (0.3, "Cleaning browser caches...") :: r₂ ++
            (0.6, "Cleaning temporary files...") :: r₃ ++
            (0.8, "Cleaning old logs...") :: r₄ ++
            [(1.0, total)]) ∧
    (∃ m₁ m₂ m₃ : String,
      OptimizationModule.Execute o =
        ⟨[.progress 0.1 "Checking SSD optimization..."] ++
          (OptimizationModule.optimizeSSD o).events ++
          [.progress 0.3 m₁, .progress 0.4 "Optimizing memory settings..."] ++
          (OptimizationModule.optimizeMemory o).events ++
          [.progress 0.6 m₂, .progress 0.7 "Clearing network cache..."] ++
          (OptimizationModule.clearNetworkCache o).events ++
          [.progress 0.9 m₃, .progress 1.0 "System optimization completed"], .nil⟩) := by
  refine ⟨?_, ?_, OptimizationModule.Execute_shape o⟩
  · obtain ⟨a, b, c, d⟩ := h
    refine ⟨by simp [HealthModule.Execute, Exec.after, Exec.done], ?_⟩
    cases a <;> cases b <;> cases c <;> cases d <;>
      exact ⟨_, _, _, _, by
        simp [HealthModule.Execute, Exec.after, Exec.done, progressCalls]
        exact ⟨rfl, rfl, rfl, rfl⟩⟩
  · obtain ⟨a, b, c, d⟩ := c
    refine ⟨by simp [CleanupModule.Execute, Exec.after, Exec.done],
      (match a with
        | .ok f => [(0.25, "Package cache cleaned: " ++ megabytes f ++ " MB freed")]
        | .error _ => []),
      (match b with
        | .ok f => [(0.5, "Browser cache cleaned: " ++ megabytes f ++ " MB freed")]
        | .error _ => []),
      (match c with
        | .ok f => [(0.75, "Temp files cleaned: " ++ megabytes f ++ " MB freed")]
        | .error _ => []),
      (match d with
        | .ok f => [(0.9, "Old logs cleaned: " ++ megabytes f ++ " MB freed")]
        | .error _ => []), ?_, ?_, ?_, ?_, ?_⟩
    · cases a <;> simp [Except.toBool]
    · cases b <;> simp [Except.toBool]
    · cases c <;> simp [Except.toBool]
    · cases d <;> simp [Except.toBool]
    · cases a <;> cases b <;> cases c <;> cases d <;>
        exact ⟨_, by simp [CleanupModule.Execute, Exec.after, Exec.done, progressCalls]; rfl⟩

/-- C10: `UpdatesModule.Execute` returns an error if and only if `sudo apt update`
fails, or `apt list --upgradable` fails, or at least one package is
upgradeable and `sudo apt upgrade -y` fails; otherwise it returns nil; and what
it returns does not depend on the outcomes of `snap refresh` and
`apt autoremove`. -/
theorem UpdatesModule.Execute_error_iff (env : UpdatesEnv) :
    ((∃ e, (UpdatesModule.Execute env).ret = .err e) ↔
      (env.aptUpdate ≠ none ∨
       (∃ x, env.aptList = .error x) ∨
       (∃ output, env.aptList = .ok output ∧ 0 < UpdatesModule.upgradeable output ∧
          env.aptUpgrade ≠ none))) ∧
    ((UpdatesModule.Execute env).ret = .nil ∨ ∃ e, (UpdatesModule.Execute env).ret = .err e) ∧
    (∀ snap autoremove : Option Err,
      (UpdatesModule.Execute { env with snapRefresh := snap, aptAutoremove := autoremove }).ret =
        (UpdatesModule.Execute env).ret) := by
  obtain ⟨a, b, c, d, e⟩ := env
  refine ⟨?_, ?_, ?_⟩
  · cases a <;> cases b <;> cases c <;>
      simp only [UpdatesModule.Execute, Exec.after, Exec.done] <;>
      (try split) <;> simp_all
  · cases a <;> cases b <;> cases c <;>
      simp only [UpdatesModule.Execute, Exec.after, Exec.done] <;>
      (try split) <;> simp_all
  · intro s r
    cases a <;> cases b <;> cases c <;>
      simp only [UpdatesModule.Execute, Exec.after, Exec.done]

/-! ## Lemmas on the model -/

theorem addLog_eq (m : model) (now : Time) (level message : String) :
    m.addLog now level message =
      { m with
        logs := List.drop (m.logs.length + 1 - 20)
          (m.logs ++ ["[" ++ now.clock ++ "] " ++ message]) } := by
  unfold model.addLog
  simp only [List.length_append, List.length_singleton]
  split
  · rfl
  · have h : m.logs.length + 1 - 20 = 0 := by omega
    rw [h, List.drop_zero]

theorem getSelectedTasks_congr (m m' : model)
    (h : m'.tasks.map (·.Selected) = m.tasks.map (·.Selected)) :
    m'.getSelectedTasks = m.getSelectedTasks := by
  have hl : m'.tasks.length = m.tasks.length := by
    simpa using congrArg List.length h
  unfold model.getSelectedTasks
  rw [hl]
  apply List.filter_congr
  intro i _
  have hi : (m'.tasks.map (·.Selected))[i]? = (m.tasks.map (·.Selected))[i]? := by rw [h]
  simp only [List.getElem?_map] at hi
  cases h₁ : m'.tasks[i]? <;> cases h₂ : m.tasks[i]? <;> simp_all

theorem mem_getSelectedTasks (m : model) (i : Nat) :
    i ∈ m.getSelectedTasks ↔ ∃ t, m.tasks[i]? = some t ∧ t.Selected = true := by
  unfold model.getSelectedTasks
  simp only [List.mem_filter, List.mem_range]
  constructor
  · rintro ⟨hi, h⟩
    rw [List.getElem?_eq_getElem hi] at h
    exact ⟨m.tasks[i], List.getElem?_eq_getElem hi, h⟩
  · rintro ⟨t, ht, hs⟩
    have hi : i < m.tasks.length := by
      by_contra hc
      rw [List.getElem?_eq_none (by omega)] at ht
      cases ht
    exact ⟨hi, by rw [ht]; exact hs⟩

theorem getSelectedTasks_sorted (m : model) : List.Sorted (· < ·) m.getSelectedTasks := by
  unfold model.getSelectedTasks
  exact List.Pairwise.filter _ (List.pairwise_lt_range _)

theorem getSelectedTasks_length_le (m : model) :
    m.getSelectedTasks.length ≤ m.tasks.length := by
  unfold model.getSelectedTasks
  calc ((List.range m.tasks.length).filter _).length
      ≤ (List.range m.tasks.length).length := List.length_filter_le _ _
    _ = m.tasks.length := List.length_range _

theorem updateAt_length {α : Type} (xs : List α) (i : Nat) (f : α → α) :
    (updateAt xs i f).length = xs.length := by
  unfold updateAt
  split <;> simp

theorem updateAt_getElem?_ne {α : Type} (xs : List α) (i j : Nat) (f : α → α) (h : i ≠ j) :
    (updateAt xs i f)[j]? = xs[j]? := by
  unfold updateAt
  split
  · simp [List.getElem?_set, h]
  · rfl

theorem updateAt_map {α β : Type} (xs : List α) (i : Nat) (f : α → α) (g : α → β)
    (h : ∀ a, g (f a) = g a) : (updateAt xs i f).map g = xs.map g := by
  unfold updateAt
  split
  · rename_i a ha
    apply List.ext_getElem?
    intro j
    simp only [List.getElem?_map, List.getElem?_set]
    split
    · rename_i hij
      subst hij
      have hi : i < xs.length := by
        by_contra hc
        rw [List.getElem?_eq_none (by omega)] at ha
        cases ha
      simp [hi, ha, h]
    · rfl
  · rfl

theorem stampStartTimes_selected (now : Nat → Time) (idxs : List Nat) :
    ∀ (tasks : List Task) (k : Nat),
      (stampStartTimes now tasks idxs k).map (·.Selected) = tasks.map (·.Selected) := by
  induction idxs with
  | nil => intro tasks k; rfl
  | cons i is ih =>
    intro tasks k
    simp only [stampStartTimes]
    rw [ih]
    exact updateAt_map _ _ _ _ (fun _ => rfl)

theorem stampStartTimes_length (now : Nat → Time) (idxs : List Nat) :
    ∀ (tasks : List Task) (k : Nat),
      (stampStartTimes now tasks idxs k).length = tasks.length := by
  intro tasks k
  simpa using congrArg List.length (stampStartTimes_selected now idxs tasks k)

theorem stampStartTimes_getElem?_not_mem (now : Nat → Time) (idxs : List Nat) :
    ∀ (tasks : List Task) (k j : Nat), j ∉ idxs →
      (stampStartTimes now tasks idxs k)[j]? = tasks[j]? := by
  induction idxs with
  | nil => intro tasks k j _; rfl
  | cons i is ih =>
    intro tasks k j hj
    simp only [List.mem_cons, not_or] at hj
    simp only [stampStartTimes]
    rw [ih _ _ _ hj.2]
    exact updateAt_getElem?_ne _ _ _ _ (fun h => hj.1 h.symm)

theorem wrap64_eq (x : Int) (h₁ : -9223372036854775808 ≤ x) (h₂ : x < 9223372036854775808) :
    wrap64 x = x := by
  unfold wrap64
  omega

theorem recordCompletion_selected (task : Task) (msg : taskCompleteMsg) :
    (recordCompletion task msg).Selected = task.Selected := by
  unfold recordCompletion; split <;> rfl

theorem recordCompletion_name (task : Task) (msg : taskCompleteMsg) :
    (recordCompletion task msg).Name = task.Name ∧
    (recordCompletion task msg).Module = task.Module := by
  unfold recordCompletion; split <;> exact ⟨rfl, rfl⟩

theorem index_eq_some {α : Type} (xs : List α) (i : Int) (a : α) (h : index xs i = some a) :
    0 ≤ i ∧ i.toNat < xs.length ∧ xs[i.toNat]? = some a := by
  unfold index at h
  split at h
  · rename_i h0
    refine ⟨h0, ?_, h⟩
    by_contra hc
    rw [List.getElem?_eq_none (by omega)] at h
    cases h
  · cases h

theorem set_map_eq {α β : Type} (xs : List α) (i : Nat) (a b : α) (g : α → β)
    (ha : xs[i]? = some a) (h : g b = g a) : (xs.set i b).map g = xs.map g := by
  have hi : i < xs.length := by
    by_contra hc
    rw [List.getElem?_eq_none (by omega)] at ha
    cases ha
  apply List.ext_getElem?
  intro j
  simp only [List.getElem?_map, List.getElem?_set]
  split
  · rename_i hij
    subst hij
    simp [hi, ha, h]
  · rfl

theorem afterCompletion_selected (m : model) (msg : taskCompleteMsg) (rt : Runtime)
    (task : Task) (hidx : index m.tasks msg.taskIndex = some task) :
    (m.afterCompletion msg rt task).tasks.map (·.Selected) = m.tasks.map (·.Selected) :=
  set_map_eq _ _ _ _ _ (index_eq_some _ _ _ hidx).2.2 (recordCompletion_selected task msg)

theorem afterCompletion_getSelectedTasks (m : model) (msg : taskCompleteMsg) (rt : Runtime)
    (task : Task) (hidx : index m.tasks msg.taskIndex = some task) :
    (m.afterCompletion msg rt task).getSelectedTasks = m.getSelectedTasks :=
  getSelectedTasks_congr _ _ (afterCompletion_selected m msg rt task hidx)

theorem updateTaskComplete_eq (m : model) (msg : taskCompleteMsg) (rt : Runtime)
    (task : Task) (hlt : msg.taskIndex < m.tasks.length)
    (hidx : index m.tasks msg.taskIndex = some task) :
    m.updateTaskComplete msg rt =
      if (m.afterCompletion msg rt task).currentTask ≥ (m.getSelectedTasks.length : Int) then
        some (({ m.afterCompletion msg rt task with
                  phase := "complete", running := false }).addLog (rt.now 1) "SUCCESS"
                  "🎉 All tasks completed!", .widget "progress.SetPercent")
      else
        match (m.afterCompletion msg rt task).executeNextTask with
        | none => none
        | some next =>
          some (m.afterCompletion msg rt task, .batch (.widget "progress.SetPercent") next) := by
  rw [← afterCompletion_getSelectedTasks m msg rt task hidx]
  unfold model.updateTaskComplete
  simp only [hlt, if_true, hidx, addLog_eq]
  rfl

theorem executeNextTask_observe (m₁ m₂ : model)
    (hsel : m₁.tasks.map (·.Selected) = m₂.tasks.map (·.Selected))
    (hname : m₁.tasks.map (fun t => (t.Name, t.Module)) =
      m₂.tasks.map (fun t => (t.Name, t.Module)))
    (hcur : m₁.currentTask = m₂.currentTask) :
    m₁.executeNextTask.map (fun c => c.tasks.map fun t => (t.1, t.2.Name, t.2.Module)) =
    m₂.executeNextTask.map (fun c => c.tasks.map fun t => (t.1, t.2.Name, t.2.Module)) := by
  unfold model.executeNextTask
  rw [getSelectedTasks_congr m₂ m₁ hsel, hcur]
  simp only []
  split
  · rfl
  · cases index m₂.getSelectedTasks m₂.currentTask with
    | none => rfl
    | some ti =>
      have h : (m₁.tasks.map (fun t => (t.Name, t.Module)))[ti]? =
          (m₂.tasks.map (fun t => (t.Name, t.Module)))[ti]? := by rw [hname]
      simp only [List.getElem?_map] at h
      cases h₁ : m₁.tasks[ti]? <;> cases h₂ : m₂.tasks[ti]? <;>
        simp only [h₁, h₂, Option.map_none', Option.map_some', reduceCtorEq, Option.some.injEq,
          Prod.mk.injEq] at h ⊢
      · simp [Cmd.tasks, h.1, h.2]

theorem executeNextTask_some (m : model) (k : Nat) (hk : m.currentTask = k)
    (hlt : k < m.getSelectedTasks.length) :
    ∃ t, m.tasks[m.getSelectedTasks[k]]? = some t ∧ t.Selected = true ∧
      m.executeNextTask = some (.task (m.getSelectedTasks[k]) t) := by
  obtain ⟨t, ht, hs⟩ := (mem_getSelectedTasks m _).mp (List.getElem_mem hlt)
  refine ⟨t, ht, hs, ?_⟩
  unfold model.executeNextTask
  have h₁ : ¬ (m.currentTask ≥ (m.getSelectedTasks.length : Int)) := by omega
  have h₂ : index m.getSelectedTasks m.currentTask = some (m.getSelectedTasks[k]) := by
    unfold index
    rw [hk]
    simp [List.getElem?_eq_getElem hlt]
  simp only [h₁, if_false, h₂, ht]

theorem recordCompletion_recorded (task : Task) (msg : taskCompleteMsg) :
    Recorded (recordCompletion task msg) msg := by
  unfold Recorded recordCompletion
  cases h : msg.success
  · refine ⟨?_, by simp, by simp, rfl, rfl, rfl, rfl⟩
    simp
    norm_num
  · refine ⟨?_, by simp, by simp, rfl, rfl, rfl, rfl⟩
    simp
    norm_num

theorem runTask_some (i : Nat) (t : Task) (r : TaskRun) (h : ∀ w, r.exec.ret ≠ .panic w) :
    ∃ msg, runTask i t r = some msg ∧ msg.taskIndex = i := by
  unfold runTask
  cases hr : r.exec.ret with
  | nil => exact ⟨_, rfl, rfl⟩
  | err e => exact ⟨_, rfl, rfl⟩
  | panic w => exact absurd hr (h w)

theorem ofIntDiv_self (n : Nat) (h : 1 ≤ n) : Float64.ofIntDiv n n = .finite 1 := by
  have h0 : ((n : Int) : ℚ) ≠ 0 := by
    have : (n : Int) ≠ 0 := by omega
    exact_mod_cast this
  have hn : ¬ ((n : Int) = 0) := by omega
  simp only [Float64.ofIntDiv, hn, if_false]
  rw [div_self h0]

theorem runQueue_cons (m m' : model) (cmd cmd' : Cmd) (d : Completion) (ds : List Completion)
    (i : Nat) (t : Task) (msg : taskCompleteMsg) (hck : cmd.tasks = [(i, t)])
    (hrun : runTask i t d.run = some msg)
    (hupd : m.Update (.taskComplete msg) d.rt = some (m', cmd')) :
    runQueue m cmd (d :: ds) =
      (runQueue m' cmd' ds).map fun r => (r.1, r.2.1, msg :: r.2.2) := by
  simp only [runQueue, hck, hrun, hupd]
  cases runQueue m' cmd' ds with
  | none => rfl
  | some r => obtain ⟨a, b, c⟩ := r; rfl

theorem runQueue_spec (sel : List Nat) (hnodup : sel.Nodup) :
    ∀ (ds : List Completion) (k : Nat) (mk : model) (ck : Cmd) (t : Task),
      mk.getSelectedTasks = sel → mk.currentTask = k → mk.completedTasks = k →
      mk.totalTasks = sel.length → mk.tasks.length < 9223372036854775808 →
      k + ds.length = sel.length → ds ≠ [] →
      (hk : k < sel.length) → ck.tasks = [(sel[k], t)] →
      (∀ d ∈ ds, ∀ w, d.run.exec.ret ≠ .panic w) →
      ∃ mf cf msgs, runQueue mk ck ds = some (mf, cf, msgs) ∧
        mf.phase = "complete" ∧ mf.running = false ∧
        mf.currentTask = sel.length ∧ mf.completedTasks = sel.length ∧
        mf.totalTasks = sel.length ∧
        mf.overallProgress = Float64.ofIntDiv sel.length sel.length ∧
        cf.tasks = [] ∧ mf.getSelectedTasks = sel ∧
        msgs.map (·.taskIndex) = (sel.drop k).map Int.ofNat ∧
        (∀ msg ∈ msgs, ∃ task,
          mf.tasks[msg.taskIndex.toNat]? = some task ∧ Recorded task msg) ∧
        (∀ j, j ∉ sel.drop k → mf.tasks[j]? = mk.tasks[j]?) := by
  intro ds
  induction ds with
  | nil => intro k mk ck t _ _ _ _ _ _ hne; exact absurd rfl hne
  | cons d ds ih =>
    intro k mk ck t hsel hcur hdone htot hlen hsum _ hk hck hnp
    have hsum' : k + (ds.length + 1) = sel.length := hsum
    obtain ⟨msg, hrun, hidxm⟩ := runTask_some sel[k] t d.run (hnp d (List.mem_cons_self _ _))
    have hmem : sel[k] ∈ mk.getSelectedTasks := by rw [hsel]; exact List.getElem_mem hk
    obtain ⟨task₀, htask₀, -⟩ := (mem_getSelectedTasks mk _).mp hmem
    have hidx : index mk.tasks msg.taskIndex = some task₀ := by
      unfold index
      rw [hidxm]
      simp [htask₀]
    have hlt : msg.taskIndex < mk.tasks.length := by
      have := index_eq_some _ _ _ hidx
      omega
    have hle := getSelectedTasks_length_le mk
    rw [hsel] at hle
    have hupd := updateTaskComplete_eq mk msg d.rt task₀ hlt hidx
    have hc : (mk.afterCompletion msg d.rt task₀).currentTask = ((k + 1 : Nat) : Int) := by
      show wrap64 (mk.currentTask + 1) = _
      rw [hcur, wrap64_eq _ (by omega) (by omega)]
      push_cast
      rfl
    have hd : (mk.afterCompletion msg d.rt task₀).completedTasks = ((k + 1 : Nat) : Int) := by
      show wrap64 (mk.completedTasks + 1) = _
      rw [hdone, wrap64_eq _ (by omega) (by omega)]
      push_cast
      rfl
    have hsel₁ : (mk.afterCompletion msg d.rt task₀).getSelectedTasks = sel := by
      rw [afterCompletion_getSelectedTasks mk msg d.rt task₀ hidx, hsel]
    have htasks₁ : (mk.afterCompletion msg d.rt task₀).tasks =
        mk.tasks.set sel[k] (recordCompletion task₀ msg) := by
      show mk.tasks.set msg.taskIndex.toNat _ = _
      rw [hidxm]
      rfl
    have hrec : (mk.afterCompletion msg d.rt task₀).tasks[sel[k]]? =
        some (recordCompletion task₀ msg) := by
      rw [htasks₁, List.getElem?_set_self]
      have : sel[k] < mk.tasks.length := by
        have := (index_eq_some _ _ _ hidx).2.1
        rw [hidxm] at this
        simpa using this
      simp [this]
    have hother : ∀ j, j ≠ sel[k] →
        (mk.afterCompletion msg d.rt task₀).tasks[j]? = mk.tasks[j]? := by
      intro j hj
      rw [htasks₁, List.getElem?_set_ne (fun h => hj h.symm)]
    have hdrop : sel.drop k = sel[k] :: sel.drop (k + 1) := List.drop_eq_getElem_cons hk
    have hnotin : sel[k] ∉ sel.drop (k + 1) := by
      have h₁ : (sel.drop k).Nodup := List.Nodup.sublist (List.drop_sublist k sel) hnodup
      rw [hdrop] at h₁
      exact (List.nodup_cons.mp h₁).1
    by_cases hds : ds = []
    · subst hds
      have hkN : k + 1 = sel.length := hsum
      have hge : (mk.afterCompletion msg d.rt task₀).currentTask ≥
          (mk.getSelectedTasks.length : Int) := by
        rw [hc, hsel]
        omega
      rw [if_pos hge] at hupd
      rw [runQueue_cons mk _ ck _ d [] sel[k] t msg hck hrun hupd]
      refine ⟨_, _, _, rfl, ?_, ?_, ?_, ?_, ?_, ?_, rfl, ?_, ?_, ?_, ?_⟩
      · rw [addLog_eq]
      · rw [addLog_eq]
      · rw [addLog_eq]
        show (mk.afterCompletion msg d.rt task₀).currentTask = _
        rw [hc, hkN]
      · rw [addLog_eq]
        show (mk.afterCompletion msg d.rt task₀).completedTasks = _
        rw [hd, hkN]
      · rw [addLog_eq]
        exact htot
      · rw [addLog_eq]
        show Float64.ofIntDiv (wrap64 (mk.completedTasks + 1)) mk.totalTasks = _
        have : wrap64 (mk.completedTasks + 1) = (sel.length : Int) := by
          rw [hdone, wrap64_eq _ (by omega) (by omega)]
          omega
        rw [this, htot]
      · rw [← hsel₁]
        apply getSelectedTasks_congr
        rw [addLog_eq]
      · rw [hdrop]
        have : sel.drop (k + 1) = [] := by
          apply List.drop_eq_nil_of_le
          omega
        rw [this, List.map_cons, List.map_cons, hidxm]
        rfl
      · intro msg' hmsg'
        simp only [List.mem_singleton] at hmsg'
        subst hmsg'
        refine ⟨recordCompletion task₀ msg', ?_, recordCompletion_recorded _ _⟩
        rw [addLog_eq, hidxm]
        exact hrec
      · intro j hj
        rw [addLog_eq]
        apply hother
        intro h
        apply hj
        rw [hdrop, h]
        exact List.mem_cons_self _ _
    · have hkN : k + 1 < sel.length := by
        have : 0 < ds.length := List.length_pos.mpr hds
        omega
      have hge : ¬ ((mk.afterCompletion msg d.rt task₀).currentTask ≥
          (mk.getSelectedTasks.length : Int)) := by
        rw [hc, hsel]
        omega
      obtain ⟨t', -, -, hex⟩ := executeNextTask_some (mk.afterCompletion msg d.rt task₀)
        (k + 1) hc (by rw [hsel₁]; exact hkN)
      rw [if_neg hge, hex] at hupd
      simp only [hsel₁] at hupd
      rw [runQueue_cons mk _ ck _ d ds sel[k] t msg hck hrun hupd]
      obtain ⟨mf, cf, msgs, hq, h₁, h₂, h₃, h₄, h₅, h₆, h₇, h₈, h₉, h₁₀, h₁₁⟩ :=
        ih (k + 1) (mk.afterCompletion msg d.rt task₀)
          (.batch (.widget "progress.SetPercent") (.task sel[k + 1] t')) t' hsel₁ hc hd htot
          (by rw [htasks₁, List.length_set]; exact hlen)
          (by omega) hds hkN rfl
          (fun d' hd' => hnp d' (List.mem_cons_of_mem _ hd'))
      refine ⟨mf, cf, msg :: msgs, by rw [hq]; rfl, h₁, h₂, h₃, h₄, h₅, h₆, h₇, h₈, ?_, ?_, ?_⟩
      · rw [hdrop, List.map_cons, List.map_cons, h₉, hidxm]
        rfl
      · intro msg' hmsg'
        rcases List.mem_cons.mp hmsg' with h | h
        · subst h
          refine ⟨recordCompletion task₀ msg', ?_, recordCompletion_recorded _ _⟩
          rw [hidxm]
          show mf.tasks[sel[k]]? = _
          rw [h₁₁ _ hnotin]
          exact hrec
        · exact h₁₀ msg' h
      · intro j hj
        rw [hdrop] at hj
        simp only [List.mem_cons, not_or] at hj
        rw [h₁₁ j hj.2]
        exact hother j hj.1

theorem started_getSelectedTasks (m : model) (rt : Runtime) :
    (m.started rt).getSelectedTasks = m.getSelectedTasks :=
  getSelectedTasks_congr _ _ (stampStartTimes_selected _ _ _ _)

theorem startTasks_some (m : model) (rt : Runtime) (hN : 0 < m.getSelectedTasks.length) :
    ∃ t, m.startTasks rt =
      some (m.started rt, .batch (.widget "progress.Init") (.task (m.getSelectedTasks[0]) t)) := by
  obtain ⟨t, -, -, hex⟩ := executeNextTask_some (m.started rt) 0 rfl
    (by rw [started_getSelectedTasks]; exact hN)
  simp only [started_getSelectedTasks] at hex
  refine ⟨t, ?_⟩
  have hne : ¬ (m.getSelectedTasks.length = 0) := by omega
  unfold model.startTasks
  simp only [hne, if_false, addLog_eq]
  have : ({ m with phase := "running", running := true, currentTask := 0,
                   totalTasks := m.getSelectedTasks.length, completedTasks := 0,
                   overallProgress := .finite 0,
                   logs := List.drop (m.logs.length + 1 - 20)
                     (m.logs ++ ["[" ++ (rt.now 0).clock ++ "] " ++
                       "🚀 Starting Ububu optimization..."]),
                   tasks := stampStartTimes rt.now m.tasks m.getSelectedTasks 1 } : model) =
      m.started rt := rfl
  simp only [this, hex]

/-! ## Theorems on the orchestrator -/

/-- C3: for every model in the selection phase in which no task is selected,
`startTasks` (reached by the enter key) returns no command and a model still
in phase "select" whose tasks and session counters are unchanged; only the
log differs, by exactly one appended entry whose message is "No tasks
selected!" (the log keeping its last 20 entries). -/
theorem startTasks_nothing_selected (m : model) (rt : Runtime)
    (hphase : m.phase = "select") (hsel : m.getSelectedTasks = []) :
    ∃ m', m.startTasks rt = some (m', .nil) ∧
      m.Update (.key "enter") rt = some (m', .nil) ∧
      m'.phase = "select" ∧ m'.tasks = m.tasks ∧ m'.running = m.running ∧
      m'.currentTask = m.currentTask ∧ m'.totalTasks = m.totalTasks ∧
      m'.completedTasks = m.completedTasks ∧ m'.overallProgress = m.overallProgress ∧
      m' = { m with logs := m'.logs } ∧
      m'.logs = List.drop (m.logs.length + 1 - 20)
        (m.logs ++ ["[" ++ (rt.now 0).clock ++ "] " ++ "No tasks selected!"]) ∧
      m'.logs.getLast? = some ("[" ++ (rt.now 0).clock ++ "] " ++ "No tasks selected!") ∧
      (m.logs.length < 20 →
        m'.logs = m.logs ++ ["[" ++ (rt.now 0).clock ++ "] " ++ "No tasks selected!"]) := by
  have hs : m.startTasks rt = some (m.addLog (rt.now 0) "ERROR" "No tasks selected!", .nil) := by
    simp [model.startTasks, hsel]
  refine ⟨_, hs, ?_, ?_⟩
  · simp [model.Update, model.updateKey, hphase, hs]
  · rw [addLog_eq]
    refine ⟨hphase, rfl, rfl, rfl, rfl, rfl, rfl, rfl, rfl, ?_, ?_⟩
    · rw [List.drop_append_of_le_length (by omega), List.getLast?_concat]
    · intro h
      have h0 : m.logs.length + 1 - 20 = 0 := by omega
      simp [h0]

/-- Witness for C3: `initialModel` after every task has been deselected. -/
theorem startTasks_nothing_selected_witness :
    ∃ m', model.startTasks
        { initialModel with
          tasks := initialModel.tasks.map fun t => { t with Selected := false } }
        ⟨fun _ => ⟨2024, 5, 1, 10, 0, 0⟩, none⟩ = some (m', .nil) ∧
      m'.phase = "select" ∧ m'.logs = ["[10:00:00] No tasks selected!"] := by
  obtain ⟨m', h₁, -, h₂, -, -, -, -, -, -, -, -, -, h₃⟩ :=
    startTasks_nothing_selected
      { initialModel with
        tasks := initialModel.tasks.map fun t => { t with Selected := false } }
      ⟨fun _ => ⟨2024, 5, 1, 10, 0, 0⟩, none⟩ rfl (by decide)
  exact ⟨m', h₁, h₂, by rw [h₃ (by decide)]; decide⟩

theorem updateTaskComplete_observe (m : model) (msg₁ msg₂ : taskCompleteMsg)
    (rt₁ rt₂ : Runtime) (h : msg₂.taskIndex = msg₁.taskIndex) :
    (m.updateTaskComplete msg₁ rt₁).map observe =
      (m.updateTaskComplete msg₂ rt₂).map observe := by
  by_cases hlt : msg₁.taskIndex < m.tasks.length
  · cases hidx : index m.tasks msg₁.taskIndex with
    | none => simp [model.updateTaskComplete, hlt, hidx, h]
    | some task =>
      have hlt₂ : msg₂.taskIndex < m.tasks.length := by rw [h]; exact hlt
      have hidx₂ : index m.tasks msg₂.taskIndex = some task := by rw [h]; exact hidx
      rw [updateTaskComplete_eq m msg₁ rt₁ task hlt hidx,
        updateTaskComplete_eq m msg₂ rt₂ task hlt₂ hidx₂]
      have hobs := executeNextTask_observe
        (m.afterCompletion msg₁ rt₁ task) (m.afterCompletion msg₂ rt₂ task)
        (by rw [afterCompletion_selected m msg₁ rt₁ task hidx,
              afterCompletion_selected m msg₂ rt₂ task hidx₂])
        (by
          rw [show (m.afterCompletion msg₁ rt₁ task).tasks =
              m.tasks.set msg₁.taskIndex.toNat (recordCompletion task msg₁) from rfl,
            show (m.afterCompletion msg₂ rt₂ task).tasks =
              m.tasks.set msg₂.taskIndex.toNat (recordCompletion task msg₂) from rfl,
            set_map_eq _ _ _ _ _ (index_eq_some _ _ _ hidx).2.2
              (by simp [recordCompletion_name]),
            set_map_eq _ _ _ _ _ (index_eq_some _ _ _ hidx₂).2.2
              (by simp [recordCompletion_name])])
        rfl
      have hcur : (m.afterCompletion msg₂ rt₂ task).currentTask =
          (m.afterCompletion msg₁ rt₁ task).currentTask := rfl
      rw [hcur]
      split
      · simp [observe, addLog_eq, model.afterCompletion, Cmd.tasks]
      · revert hobs
        cases (m.afterCompletion msg₁ rt₁ task).executeNextTask <;>
          cases (m.afterCompletion msg₂ rt₂ task).executeNextTask <;>
          simp [observe, model.afterCompletion, Cmd.tasks]
  · have hlt₂ : ¬ msg₂.taskIndex < m.tasks.length := by rw [h]; exact hlt
    simp [model.updateTaskComplete, hlt, hlt₂]

/-- C2: handling a completion message gives the same phase, cursor, counters,
overall progress and the same launched task whatever the message reports
(success or failure, error, message text, times, details); and whenever the
message is for a task in range and a selected task remains after the cursor,
the run goes on: the phase is kept, the cursor advances by one and the next
selected task is launched, which is not the task at the cursor again. -/
theorem completion_outcome_independent (m : model) (msg : taskCompleteMsg) (rt rt' : Runtime)
    (success : Bool) (message : String) (error : Option Err) (startTime endTime : Time)
    (details : List String) :
    ((m.Update (.taskComplete msg) rt).map observe =
      (m.Update (.taskComplete
        ⟨msg.taskIndex, success, message, error, startTime, endTime, details⟩) rt').map
        observe) ∧
    (∀ (k : Nat) (task : Task), m.tasks.length < 9223372036854775808 →
      index m.tasks msg.taskIndex = some task → m.currentTask = k →
      (hk : k + 1 < m.getSelectedTasks.length) →
      ∃ m' t, m.Update (.taskComplete msg) rt =
          some (m', .batch (.widget "progress.SetPercent")
            (.task (m.getSelectedTasks[k + 1]) t)) ∧
        m'.tasks[m.getSelectedTasks[k + 1]]? = some t ∧
        m'.phase = m.phase ∧ m'.running = m.running ∧ m'.currentTask = k + 1 ∧
        m.getSelectedTasks[k + 1] ≠ m.getSelectedTasks[k]) := by
  constructor
  · exact updateTaskComplete_observe m msg _ rt rt' rfl
  · intro k task hlen hidx hcur hk
    have hlt : msg.taskIndex < m.tasks.length := by
      have := index_eq_some _ _ _ hidx
      omega
    have hle := getSelectedTasks_length_le m
    have hc : (m.afterCompletion msg rt task).currentTask = ((k + 1 : Nat) : Int) := by
      show wrap64 (m.currentTask + 1) = _
      rw [hcur, wrap64_eq _ (by omega) (by omega)]
      push_cast
      rfl
    have hsel := afterCompletion_getSelectedTasks m msg rt task hidx
    obtain ⟨t, ht, -, hex⟩ := executeNextTask_some (m.afterCompletion msg rt task) (k + 1) hc
      (by rw [hsel]; exact hk)
    simp only [hsel] at ht hex
    refine ⟨m.afterCompletion msg rt task, t, ?_, ht, rfl, rfl, hc, ?_⟩
    · simp only [model.Update]
      rw [updateTaskComplete_eq m msg rt task hlt hidx, hc]
      have : ¬ (((k + 1 : Nat) : Int) ≥ (m.getSelectedTasks.length : Int)) := by omega
      simp only [this, if_false, hex]
    · have hs := getSelectedTasks_sorted m
      have := List.pairwise_iff_getElem.mp hs k (k + 1) (by omega) hk (by omega)
      omega

/-- C1: for every model with N >= 1 selected tasks, `startTasks` followed by the N
completion messages that the orchestrator's own task commands produce ends
in phase "complete" with `running = false`, `completedTasks = totalTasks = N`
and `overallProgress = 1.0`; nothing is left to run; the messages were handled
for the selected tasks in the order of `getSelectedTasks`, which is ascending;
each selected task carries the outcome of its message (progress 1.0, a
non-empty status), and every other task is as it was before the run. From
the selection phase `startTasks` is what the enter key calls. -/
theorem full_run_completes (m : model) (rt : Runtime) (ds : List Completion)
    (hlen : m.tasks.length < 9223372036854775808)
    (hN : 1 ≤ m.getSelectedTasks.length)
    (hds : ds.length = m.getSelectedTasks.length)
    (hnp : ∀ d ∈ ds, ∀ w, d.run.exec.ret ≠ .panic w) :
    ∃ m₀ c₀ mf cf msgs,
      m.startTasks rt = some (m₀, c₀) ∧
      (m.phase = "select" → m.Update (.key "enter") rt = some (m₀, c₀)) ∧
      runQueue m₀ c₀ ds = some (mf, cf, msgs) ∧
      mf.phase = "complete" ∧ mf.running = false ∧
      mf.completedTasks = m.getSelectedTasks.length ∧
      mf.totalTasks = m.getSelectedTasks.length ∧
      mf.overallProgress = .finite 1 ∧
      cf.tasks = [] ∧
      mf.getSelectedTasks = m.getSelectedTasks ∧
      msgs.map (·.taskIndex) = m.getSelectedTasks.map Int.ofNat ∧
      List.Sorted (· < ·) m.getSelectedTasks ∧
      (∀ msg ∈ msgs, ∃ task,
        mf.tasks[msg.taskIndex.toNat]? = some task ∧ Recorded task msg) ∧
      (∀ j, j ∉ m.getSelectedTasks → mf.tasks[j]? = m.tasks[j]?) ∧
      ((∀ j task, j ∉ m.getSelectedTasks → m.tasks[j]? = some task → task.Status = "") →
        ∀ j task, mf.tasks[j]? = some task →
          (task.Status ≠ "" ↔ j ∈ m.getSelectedTasks)) := by
  obtain ⟨t, hstart⟩ := startTasks_some m rt (by omega)
  have hsorted := getSelectedTasks_sorted m
  have hnodup : m.getSelectedTasks.Nodup := hsorted.imp (fun h => Nat.ne_of_lt h)
  have hne : ds ≠ [] := by
    intro h
    rw [h] at hds
    simp at hds
    omega
  obtain ⟨mf, cf, msgs, hq, h₁, h₂, -, h₄, h₅, h₆, h₇, h₈, h₉, h₁₀, h₁₁⟩ :=
    runQueue_spec m.getSelectedTasks hnodup ds 0 (m.started rt)
      (.batch (.widget "progress.Init") (.task (m.getSelectedTasks[0]) t)) t
      (started_getSelectedTasks m rt) rfl rfl rfl
      (by show (stampStartTimes _ _ _ _).length < _; rw [stampStartTimes_length]; exact hlen)
      (by omega) hne (by omega) rfl hnp
  have hmap : msgs.map (·.taskIndex) = m.getSelectedTasks.map Int.ofNat := by simpa using h₉
  have hrest : ∀ j, j ∉ m.getSelectedTasks → mf.tasks[j]? = m.tasks[j]? := by
    intro j hj
    rw [h₁₁ j (by simpa using hj)]
    exact stampStartTimes_getElem?_not_mem _ _ _ _ _ hj
  refine ⟨m.started rt, _, mf, cf, msgs, hstart, ?_, hq, h₁, h₂, h₄, h₅, ?_, h₇, h₈, hmap,
    hsorted, h₁₀, hrest, ?_⟩
  · intro hphase
    simp [model.Update, model.updateKey, hphase, hstart]
  · rw [h₆]
    exact ofIntDiv_self _ hN
  · intro hfresh j task hj
    constructor
    · intro hst
      by_contra hnot
      rw [hrest j hnot] at hj
      exact hst (hfresh j task hnot hj)
    · intro hmem
      have h₁₂ : (j : Int) ∈ msgs.map (·.taskIndex) := by
        rw [hmap]
        exact List.mem_map.mpr ⟨j, hmem, rfl⟩
      obtain ⟨msg, hmsg, hidx⟩ := List.mem_map.mp h₁₂
      obtain ⟨task', htask', hrec⟩ := h₁₀ msg hmsg
      simp only [hidx, Int.toNat_ofNat] at htask'
      rw [hj] at htask'
      cases htask'
      exact hrec.2.2.1

/-- Witness for C1: `initialModel` (Health Check and Cleanup selected), the
first task succeeding and the second failing with "permission denied". -/
theorem full_run_completes_witness :
    ∃ m₀ c₀ mf cf msgs,
      initialModel.startTasks ⟨fun _ => ⟨2024, 5, 1, 10, 0, 0⟩, none⟩ = some (m₀, c₀) ∧
      runQueue m₀ c₀
        [⟨⟨⟨2024, 5, 1, 10, 0, 1⟩, ⟨[.progress 0.1 "X", .progress 1.0 "X completed"], .nil⟩,
            ⟨2024, 5, 1, 10, 0, 2⟩⟩, ⟨fun _ => ⟨2024, 5, 1, 10, 0, 2⟩, none⟩⟩,
         ⟨⟨⟨2024, 5, 1, 10, 0, 3⟩, ⟨[.progress 0.1 "Y"], .err "permission denied"⟩,
            ⟨2024, 5, 1, 10, 0, 4⟩⟩, ⟨fun _ => ⟨2024, 5, 1, 10, 0, 4⟩, none⟩⟩]
        = some (mf, cf, msgs) ∧
      mf.phase = "complete" ∧ mf.completedTasks = 2 ∧ mf.overallProgress = .finite 1 ∧
      msgs.map (·.taskIndex) = [0, 1] := by
  obtain ⟨m₀, c₀, mf, cf, msgs, h₁, -, h₂, h₃, -, h₄, -, h₅, -, -, h₆, -, -, -, -⟩ :=
    full_run_completes initialModel ⟨fun _ => ⟨2024, 5, 1, 10, 0, 0⟩, none⟩
      [⟨⟨⟨2024, 5, 1, 10, 0, 1⟩, ⟨[.progress 0.1 "X", .progress 1.0 "X completed"], .nil⟩,
          ⟨2024, 5, 1, 10, 0, 2⟩⟩, ⟨fun _ => ⟨2024, 5, 1, 10, 0, 2⟩, none⟩⟩,
       ⟨⟨⟨2024, 5, 1, 10, 0, 3⟩, ⟨[.progress 0.1 "Y"], .err "permission denied"⟩,
          ⟨2024, 5, 1, 10, 0, 4⟩⟩, ⟨fun _ => ⟨2024, 5, 1, 10, 0, 4⟩, none⟩⟩]
      (by decide) (by decide) (by decide)
      (by
        intro d hd w
        simp only [List.mem_cons, List.mem_singleton, List.not_mem_nil, or_false] at hd
        rcases hd with rfl | rfl <;> simp)
  have hsel : initialModel.getSelectedTasks = [0, 1] := by decide
  rw [hsel] at h₄ h₆
  exact ⟨m₀, c₀, mf, cf, msgs, h₁, h₂, h₃, h₄, h₅, h₆⟩

/-- Witness for C2: in `initialModel` with the cursor at the first of its two
selected tasks, a failed completion of task 0 launches task 1. -/
theorem completion_outcome_independent_witness :
    ∃ m' t, initialModel.Update
        (.taskComplete ⟨0, false, "failed", some "permission denied",
          ⟨2024, 5, 1, 10, 0, 1⟩, ⟨2024, 5, 1, 10, 0, 2⟩, []⟩)
        ⟨fun _ => ⟨2024, 5, 1, 10, 0, 2⟩, none⟩ =
        some (m', .batch (.widget "progress.SetPercent") (.task 1 t)) ∧
      m'.phase = initialModel.phase ∧ m'.currentTask = 1 := by
  obtain ⟨m', t, h₁, -, h₂, -, h₃, -⟩ :=
    (completion_outcome_independent initialModel
      ⟨0, false, "failed", some "permission denied",
        ⟨2024, 5, 1, 10, 0, 1⟩, ⟨2024, 5, 1, 10, 0, 2⟩, []⟩
      ⟨fun _ => ⟨2024, 5, 1, 10, 0, 2⟩, none⟩ ⟨fun _ => ⟨2024, 5, 1, 10, 0, 2⟩, none⟩
      true "ok" none ⟨2024, 5, 1, 10, 0, 1⟩ ⟨2024, 5, 1, 10, 0, 2⟩ []).2
      0 initialModel.tasks[0] (by decide) rfl rfl (by decide)
  have hsel : ∀ h : 0 + 1 < initialModel.getSelectedTasks.length,
      initialModel.getSelectedTasks[0 + 1] = 1 := fun _ => rfl
  refine ⟨m', t, ?_, h₂, by simpa using h₃⟩
  rw [h₁, hsel]

theorem executeNextTask_tasks (m : model) (c : Cmd) (h : m.executeNextTask = some c) :
    c.tasks.length ≤ 1 := by
  unfold model.executeNextTask at h
  simp only [] at h
  split at h
  · cases h; simp [Cmd.tasks]
  · split at h
    · cases h
    · split at h
      · cases h
      · cases h; simp [Cmd.tasks]

theorem updateTaskComplete_tasks (m m' : model) (msg : taskCompleteMsg) (rt : Runtime)
    (c : Cmd) (h : m.updateTaskComplete msg rt = some (m', c)) :
    c.tasks.length ≤ 1 ∧ (m'.phase = m.phase ∨ m'.phase = "complete") := by
  by_cases hlt : msg.taskIndex < m.tasks.length
  · cases hidx : index m.tasks msg.taskIndex with
    | none => simp [model.updateTaskComplete, hlt, hidx] at h
    | some task =>
      rw [updateTaskComplete_eq m msg rt task hlt hidx] at h
      split at h
      · cases h
        exact ⟨by simp [Cmd.tasks], Or.inr (by rw [addLog_eq])⟩
      · cases hex : (m.afterCompletion msg rt task).executeNextTask with
        | none => simp [hex] at h
        | some next =>
          simp only [hex, Option.some.injEq, Prod.mk.injEq] at h
          obtain ⟨rfl, rfl⟩ := h
          have := executeNextTask_tasks _ _ hex
          exact ⟨by simpa [Cmd.tasks] using this, Or.inl rfl⟩
  · simp only [model.updateTaskComplete, hlt, if_false, Option.some.injEq, Prod.mk.injEq] at h
    obtain ⟨rfl, rfl⟩ := h
    exact ⟨by simp [Cmd.tasks], Or.inl rfl⟩

theorem updateKey_tasks (m m' : model) (key : String) (rt : Runtime) (c : Cmd)
    (h : m.updateKey key rt = some (m', c)) :
    (c.tasks = [] ∧ (m.phase ≠ "select" → m'.phase ≠ "select")) ∨
    (key = "enter" ∧ m.phase = "select" ∧ m'.phase = "running" ∧
      ∃ i t, m.getSelectedTasks.head? = some i ∧ c.tasks = [(i, t)]) := by
  unfold model.updateKey at h
  by_cases hp : m.phase = "select"
  · simp only [hp, if_true] at h
    by_cases hk : key = "enter"
    · subst hk
      simp only [show ¬ ("enter" = "ctrl+c" ∨ "enter" = "q") by decide,
        show ¬ ("enter" = "up" ∨ "enter" = "k") by decide,
        show ¬ ("enter" = "down" ∨ "enter" = "j") by decide,
        show ¬ ("enter" = " ") by decide, if_false, if_true] at h
      by_cases hN : m.getSelectedTasks.length = 0
      · left
        simp only [model.startTasks, hN, if_true, Option.some.injEq, Prod.mk.injEq] at h
        obtain ⟨rfl, rfl⟩ := h
        exact ⟨rfl, fun hc => absurd hp hc⟩
      · right
        obtain ⟨t, hs⟩ := startTasks_some m rt (by omega)
        rw [hs] at h
        simp only [Option.some.injEq, Prod.mk.injEq] at h
        obtain ⟨rfl, rfl⟩ := h
        refine ⟨rfl, hp, rfl, _, t, ?_, rfl⟩
        rw [List.head?_eq_getElem?, List.getElem?_eq_getElem (by omega)]
    · left
      refine ⟨?_, fun hc => absurd hp hc⟩
      split_ifs at h
      all_goals first
        | (simp only [Option.some.injEq, Prod.mk.injEq] at h
           obtain ⟨-, rfl⟩ := h
           rfl)
        | (split at h
           · cases h
           · simp only [Option.some.injEq, Prod.mk.injEq] at h
             obtain ⟨-, rfl⟩ := h
             rfl)
  · left
    simp only [hp, if_false] at h
    have hrep : ∀ r : Runtime, (m.generateReport r).2.tasks = [] ∧
        (m.generateReport r).1.phase ≠ "select" := by
      intro r
      unfold model.generateReport
      simp only []
      split <;> refine ⟨rfl, ?_⟩ <;> rw [addLog_eq, addLog_eq] <;>
        exact (by decide : ("report" : String) ≠ "select")
    split_ifs at h
    all_goals
      simp only [Option.some.injEq] at h
      have h₁ := congrArg Prod.fst h
      have h₂ := congrArg Prod.snd h
      simp only [] at h₁ h₂
      subst h₁ h₂
      first
      | exact ⟨rfl, fun _ => hp⟩
      | exact ⟨(hrep rt).1, fun _ => (hrep rt).2⟩

theorem Update_tasks (m m' : model) (msg : Msg) (rt : Runtime) (c : Cmd)
    (hmsg : ∀ x, msg ≠ .taskComplete x) (h : m.Update msg rt = some (m', c)) :
    (c.tasks = [] ∧ (m.phase ≠ "select" → m'.phase ≠ "select")) ∨
    (msg = .key "enter" ∧ m.phase = "select" ∧ m'.phase = "running" ∧
      ∃ i t, m.getSelectedTasks.head? = some i ∧ c.tasks = [(i, t)]) := by
  cases msg with
  | taskComplete x => exact absurd rfl (hmsg x)
  | key k =>
    rcases updateKey_tasks m m' k rt c h with h₁ | ⟨rfl, h₂⟩
    · exact Or.inl h₁
    · exact Or.inr ⟨rfl, h₂⟩
  | windowSize w ht =>
    simp only [model.Update, Option.some.injEq, Prod.mk.injEq] at h
    obtain ⟨rfl, rfl⟩ := h
    exact Or.inl ⟨rfl, fun hp => hp⟩
  | spinnerTick =>
    simp only [model.Update, Option.some.injEq, Prod.mk.injEq] at h
    obtain ⟨rfl, rfl⟩ := h
    exact Or.inl ⟨rfl, fun hp => hp⟩
  | progressFrame =>
    simp only [model.Update, Option.some.injEq, Prod.mk.injEq] at h
    obtain ⟨rfl, rfl⟩ := h
    exact Or.inl ⟨rfl, fun hp => hp⟩
  | progress p =>
    simp only [model.Update] at h
    split at h
    · split at h
      · cases h
      · simp only [Option.some.injEq, Prod.mk.injEq] at h
        obtain ⟨rfl, rfl⟩ := h
        exact Or.inl ⟨rfl, fun hp => by rw [addLog_eq]; exact hp⟩
    · simp only [Option.some.injEq, Prod.mk.injEq] at h
      obtain ⟨rfl, rfl⟩ := h
      exact Or.inl ⟨rfl, fun hp => hp⟩
  | log l =>
    simp only [model.Update, Option.some.injEq, Prod.mk.injEq] at h
    obtain ⟨rfl, rfl⟩ := h
    exact Or.inl ⟨rfl, fun hp => by rw [addLog_eq]; exact hp⟩
  | other =>
    simp only [model.Update, Option.some.injEq, Prod.mk.injEq] at h
    obtain ⟨rfl, rfl⟩ := h
    exact Or.inl ⟨rfl, fun hp => hp⟩

/-- One step keeps the program sequential, and a step that issues a task
command is either the enter key in the selection phase with nothing
outstanding, or the return of the only outstanding task. -/
theorem Session.step_sequential (s s' : Session) (inp : Input) (c : Cmd)
    (hs : Sequential s) (h : s.step inp = some (s', c)) :
    Sequential s' ∧
    (c.tasks ≠ [] →
      s'.outstanding = c.tasks ∧ c.tasks.length = 1 ∧
      ((∃ rt, inp = .msg (.key "enter") rt ∧ s.m.phase = "select" ∧ s.outstanding = [] ∧
          ∃ i t, s.m.getSelectedTasks.head? = some i ∧ c.tasks = [(i, t)]) ∨
       (∃ run rt, inp = .finish 0 run rt ∧ s.outstanding.length = 1))) := by
  obtain ⟨hlen, hsel⟩ := hs
  cases inp with
  | msg msg rt =>
    have hmsg : ∀ x, msg ≠ .taskComplete x := by
      intro x hx
      subst hx
      simp [Session.step] at h
    have hstep : ∃ m', s.m.Update msg rt = some (m', c) ∧
        s' = ⟨m', s.outstanding ++ c.tasks⟩ := by
      cases msg with
      | taskComplete x => exact absurd rfl (hmsg x)
      | _ =>
        simp only [Session.step] at h
        split at h
        · cases h
        · rename_i m' c' hu
          simp only [Option.some.injEq, Prod.mk.injEq] at h
          obtain ⟨rfl, rfl⟩ := h
          exact ⟨m', hu, rfl⟩
    obtain ⟨m', hu, rfl⟩ := hstep
    rcases Update_tasks s.m m' msg rt c hmsg hu with ⟨hc, hph⟩ | ⟨rfl, hp, hrun, i, t, hi, hc⟩
    · refine ⟨⟨by simpa [hc] using hlen, ?_⟩, fun hne => absurd hc hne⟩
      intro hp'
      have hp : s.m.phase = "select" := by
        by_contra hcon
        exact hph hcon hp'
      simp [hc, hsel hp]
    · have ho := hsel hp
      refine ⟨⟨by simp [ho, hc], ?_⟩, fun _ => ⟨by simp [ho], by simp [hc], Or.inl ?_⟩⟩
      · intro hp'
        rw [show m'.phase = "running" from hrun] at hp'
        exact absurd hp' (by decide)
      · exact ⟨rt, rfl, hp, ho, i, t, hi, hc⟩
  | finish pos run rt =>
    simp only [Session.step] at h
    split at h
    · cases h
    · rename_i i t hpos
      split at h
      · cases h
      · rename_i msg hrun
        split at h
        · cases h
        · rename_i m' c' hu
          simp only [Option.some.injEq, Prod.mk.injEq] at h
          obtain ⟨rfl, rfl⟩ := h
          have hposlt : pos < s.outstanding.length := by
            by_contra hcon
            rw [List.getElem?_eq_none (by omega)] at hpos
            cases hpos
          have hpos0 : pos = 0 := by omega
          subst hpos0
          have hone : s.outstanding.length = 1 := by omega
          have herase : s.outstanding.eraseIdx 0 = [] := by
            cases ho : s.outstanding with
            | nil => rfl
            | cons a l =>
              rw [ho] at hone
              simp at hone
              simp [hone]
          have hne : s.m.phase ≠ "select" := by
            intro hp
            rw [hsel hp] at hone
            simp at hone
          obtain ⟨hct, hph⟩ := updateTaskComplete_tasks s.m m' msg rt c' hu
          refine ⟨⟨by simpa [herase] using hct, ?_⟩, fun hc => ⟨by simp [herase], ?_,
            Or.inr ⟨run, rt, rfl, hone⟩⟩⟩
          · intro hp'
            rcases hph with hph | hph
            · exact absurd (hph ▸ hp') hne
            · rw [hph] at hp'
              exact absurd hp' (by decide)
          · have : 0 < c'.tasks.length := List.length_pos.mpr hc
            omega

theorem Session.run_sequential (ins : List Input) :
    ∀ s s' : Session, Sequential s → s.run ins = some s' → Sequential s' := by
  induction ins with
  | nil =>
    intro s s' hs h
    simp only [Session.run, Option.some.injEq] at h
    exact h ▸ hs
  | cons i is ih =>
    intro s s' hs h
    simp only [Session.run] at h
    split at h
    · cases h
    · rename_i s₁ c hstep
      exact ih s₁ s' (Session.step_sequential s s₁ i c hs hstep).1 h

/-- C4: in every state reachable from `initialModel` (by any messages other than
completion messages, and completion messages only as produced by outstanding
task commands) at most one task command is outstanding; and a step from such
a state issues a task command only when it is the enter key in the selection
phase with nothing outstanding (the command is then the one of the first
selected task) or the return of the single outstanding task, after which the
new command is the only one outstanding. -/
theorem at_most_one_task_outstanding (ins : List Input) (s : Session)
    (h : Session.init.run ins = some s) :
    s.outstanding.length ≤ 1 ∧
    ∀ (inp : Input) (s' : Session) (c : Cmd), s.step inp = some (s', c) →
      s'.outstanding.length ≤ 1 ∧
      (c.tasks ≠ [] →
        s'.outstanding = c.tasks ∧ c.tasks.length = 1 ∧
        ((∃ rt, inp = .msg (.key "enter") rt ∧ s.m.phase = "select" ∧ s.outstanding = [] ∧
            ∃ i t, s.m.getSelectedTasks.head? = some i ∧ c.tasks = [(i, t)]) ∨
         (∃ run rt, inp = .finish 0 run rt ∧ s.outstanding.length = 1))) := by
  have hinit : Sequential Session.init := ⟨by simp [Session.init], fun _ => rfl⟩
  have hs := Session.run_sequential ins Session.init s hinit h
  refine ⟨hs.1, fun inp s' c hstep => ?_⟩
  have := Session.step_sequential s s' inp c hs hstep
  exact ⟨this.1.1, this.2⟩

/-- Witness for C4: from `initialModel`, the enter key and then the return of the
first task (Health Check, failing) lead to a state with exactly one task
command outstanding, the one of the second selected task. -/
theorem at_most_one_task_outstanding_witness :
    ∃ s, Session.init.run
        [.msg (.key "enter") ⟨fun _ => ⟨2024, 5, 1, 10, 0, 0⟩, none⟩,
         .finish 0 ⟨⟨2024, 5, 1, 10, 0, 1⟩, ⟨[.progress 0.1 "Y"], .err "permission denied"⟩,
            ⟨2024, 5, 1, 10, 0, 2⟩⟩ ⟨fun _ => ⟨2024, 5, 1, 10, 0, 2⟩, none⟩] = some s ∧
      s.outstanding.map (·.1) = [1] ∧ s.outstanding.length ≤ 1 := by
  have h : ∃ s, Session.init.run
        [.msg (.key "enter") ⟨fun _ => ⟨2024, 5, 1, 10, 0, 0⟩, none⟩,
         .finish 0 ⟨⟨2024, 5, 1, 10, 0, 1⟩, ⟨[.progress 0.1 "Y"], .err "permission denied"⟩,
            ⟨2024, 5, 1, 10, 0, 2⟩⟩ ⟨fun _ => ⟨2024, 5, 1, 10, 0, 2⟩, none⟩] = some s ∧
      s.outstanding.map (·.1) = [1] := ⟨_, rfl, rfl⟩
  obtain ⟨s, hs, ho⟩ := h
  exact ⟨s, hs, ho, (at_most_one_task_outstanding _ s hs).1⟩

/-! ## The effect of `Update` on the session -/

theorem addLog_length (m : model) (now : Time) (level message : String) :
    (m.addLog now level message).logs.length = min (m.logs.length + 1) 20 := by
  rw [addLog_eq]
  simp only [List.length_drop, List.length_append, List.length_singleton]
  omega

theorem generateReport_fields (m : model) (rt : Runtime) :
    (m.generateReport rt).2 = .nil ∧
    (m.generateReport rt).1 =
      { m with phase := "report", reportGenerated := true,
               logs := (m.generateReport rt).1.logs } ∧
    (m.generateReport rt).1.logs.length ≤ 20 := by
  unfold model.generateReport
  simp only []
  split
  · refine ⟨rfl, ?_, ?_⟩
    · rw [addLog_eq, addLog_eq]
    · rw [addLog_length]; omega
  · refine ⟨rfl, ?_, ?_⟩
    · rw [addLog_eq, addLog_eq]
    · rw [addLog_length]; omega

/-- What `Update` does on a message that is not a completion message: either it
starts the run (`startTasks` with a task selected), or it issues no task
command and leaves the cursor of the run, the counters and the number of
tasks as they are, keeps the selection phase apart from the other phases,
and outside the selection phase leaves the selection as it is. -/
theorem Update_frame (m m' : model) (msg : Msg) (rt : Runtime) (c : Cmd)
    (hmsg : ∀ x, msg ≠ .taskComplete x) (h : m.Update msg rt = some (m', c)) :
    (msg = .key "enter" ∧ m.phase = "select" ∧ 0 < m.getSelectedTasks.length ∧
      m' = m.started rt ∧ m.startTasks rt = some (m', c)) ∨
    (c.tasks = [] ∧ m'.currentTask = m.currentTask ∧ m'.completedTasks = m.completedTasks ∧
      m'.totalTasks = m.totalTasks ∧ m'.overallProgress = m.overallProgress ∧
      m'.tasks.length = m.tasks.length ∧ m'.logs.length ≤ max m.logs.length 20 ∧
      (m.phase = "select" → m'.phase = "select") ∧
      (m.phase ≠ "select" →
        m'.phase ≠ "select" ∧ m'.tasks.map (·.Selected) = m.tasks.map (·.Selected))) := by
  cases msg with
  | taskComplete x => exact absurd rfl (hmsg x)
  | windowSize w ht =>
    simp only [model.Update, Option.some.injEq, Prod.mk.injEq] at h
    obtain ⟨rfl, rfl⟩ := h
    exact Or.inr ⟨rfl, rfl, rfl, rfl, rfl, rfl, by simp, fun hp => hp, fun hp => ⟨hp, rfl⟩⟩
  | spinnerTick =>
    simp only [model.Update, Option.some.injEq, Prod.mk.injEq] at h
    obtain ⟨rfl, rfl⟩ := h
    exact Or.inr ⟨rfl, rfl, rfl, rfl, rfl, rfl, by simp, fun hp => hp, fun hp => ⟨hp, rfl⟩⟩
  | progressFrame =>
    simp only [model.Update, Option.some.injEq, Prod.mk.injEq] at h
    obtain ⟨rfl, rfl⟩ := h
    exact Or.inr ⟨rfl, rfl, rfl, rfl, rfl, rfl, by simp, fun hp => hp, fun hp => ⟨hp, rfl⟩⟩
  | other =>
    simp only [model.Update, Option.some.injEq, Prod.mk.injEq] at h
    obtain ⟨rfl, rfl⟩ := h
    exact Or.inr ⟨rfl, rfl, rfl, rfl, rfl, rfl, by simp, fun hp => hp, fun hp => ⟨hp, rfl⟩⟩
  | log l =>
    simp only [model.Update, Option.some.injEq, Prod.mk.injEq] at h
    obtain ⟨rfl, rfl⟩ := h
    refine Or.inr ⟨rfl, ?_, ?_, ?_, ?_, ?_, ?_, ?_, ?_⟩
    · rw [addLog_eq]
    · rw [addLog_eq]
    · rw [addLog_eq]
    · rw [addLog_eq]
    · rw [addLog_eq]
    · rw [addLog_length]; omega
    · rw [addLog_eq]; exact fun hp => hp
    · rw [addLog_eq]; exact fun hp => ⟨hp, rfl⟩
  | progress p =>
    simp only [model.Update] at h
    split at h
    · split at h
      · cases h
      · rename_i task hidx
        simp only [Option.some.injEq, Prod.mk.injEq] at h
        obtain ⟨rfl, rfl⟩ := h
        refine Or.inr ⟨rfl, ?_, ?_, ?_, ?_, ?_, ?_, ?_, ?_⟩
        · rw [addLog_eq]
        · rw [addLog_eq]
        · rw [addLog_eq]
        · rw [addLog_eq]
        · rw [addLog_eq]; simp
        · rw [addLog_length]; simp only []; omega
        · intro hp; rw [addLog_eq]; exact hp
        · intro hp
          rw [addLog_eq]
          exact ⟨hp, set_map_eq _ _ _ _ _ (index_eq_some _ _ _ hidx).2.2 rfl⟩
    · simp only [Option.some.injEq, Prod.mk.injEq] at h
      obtain ⟨rfl, rfl⟩ := h
      exact Or.inr ⟨rfl, rfl, rfl, rfl, rfl, rfl, by simp, fun hp => hp, fun hp => ⟨hp, rfl⟩⟩
  | key k =>
    simp only [model.Update] at h
    unfold model.updateKey at h
    by_cases hp : m.phase = "select"
    · simp only [hp, if_true] at h
      by_cases hk : k = "enter"
      · subst hk
        simp only [show ¬ ("enter" = "ctrl+c" ∨ "enter" = "q") by decide,
          show ¬ ("enter" = "up" ∨ "enter" = "k") by decide,
          show ¬ ("enter" = "down" ∨ "enter" = "j") by decide,
          show ¬ ("enter" = " ") by decide, if_false, if_true] at h
        by_cases hN : m.getSelectedTasks.length = 0
        · right
          simp only [model.startTasks, hN, if_true, Option.some.injEq, Prod.mk.injEq] at h
          obtain ⟨rfl, rfl⟩ := h
          refine ⟨rfl, ?_, ?_, ?_, ?_, ?_, ?_, ?_, ?_⟩
          · rw [addLog_eq]
          · rw [addLog_eq]
          · rw [addLog_eq]
          · rw [addLog_eq]
          · rw [addLog_eq]
          · rw [addLog_length]; omega
          · rw [addLog_eq]; exact fun _ => hp
          · exact fun hc => absurd hp hc
        · left
          obtain ⟨t, hs⟩ := startTasks_some m rt (by omega)
          have h' := h
          rw [hs] at h
          simp only [Option.some.injEq, Prod.mk.injEq] at h
          exact ⟨rfl, hp, by omega, h.1.symm, h'⟩
      · right
        split_ifs at h
        all_goals first
          | (simp only [Option.some.injEq, Prod.mk.injEq] at h
             obtain ⟨rfl, rfl⟩ := h
             refine ⟨rfl, rfl, rfl, rfl, rfl, by simp, by simp, fun _ => ?_,
               fun hc => absurd hp hc⟩
             first | rfl | exact hp)
          | (split at h
             · cases h
             · simp only [Option.some.injEq, Prod.mk.injEq] at h
               obtain ⟨rfl, rfl⟩ := h
               exact ⟨rfl, rfl, rfl, rfl, rfl, by simp, by simp, fun _ => rfl,
                 fun hc => absurd hp hc⟩)
    · right
      simp only [hp, if_false] at h
      have hrep := generateReport_fields m rt
      split_ifs at h
      all_goals
        simp only [Option.some.injEq] at h
        have h₁ := congrArg Prod.fst h
        have h₂ := congrArg Prod.snd h
        simp only [] at h₁ h₂
        subst h₁ h₂
        first
        | exact ⟨rfl, rfl, rfl, rfl, rfl, rfl, by simp, fun hc => absurd hc hp,
            fun _ => ⟨hp, rfl⟩⟩
        | (refine ⟨by rw [hrep.1]; rfl, ?_, ?_, ?_, ?_, ?_, ?_, fun hc => absurd hc hp,
            fun _ => ⟨?_, ?_⟩⟩
           all_goals first
             | (rw [hrep.2.1]; done)
             | exact le_trans hrep.2.2 (le_max_right _ _)
             | (rw [hrep.2.1]; exact (by decide : ("report" : String) ≠ "select")))

theorem updateTaskComplete_frame (m m' : model) (msg : taskCompleteMsg) (rt : Runtime)
    (c : Cmd) (h : m.updateTaskComplete msg rt = some (m', c)) :
    m'.tasks.map (·.Selected) = m.tasks.map (·.Selected) ∧
    m'.tasks.length = m.tasks.length ∧
    m'.logs.length ≤ max m.logs.length 20 ∧
    (m'.phase = m.phase ∨ m'.phase = "complete") ∧
    m'.totalTasks = m.totalTasks := by
  by_cases hlt : msg.taskIndex < m.tasks.length
  · cases hidx : index m.tasks msg.taskIndex with
    | none => simp [model.updateTaskComplete, hlt, hidx] at h
    | some task =>
      have hsel := afterCompletion_selected m msg rt task hidx
      have hlen : (m.afterCompletion msg rt task).tasks.length = m.tasks.length := by
        simpa using congrArg List.length hsel
      have hlog : (m.afterCompletion msg rt task).logs.length ≤ 20 := by
        show (List.drop _ _).length ≤ 20
        simp only [List.length_drop, List.length_append, List.length_singleton]
        omega
      rw [updateTaskComplete_eq m msg rt task hlt hidx] at h
      split at h
      · simp only [Option.some.injEq, Prod.mk.injEq] at h
        obtain ⟨rfl, rfl⟩ := h
        refine ⟨?_, ?_, ?_, Or.inr ?_, ?_⟩
        · rw [addLog_eq]; exact hsel
        · rw [addLog_eq]; exact hlen
        · rw [addLog_length]; omega
        · rw [addLog_eq]
        · rw [addLog_eq]; rfl
      · cases hex : (m.afterCompletion msg rt task).executeNextTask with
        | none => simp [hex] at h
        | some next =>
          simp only [hex, Option.some.injEq, Prod.mk.injEq] at h
          obtain ⟨rfl, rfl⟩ := h
          exact ⟨hsel, hlen, by omega, Or.inl rfl, rfl⟩
  · simp only [model.updateTaskComplete, hlt, if_false, Option.some.injEq, Prod.mk.injEq] at h
    obtain ⟨rfl, rfl⟩ := h
    exact ⟨rfl, rfl, by simp, Or.inl rfl, rfl⟩

/-- Outside the selection phase every message keeps the selection flags, the
phase stays outside the selection phase, and the log stays within its cap. -/
theorem Update_running (m m' : model) (msg : Msg) (rt : Runtime) (c : Cmd)
    (hp : m.phase ≠ "select") (h : m.Update msg rt = some (m', c)) :
    m'.tasks.map (·.Selected) = m.tasks.map (·.Selected) ∧ m'.phase ≠ "select" := by
  by_cases hmsg : ∀ x, msg ≠ .taskComplete x
  · rcases Update_frame m m' msg rt c hmsg h with ⟨-, hsel, -⟩ | ⟨-, -, -, -, -, -, -, -, hrun⟩
    · exact absurd hsel hp
    · exact ⟨(hrun hp).2, (hrun hp).1⟩
  · push_neg at hmsg
    obtain ⟨x, rfl⟩ := hmsg
    obtain ⟨hsel, -, -, hph, -⟩ := updateTaskComplete_frame m m' x rt c h
    refine ⟨hsel, ?_⟩
    rcases hph with hph | hph
    · rw [hph]; exact hp
    · rw [hph]; decide

theorem Update_logs (m m' : model) (msg : Msg) (rt : Runtime) (c : Cmd)
    (hl : m.logs.length ≤ 20) (h : m.Update msg rt = some (m', c)) :
    m'.logs.length ≤ 20 := by
  by_cases hmsg : ∀ x, msg ≠ .taskComplete x
  · rcases Update_frame m m' msg rt c hmsg h with ⟨-, -, -, rfl, -⟩ |
      ⟨-, -, -, -, -, -, hlog, -⟩
    · show (List.drop _ _).length ≤ 20
      simp only [List.length_drop, List.length_append, List.length_singleton]
      omega
    · omega
  · push_neg at hmsg
    obtain ⟨x, rfl⟩ := hmsg
    have := (updateTaskComplete_frame m m' x rt c h).2.2.1
    omega

theorem Session.step_model (s s' : Session) (inp : Input) (c : Cmd)
    (h : s.step inp = some (s', c)) :
    ∃ msg rt, s.m.Update msg rt = some (s'.m, c) := by
  cases inp with
  | msg msg rt =>
    cases msg with
    | taskComplete x => simp [Session.step] at h
    | _ =>
      simp only [Session.step] at h
      split at h
      · cases h
      · rename_i m' c' hu
        simp only [Option.some.injEq, Prod.mk.injEq] at h
        obtain ⟨rfl, rfl⟩ := h
        exact ⟨_, rt, hu⟩
  | finish pos run rt =>
    simp only [Session.step] at h
    split at h
    · cases h
    · split at h
      · cases h
      · rename_i msg hrun
        split at h
        · cases h
        · rename_i m' c' hu
          simp only [Option.some.injEq, Prod.mk.injEq] at h
          obtain ⟨rfl, rfl⟩ := h
          exact ⟨.taskComplete msg, rt, hu⟩

theorem Session.run_induction (P : model → Prop)
    (hstep : ∀ m m' msg rt c, P m → m.Update msg rt = some (m', c) → P m') :
    ∀ (ins : List Input) (s s' : Session), P s.m → s.run ins = some s' → P s'.m := by
  intro ins
  induction ins with
  | nil =>
    intro s s' hs h
    simp only [Session.run, Option.some.injEq] at h
    exact h ▸ hs
  | cons i is ih =>
    intro s s' hs h
    simp only [Session.run] at h
    split at h
    · cases h
    · rename_i s₁ c hst
      obtain ⟨msg, rt, hu⟩ := Session.step_model s s₁ i c hst
      exact ih s₁ s' (hstep _ _ _ _ _ hs hu) h

theorem executeNextTask_isSome (m : model) (h : 0 ≤ m.currentTask) :
    ∃ c, m.executeNextTask = some c := by
  by_cases hlt : m.currentTask < m.getSelectedTasks.length
  · obtain ⟨t, -, -, hex⟩ := executeNextTask_some m m.currentTask.toNat
      (by omega) (by omega)
    exact ⟨_, hex⟩
  · refine ⟨.nil, ?_⟩
    unfold model.executeNextTask
    simp only []
    rw [if_pos (by omega)]

/-- The two kinds of step: a message other than a completion message handled by
`Update`, or the completion message of an outstanding task closure. -/
theorem Session.step_cases (s s' : Session) (inp : Input) (c : Cmd)
    (h : s.step inp = some (s', c)) :
    (∃ msg rt, (∀ x, msg ≠ .taskComplete x) ∧ s.m.Update msg rt = some (s'.m, c) ∧
      s'.outstanding = s.outstanding ++ c.tasks) ∨
    (∃ pos i t run msg rt, s.outstanding[pos]? = some (i, t) ∧ runTask i t run = some msg ∧
      s.m.updateTaskComplete msg rt = some (s'.m, c) ∧
      s'.outstanding = s.outstanding.eraseIdx pos ++ c.tasks) := by
  cases inp with
  | msg msg rt =>
    cases msg with
    | taskComplete x => simp [Session.step] at h
    | _ =>
      simp only [Session.step] at h
      split at h
      · cases h
      · rename_i m' c' hu
        simp only [Option.some.injEq, Prod.mk.injEq] at h
        obtain ⟨rfl, rfl⟩ := h
        refine Or.inl ⟨_, rt, ?_, hu, rfl⟩
        intro x hx
        cases hx
  | finish pos run rt =>
    simp only [Session.step] at h
    split at h
    · cases h
    · rename_i i t hpos
      split at h
      · cases h
      · rename_i msg hrun
        split at h
        · cases h
        · rename_i m' c' hu
          simp only [Option.some.injEq, Prod.mk.injEq] at h
          obtain ⟨rfl, rfl⟩ := h
          exact Or.inr ⟨pos, i, t, run, msg, rt, hpos, hrun, hu, rfl⟩

/-- The completion message of a run whose counters agree with the selection and
whose cursor is inside it: the cursor and the completed count advance by one
(or nothing changes, when the index of the message is not one of a task),
the overall progress is recomputed from them, and a further task closure is
issued only while the cursor stays inside the selection. -/
theorem updateTaskComplete_counters (m m' : model) (msg : taskCompleteMsg) (rt : Runtime)
    (c : Cmd) (hlen : m.tasks.length < 9223372036854775807)
    (hcc : m.completedTasks = m.currentTask)
    (hprog : m.overallProgress = Float64.ofIntDiv m.completedTasks m.totalTasks)
    (h0 : 0 ≤ m.currentTask) (hlt : m.currentTask < m.getSelectedTasks.length)
    (h : m.updateTaskComplete msg rt = some (m', c)) :
    m'.getSelectedTasks = m.getSelectedTasks ∧
    m'.completedTasks = m'.currentTask ∧
    m'.overallProgress = Float64.ofIntDiv m'.completedTasks m'.totalTasks ∧
    (m'.currentTask = m.currentTask + 1 ∨ (m'.currentTask = m.currentTask ∧ c.tasks = [])) ∧
    (c.tasks ≠ [] → m'.currentTask < m.getSelectedTasks.length) := by
  have hle := getSelectedTasks_length_le m
  by_cases hin : msg.taskIndex < m.tasks.length
  · cases hidx : index m.tasks msg.taskIndex with
    | none => simp [model.updateTaskComplete, hin, hidx] at h
    | some task =>
      have hsel := afterCompletion_getSelectedTasks m msg rt task hidx
      have hcur : (m.afterCompletion msg rt task).currentTask = m.currentTask + 1 := by
        show wrap64 (m.currentTask + 1) = _
        exact wrap64_eq _ (by omega) (by omega)
      have hcom : (m.afterCompletion msg rt task).completedTasks = m.currentTask + 1 := by
        show wrap64 (m.completedTasks + 1) = _
        rw [hcc]
        exact wrap64_eq _ (by omega) (by omega)
      have hpr : (m.afterCompletion msg rt task).overallProgress =
          Float64.ofIntDiv (m.afterCompletion msg rt task).completedTasks
            (m.afterCompletion msg rt task).totalTasks := rfl
      rw [updateTaskComplete_eq m msg rt task hin hidx] at h
      split at h
      · simp only [Option.some.injEq, Prod.mk.injEq] at h
        obtain ⟨rfl, rfl⟩ := h
        refine ⟨?_, ?_, ?_, Or.inl ?_, fun hc => absurd rfl hc⟩
        · rw [← hsel]
          exact getSelectedTasks_congr _ _ (by rw [addLog_eq])
        · rw [addLog_eq]
          show (m.afterCompletion msg rt task).completedTasks =
            (m.afterCompletion msg rt task).currentTask
          rw [hcur, hcom]
        · rw [addLog_eq]
          exact hpr
        · rw [addLog_eq]
          exact hcur
      · rename_i hnot
        cases hex : (m.afterCompletion msg rt task).executeNextTask with
        | none => simp [hex] at h
        | some next =>
          simp only [hex, Option.some.injEq, Prod.mk.injEq] at h
          obtain ⟨rfl, rfl⟩ := h
          refine ⟨hsel, by rw [hcur, hcom], hpr, Or.inl hcur, fun _ => ?_⟩
          omega
  · simp only [model.updateTaskComplete, hin, if_false, Option.some.injEq, Prod.mk.injEq] at h
    obtain ⟨rfl, rfl⟩ := h
    exact ⟨rfl, hcc, hprog, Or.inr ⟨rfl, rfl⟩, fun hc => absurd rfl hc⟩

theorem Session.step_counted (s s' : Session) (inp : Input) (c : Cmd)
    (hs : Sequential s) (hc : Counted s) (h : s.step inp = some (s', c)) : Counted s' := by
  obtain ⟨hlen, hselect, hrun⟩ := hc
  rcases Session.step_cases s s' inp c h with ⟨msg, rt, hmsg, hu, hout⟩ |
    ⟨pos, i, t, run, msg, rt, hpos, -, hu, hout⟩
  · rcases Update_frame s.m s'.m msg rt c hmsg hu with ⟨-, hp, hN, hm', -⟩ |
      ⟨hct, h₁, h₂, h₃, h₄, h₅, -, h₇, h₈⟩
    · have hph : s'.m.phase = "running" := by rw [hm']; rfl
      have hsel : s'.m.getSelectedTasks = s.m.getSelectedTasks := by
        rw [hm']; exact started_getSelectedTasks _ _
      have hne : s'.m.phase ≠ "select" := by rw [hph]; decide
      refine ⟨?_, fun hp' => absurd hp' hne, fun _ => ?_⟩
      · rw [hm']
        show (stampStartTimes _ _ _ _).length < _
        rw [stampStartTimes_length]
        exact hlen
      · rw [hsel]
        have e₁ : s'.m.totalTasks = s.m.getSelectedTasks.length := by rw [hm']; rfl
        have e₂ : s'.m.completedTasks = 0 := by rw [hm']; rfl
        have e₃ : s'.m.currentTask = 0 := by rw [hm']; rfl
        have e₄ : s'.m.overallProgress = .finite 0 := by rw [hm']; rfl
        refine ⟨hN, e₁, by rw [e₂, e₃], ?_, by omega, by omega, fun _ => by omega⟩
        rw [e₄, e₁, e₂]
        have hz : ¬ ((s.m.getSelectedTasks.length : Int) = 0) := by omega
        simp [Float64.ofIntDiv, hz]
    · refine ⟨by omega, fun hp' => ?_, fun hp' => ?_⟩
      · have hp : s.m.phase = "select" := by
          by_contra hcon
          exact (h₈ hcon).1 hp'
        rw [h₁, h₂, h₃]
        exact hselect hp
      · have hp : s.m.phase ≠ "select" := fun hcon => hp' (h₇ hcon)
        have hsel : s'.m.getSelectedTasks = s.m.getSelectedTasks :=
          getSelectedTasks_congr _ _ (h₈ hp).2
        rw [hsel, h₁, h₂, h₃, h₄, hout, hct, List.append_nil]
        exact hrun hp
  · have hposlt : pos < s.outstanding.length := by
      by_contra hcon
      rw [List.getElem?_eq_none (by omega)] at hpos
      cases hpos
    have hne : s.outstanding ≠ [] := by
      intro hcon
      rw [hcon] at hposlt
      simp at hposlt
    have hp : s.m.phase ≠ "select" := fun hcon => hne (hs.2 hcon)
    have herase : s.outstanding.eraseIdx pos = [] := by
      apply List.eq_nil_of_length_eq_zero
      rw [List.length_eraseIdx, if_pos hposlt]
      have := hs.1
      omega
    obtain ⟨hN, htot, hcc, hprog, h0, -, hlt⟩ := hrun hp
    obtain ⟨f₁, f₂, -, f₄, f₅⟩ := updateTaskComplete_frame s.m s'.m msg rt c hu
    obtain ⟨g₁, g₂, g₃, g₄, g₅⟩ := updateTaskComplete_counters s.m s'.m msg rt c hlen hcc hprog h0
      (hlt hne) hu
    have hne' : s'.m.phase ≠ "select" := by
      rcases f₄ with f₄ | f₄
      · rw [f₄]; exact hp
      · rw [f₄]; decide
    refine ⟨by omega, fun hp' => absurd hp' hne', fun _ => ?_⟩
    rw [g₁, f₅]
    refine ⟨hN, htot, g₂, by rw [← f₅]; exact g₃, ?_, ?_, ?_⟩
    · rcases g₄ with g₄ | ⟨g₄, -⟩ <;> omega
    · have := hlt hne
      rcases g₄ with g₄ | ⟨g₄, -⟩ <;> omega
    · intro ho
      rw [hout, herase, List.nil_append] at ho
      exact g₅ ho

theorem Session.run_counted (ins : List Input) :
    ∀ s s' : Session, Sequential s → Counted s → s.run ins = some s' → Counted s' := by
  induction ins with
  | nil =>
    intro s s' _ hc h
    simp only [Session.run, Option.some.injEq] at h
    exact h ▸ hc
  | cons i is ih =>
    intro s s' hs hc h
    simp only [Session.run] at h
    split at h
    · cases h
    · rename_i s₁ c hstep
      exact ih s₁ s' (Session.step_sequential s s₁ i c hs hstep).1
        (Session.step_counted s s₁ i c hs hc hstep) h

/-! ## Lemmas on texts -/

theorem digitChar_isDigit (k : Nat) (h : k < 10) : (Nat.digitChar k).isDigit = true := by
  interval_cases k <;> rfl

theorem toDigitsCore_isDigit (fuel : Nat) :
    ∀ (n : Nat) (ds : List Char), (∀ c ∈ ds, c.isDigit = true) →
      ∀ c ∈ Nat.toDigitsCore 10 fuel n ds, c.isDigit = true := by
  induction fuel with
  | zero =>
    intro n ds h c hc
    exact h c hc
  | succ fuel ih =>
    intro n ds h c hc
    have hds : ∀ c ∈ Nat.digitChar (n % 10) :: ds, c.isDigit = true := by
      intro c hc
      rcases List.mem_cons.mp hc with rfl | hc
      · exact digitChar_isDigit _ (Nat.mod_lt _ (by decide))
      · exact h c hc
    simp only [Nat.toDigitsCore] at hc
    split at hc
    · exact hds c hc
    · exact ih _ _ hds c hc

theorem toString_nat_isDigit (n : Nat) : ∀ c ∈ (toString n).toList, c.isDigit = true := by
  intro c hc
  exact toDigitsCore_isDigit _ n [] (fun _ h => absurd h (List.not_mem_nil _)) c hc

theorem padded_isDigit (width n : Nat) : ∀ c ∈ (padded width n).toList, c.isDigit = true := by
  intro c hc
  unfold padded at hc
  simp only [String.toList, String.data_append, List.mem_append, List.mem_replicate] at hc
  rcases hc with ⟨-, rfl⟩ | hc
  · rfl
  · exact toString_nat_isDigit n c hc

theorem clock_no_break (t : Time) : '\n' ∉ t.clock.toList := by
  intro h
  unfold Time.clock at h
  simp only [String.toList, String.data_append, List.mem_append] at h
  have hd : ∀ w n, '\n' ∉ (padded w n).toList := fun w n hc =>
    absurd (padded_isDigit w n _ hc) (by decide)
  rcases h with (((h | h) | h) | h) | h
  · exact hd _ _ h
  · exact absurd h (by decide)
  · exact hd _ _ h
  · exact absurd h (by decide)
  · exact hd _ _ h

theorem Contains_iff (s sub : String) : Contains s sub = true ↔ sub.toList <:+: s.toList := by
  unfold Contains
  rw [List.any_eq_true, List.infix_iff_prefix_suffix]
  simp only [List.mem_tails, List.isPrefixOf_iff_prefix]
  constructor
  · rintro ⟨t, h₁, h₂⟩
    exact ⟨t, h₂, h₁⟩
  · rintro ⟨t, h₁, h₂⟩
    exact ⟨t, h₂, h₁⟩

theorem Contains_join (ws : List String) (w sub : String) (hw : w ∈ ws)
    (h : sub.toList <:+: w.toList) : Contains (String.join ws) sub = true := by
  rw [Contains_iff]
  refine h.trans ?_
  show w.data <:+: (String.join ws).data
  rw [String.data_join]
  exact List.infix_of_mem_flatten (List.mem_map_of_mem _ hw)

theorem Contains_false_of_not_mem (s sub : String) (c : Char) (hc : c ∈ sub.toList)
    (hs : c ∉ s.toList) : Contains s sub = false := by
  by_contra h
  rw [Bool.not_eq_false, Contains_iff] at h
  exact hs (h.subset hc)

theorem flatten_infix {α : Type} (L₁ L₂ : List (List α)) (h : L₁ <:+: L₂) :
    L₁.flatten <:+: L₂.flatten := by
  obtain ⟨s, t, rfl⟩ := h
  simp only [List.flatten_append]
  exact List.infix_append _ _ _

theorem intercalate_go_toList (s : String) : ∀ (as : List String) (acc : String),
    (String.intercalate.go acc s as).toList =
      acc.toList ++ (as.map fun a => s.toList ++ a.toList).flatten := by
  intro as
  induction as with
  | nil =>
    intro acc
    simp [String.intercalate.go]
  | cons a as ih =>
    intro acc
    rw [String.intercalate.go, ih]
    simp only [String.toList, String.data_append, List.map_cons, List.flatten_cons,
      List.append_assoc]

theorem flatten_sep_shift (s : List Char) : ∀ (as : List (List Char)) (a : List Char),
    a ++ (as.map fun x => s ++ x).flatten ++ s = ((a :: as).map fun x => x ++ s).flatten := by
  intro as
  induction as with
  | nil =>
    intro a
    simp
  | cons b as ih =>
    intro a
    have := ih b
    simp only [List.map_cons, List.flatten_cons, List.append_assoc] at this ⊢
    rw [this]

theorem intercalate_leading (s : String) (as : List String) :
    (String.intercalate s as).toList <+: (as.map fun x => x.toList ++ s.toList).flatten := by
  cases as with
  | nil => exact List.nil_prefix
  | cons a as =>
    refine ⟨s.toList, ?_⟩
    show (String.intercalate.go a s as).toList ++ s.toList = _
    rw [intercalate_go_toList]
    have := flatten_sep_shift s.toList (as.map String.toList) a.toList
    simp only [List.map_map, List.map_cons] at this
    exact this

theorem splitChars_line (sep : Char) (l r : List Char) (h : sep ∉ l) :
    splitChars sep (l ++ sep :: r) = l :: splitChars sep r := by
  induction l with
  | nil => simp [splitChars]
  | cons c l ih =>
    have hc : c ≠ sep := fun e => h (e ▸ List.mem_cons_self _ _)
    have hl : sep ∉ l := fun e => h (List.mem_cons_of_mem _ e)
    rw [List.cons_append, splitChars, if_neg hc, ih hl]

theorem splitChars_lines (sep : Char) (L : List (List Char)) (h : ∀ l ∈ L, sep ∉ l) :
    splitChars sep (L.map (· ++ [sep])).flatten = L ++ [[]] := by
  induction L with
  | nil => rfl
  | cons l L ih =>
    simp only [List.map_cons, List.flatten_cons, List.append_assoc, List.singleton_append]
    rw [splitChars_line sep l _ (h l (List.mem_cons_self _ _)),
      ih (fun x hx => h x (List.mem_cons_of_mem _ hx))]
    rfl

theorem isPrefixOf_append_of_length (p : List Char) :
    ∀ (a x : List Char), p.length ≤ a.length → p.isPrefixOf (a ++ x) = p.isPrefixOf a := by
  induction p with
  | nil =>
    intro a x _
    simp
  | cons c p ih =>
    intro a x h
    cases a with
    | nil => simp at h
    | cons d a =>
      show (c == d && p.isPrefixOf (a ++ x)) = (c == d && p.isPrefixOf a)
      rw [ih a x (by simpa using h)]

theorem StatusLines.nil : StatusLines [] 0 :=
  ⟨[], rfl, fun _ h => absurd h (List.not_mem_nil _), rfl⟩

theorem StatusLines.concat {W₁ W₂ : List String} {k₁ k₂ : Nat} (h₁ : StatusLines W₁ k₁)
    (h₂ : StatusLines W₂ k₂) : StatusLines (W₁ ++ W₂) (k₁ + k₂) := by
  obtain ⟨L₁, e₁, n₁, c₁⟩ := h₁
  obtain ⟨L₂, e₂, n₂, c₂⟩ := h₂
  refine ⟨L₁ ++ L₂, ?_, ?_, ?_⟩
  · simp only [String.toList, String.data_join] at e₁ e₂ ⊢
    rw [List.map_append, List.flatten_append, e₁, e₂, List.map_append, List.flatten_append]
  · intro l hl
    rcases List.mem_append.mp hl with hl | hl
    · exact n₁ l hl
    · exact n₂ l hl
  · rw [List.countP_append, c₁, c₂]

theorem StatusLines.line (l : String) (h : '\n' ∉ l.toList) :
    StatusLines [l ++ "\n"]
      (if "Status: ".toList.isPrefixOf l.toList = true then 1 else 0) := by
  refine ⟨[l.toList], ?_, ?_, ?_⟩
  · simp only [String.toList, String.data_join, List.map_cons, List.map_nil, List.flatten_cons,
      List.flatten_nil, List.append_nil, String.data_append]
  · intro x hx
    rw [List.mem_singleton.mp hx]
    exact h
  · simp only [List.countP_cons, List.countP_nil, Nat.zero_add]

theorem StatusLines.count {W : List String} {k : Nat} (h : StatusLines W k) :
    statusLines (String.join W) = k := by
  obtain ⟨L, e, n, c⟩ := h
  unfold statusLines
  rw [e, splitChars_lines '\n' L n, ← List.countP_eq_length_filter, List.countP_append, c]
  rfl

theorem StatusLines.cons {W : List String} {k : Nat} (l : String) (h : '\n' ∉ l.toList)
    (hW : StatusLines W k) :
    StatusLines ((l ++ "\n") :: W)
      ((if "Status: ".toList.isPrefixOf l.toList = true then 1 else 0) + k) :=
  StatusLines.concat (StatusLines.line l h) hW

theorem not_mem_append_toList (c : Char) (a b : String) (ha : c ∉ a.toList)
    (hb : c ∉ b.toList) : c ∉ (a ++ b).toList := by
  intro h
  simp only [String.toList, String.data_append, List.mem_append] at h
  rcases h with h | h
  · exact ha h
  · exact hb h

theorem StatusLines.cons_other {W : List String} {k : Nat} (l : String)
    (h : '\n' ∉ l.toList) (hP : "Status: ".toList.isPrefixOf l.toList = false)
    (hW : StatusLines W k) : StatusLines ((l ++ "\n") :: W) k := by
  have := StatusLines.cons l h hW
  rw [hP] at this
  simpa using this

theorem StatusLines.cons_status {W : List String} {k : Nat} (l : String)
    (h : '\n' ∉ l.toList) (hP : "Status: ".toList.isPrefixOf l.toList = true)
    (hW : StatusLines W k) : StatusLines ((l ++ "\n") :: W) (k + 1) := by
  have := StatusLines.cons l h hW
  rw [hP, if_pos rfl, Nat.add_comm] at this
  exact this

theorem not_status_append (a b : String) (hlen : 8 ≤ a.toList.length)
    (ha : "Status: ".toList.isPrefixOf a.toList = false) :
    "Status: ".toList.isPrefixOf (a ++ b).toList = false := by
  have : (a ++ b).toList = a.toList ++ b.toList := rfl
  rw [this, isPrefixOf_append_of_length _ _ _ (by exact hlen), ha]

theorem taskWrites_statusLines (duration : Time → Time → String) (task : Task)
    (h : task.singleLine duration = true) : StatusLines (taskWrites duration task) 1 := by
  simp only [Task.singleLine, Bool.and_eq_true, Bool.not_eq_true', Bool.or_eq_true,
    List.contains_eq_any_beq, List.any_eq_false, List.all_eq_true, beq_iff_eq] at h
  obtain ⟨⟨⟨⟨⟨⟨⟨hI, hN⟩, hD⟩, hS⟩, hE⟩, hDet⟩, hDur⟩, hHead⟩ := h
  have nb : ∀ s : String, (∀ x ∈ s.toList, ¬ '\n' = x) → '\n' ∉ s.toList :=
    fun s hs hc => hs _ hc rfl
  have p1 : StatusLines
      [task.Icon ++ " " ++ task.Name ++ "\n", "Description: " ++ task.Description ++ "\n",
       "Status: " ++ task.Status ++ "\n"] 1 := by
    refine StatusLines.cons_other _ ?_ hHead (StatusLines.cons_other _ ?_ ?_
      (StatusLines.cons_status _ ?_ ?_ StatusLines.nil))
    · exact not_mem_append_toList _ _ _
        (not_mem_append_toList _ _ _ (nb _ hI) (by decide)) (nb _ hN)
    · exact not_mem_append_toList _ _ _ (by decide) (nb _ hD)
    · exact not_status_append _ _ (by decide) (by decide)
    · exact not_mem_append_toList _ _ _ (by decide) (nb _ hS)
    · exact List.isPrefixOf_iff_prefix.mpr ⟨task.Status.toList, rfl⟩
  have p2 : StatusLines
      (if !task.StartTime.IsZero then ["Start Time: " ++ task.StartTime.clock ++ "\n"]
       else []) 0 := by
    split
    · exact StatusLines.cons_other _
        (not_mem_append_toList _ _ _ (by decide) (clock_no_break _))
        (not_status_append _ _ (by decide) (by decide)) StatusLines.nil
    · exact StatusLines.nil
  have p3 : StatusLines
      (if !task.EndTime.IsZero then
        ["End Time: " ++ task.EndTime.clock ++ "\n",
         "Duration: " ++ duration task.StartTime task.EndTime ++ "\n"]
       else []) 0 := by
    split
    · rename_i hz
      have hdur : '\n' ∉ (duration task.StartTime task.EndTime).toList := by
        rcases hDur with hDur | hDur
        · rw [hDur] at hz
          cases hz
        · exact nb _ hDur
      exact StatusLines.cons_other _
        (not_mem_append_toList _ _ _ (by decide) (clock_no_break _))
        (not_status_append _ _ (by decide) (by decide))
        (StatusLines.cons_other _ (not_mem_append_toList _ _ _ (by decide) hdur)
          (not_status_append _ _ (by decide) (by decide)) StatusLines.nil)
    · exact StatusLines.nil
  have p4 : StatusLines
      (match task.Error with
        | some err => ["❌ ERROR: " ++ err ++ "\n"]
        | none => []) 0 := by
    cases he : task.Error with
    | none => exact StatusLines.nil
    | some err =>
      rw [he] at hE
      simp only [Bool.not_eq_true', List.any_eq_false, beq_iff_eq] at hE
      exact StatusLines.cons_other _ (not_mem_append_toList _ _ _ (by decide) (nb _ hE))
        (not_status_append _ _ (by decide) (by decide)) StatusLines.nil
  have p5' : ∀ ds : List String, (∀ x ∈ ds, ∀ c ∈ x.toList, ¬ '\n' = c) →
      StatusLines (ds.map fun detail => "  • " ++ detail ++ "\n") 0 := by
    intro ds
    induction ds with
    | nil => exact fun _ => StatusLines.nil
    | cons d ds ih =>
      intro hds
      exact StatusLines.cons_other _
        (not_mem_append_toList _ _ _ (by decide) (nb _ (hds d (List.mem_cons_self _ _))))
        rfl (ih fun x hx => hds x (List.mem_cons_of_mem _ hx))
  have p5 : StatusLines
      (if task.Details.length > 0 then
        "Progress Details:\n" :: task.Details.map fun detail => "  • " ++ detail ++ "\n"
       else []) 0 := by
    split
    · exact StatusLines.cons_other "Progress Details:" (by decide) (by decide) (p5' _ hDet)
    · exact StatusLines.nil
  have p6 : StatusLines ["\n" ++ String.mk (List.replicate 40 '-') ++ "\n\n"] 0 :=
    ⟨[[], List.replicate 40 '-', []], by decide, by decide, by decide⟩
  exact ((((p1.concat p2).concat p3).concat p4).concat p5).concat p6

theorem filter_eq_filterMap_range {α : Type} (p : α → Bool) (xs : List α) :
    xs.filter p = ((List.range xs.length).filter fun i =>
        match xs[i]? with
        | some a => p a
        | none => false).filterMap (fun i => xs[i]?) := by
  induction xs using List.reverseRecOn with
  | nil => rfl
  | append_singleton ys a ih =>
    rw [List.length_append, List.length_singleton, List.range_succ, List.filter_append,
      List.filter_append, List.filterMap_append]
    congr 1
    · rw [ih]
      have h₁ : (List.range ys.length).filter (fun i =>
            match (ys ++ [a])[i]? with
            | some a => p a
            | none => false) =
          (List.range ys.length).filter (fun i =>
            match ys[i]? with
            | some a => p a
            | none => false) := by
        apply List.filter_congr
        intro i hi
        rw [List.getElem?_append_left (List.mem_range.mp hi)]
      rw [h₁]
      apply List.filterMap_congr
      intro i hi
      rw [List.getElem?_append_left (List.mem_range.mp (List.mem_of_mem_filter hi))]
    · cases hp : p a <;> simp [hp]

theorem selected_tasks_eq (m : model) :
    (m.tasks.filter fun task => task.Selected) =
      m.getSelectedTasks.filterMap fun i => m.tasks[i]? := by
  unfold model.getSelectedTasks
  refine (filter_eq_filterMap_range (fun task : Task => task.Selected) m.tasks).trans ?_
  congr 1
  apply List.filter_congr
  intro i _
  cases m.tasks[i]? <;> rfl

theorem join_append (a b : List String) :
    String.join (a ++ b) = String.join a ++ String.join b := by
  apply String.ext
  simp only [String.data_join, String.data_append, List.map_append, List.flatten_append]

theorem join_flatten_map {α : Type} (f : α → List String) (xs : List α) :
    String.join (xs.map f).flatten = String.join (xs.map fun x => String.join (f x)) := by
  induction xs with
  | nil => rfl
  | cons x xs ih =>
    rw [List.map_cons, List.flatten_cons, join_append, ih]
    apply String.ext
    simp only [String.data_join, String.data_append, List.map_cons, List.flatten_cons]

theorem createDetailedReport_eq (m : model) (now : Time) (duration : Time → Time → String) :
    m.createDetailedReport now duration =
      String.join
        ["🐧 UBUBU 1.0 - SYSTEM OPTIMIZATION REPORT\n",
         String.mk (List.replicate 60 '=') ++ "\n",
         "Generated: " ++ now.stamp ++ "\n",
         "Total Tasks: " ++ toString m.totalTasks ++ "\n",
         "Completed: " ++ toString m.completedTasks ++ "\n",
         "Overall Progress: " ++ m.overallProgress.percentText ++ "%\n\n",
         "📋 TASK DETAILS\n",
         String.mk (List.replicate 40 '-') ++ "\n\n"] ++
      String.join ((m.getSelectedTasks.filterMap fun i => m.tasks[i]?).map fun task =>
        String.join (taskWrites duration task)) ++
      (if m.logs = [] then ""
       else "📝 EXECUTION LOG\n" ++ (String.mk (List.replicate 40 '-') ++ "\n\n") ++
         String.join (m.logs.map fun log => log ++ "\n") ++ "\n") ++
      ("💡 RECOMMENDATIONS\n" ++ (String.mk (List.replicate 40 '-') ++ "\n\n") ++
        String.join m.adviceWrites ++
        "Generated by Ububu 1.0 - Ubuntu System Optimizer\n" ++
        "https://github.com/rokoss21/ububu\n") := by
  unfold model.createDetailedReport model.reportWrites model.logWrites
  rw [← selected_tasks_eq]
  apply String.ext
  have hf : (String.data ∘ fun task => String.join (taskWrites duration task)) =
      (List.flatten ∘ List.map String.data ∘ taskWrites duration) := by
    funext task
    simp only [Function.comp, String.data_join]
  by_cases hl : m.logs = []
  · have : ¬ (m.logs.length > 0) := by simp [hl]
    rw [if_neg this, if_pos hl]
    simp only [String.data_join, String.data_append, List.map_append, List.flatten_append,
      List.map_cons, List.flatten_cons, List.map_nil, List.flatten_nil, List.append_assoc,
      List.append_nil, List.map_map, List.map_flatten, List.flatten_flatten, hf]
  · have : m.logs.length > 0 := List.length_pos.mpr hl
    rw [if_pos this, if_neg hl]
    simp only [String.data_join, String.data_append, List.map_append, List.flatten_append,
      List.map_cons, List.flatten_cons, List.map_nil, List.flatten_nil, List.append_assoc,
      List.append_nil, List.map_map, List.map_flatten, List.flatten_flatten, hf]

theorem logWrites_within (m : model) (now : Time) (duration : Time → Time → String)
    (hl : m.logs ≠ []) :
    (m.logs.map fun log => log ++ "\n") <:+: m.reportWrites now duration := by
  have : m.logs.length > 0 := List.length_pos.mpr hl
  unfold model.reportWrites model.logWrites
  rw [if_pos this]
  exact (List.infix_append _ _ _).trans ((List.suffix_append _ _).isInfix.trans
    ((List.prefix_append _ _).isInfix.trans ((List.prefix_append _ _).isInfix.trans
      (List.prefix_append _ _).isInfix)))

theorem createDetailedReport_contains_entry (m : model) (now : Time)
    (duration : Time → Time → String) (entry : String) (h : entry ∈ m.logs) :
    Contains (m.createDetailedReport now duration) entry = true := by
  have hl : m.logs ≠ [] := List.ne_nil_of_mem h
  refine Contains_join _ (entry ++ "\n") entry ?_ ⟨[], "\n".toList, rfl⟩
  exact (logWrites_within m now duration hl).subset
    (List.mem_map_of_mem (fun log => log ++ "\n") h)

theorem createDetailedReport_contains_logs (m : model) (now : Time)
    (duration : Time → Time → String) :
    Contains (m.createDetailedReport now duration) (String.intercalate "\n" m.logs) = true := by
  rw [Contains_iff]
  by_cases hl : m.logs = []
  · rw [hl]
    exact List.nil_infix
  · refine (intercalate_leading "\n" m.logs).isInfix.trans ?_
    have h₁ : (m.logs.map fun x => x.toList ++ "\n".toList) =
        (m.logs.map fun log => log ++ "\n").map String.data := by
      rw [List.map_map]
      rfl
    have h₂ : (m.createDetailedReport now duration).toList =
        ((m.reportWrites now duration).map String.data).flatten := String.data_join _
    rw [h₁, h₂]
    apply flatten_infix
    obtain ⟨s, t, e⟩ := logWrites_within m now duration hl
    exact ⟨s.map String.data, t.map String.data, by rw [← e]; simp only [List.map_append]⟩

theorem not_mem_join (c : Char) (ws : List String) (h : ∀ w ∈ ws, c ∉ w.toList) :
    c ∉ (String.join ws).toList := by
  intro hc
  have hd : (String.join ws).toList = (ws.map String.data).flatten := String.data_join _
  rw [hd, List.mem_flatten] at hc
  obtain ⟨l, hl, hcl⟩ := hc
  obtain ⟨w, hw, rfl⟩ := List.mem_map.mp hl
  exact h w hw hcl

theorem failedTasks_pos_iff (m : model) :
    0 < m.failedTasks ↔ ∃ task ∈ m.tasks, task.Selected = true ∧ task.Error ≠ none := by
  unfold model.failedTasks
  rw [List.length_pos_iff_exists_mem]
  constructor
  · rintro ⟨task, ht⟩
    rw [List.mem_filter, Bool.and_eq_true, Option.isSome_iff_ne_none] at ht
    exact ⟨task, ht.1, ht.2⟩
  · rintro ⟨task, ht, hs⟩
    refine ⟨task, ?_⟩
    rw [List.mem_filter, Bool.and_eq_true, Option.isSome_iff_ne_none]
    exact ⟨ht, hs⟩

theorem adviceWrites_failed (m : model) (h : 0 < m.failedTasks) :
    m.adviceWrites =
      ["⚠️  " ++ toString m.failedTasks ++ " task(s) failed. Review error details above.\n",
       "• Check system permissions for failed operations\n",
       "• Ensure sufficient disk space for cleanup operations\n",
       "• Verify network connectivity for update operations\n\n"] := by
  unfold model.adviceWrites
  rw [if_pos h]

theorem adviceWrites_succeeded (m : model) (h : m.failedTasks = 0) :
    m.adviceWrites =
      ["✅ All selected tasks completed successfully!\n",
       "• System optimization completed without errors\n",
       "• Consider running optimization regularly for best performance\n\n"] := by
  unfold model.adviceWrites
  rw [if_neg (by omega)]

theorem adviceWrites_failed_text (m : model) (h : 0 < m.failedTasks) :
    Contains (String.join m.adviceWrites) (toString m.failedTasks ++ " task(s) failed") = true ∧
    Contains (String.join m.adviceWrites) "All selected tasks completed successfully!" =
      false := by
  rw [adviceWrites_failed m h]
  constructor
  · refine Contains_join _ _ _ (List.mem_cons_self _ _) ?_
    refine ⟨"⚠️  ".toList, ". Review error details above.\n".toList, ?_⟩
    have e : " task(s) failed".data ++ ". Review error details above.\n".data =
        " task(s) failed. Review error details above.\n".data := by decide
    show "⚠️  ".data ++ ((toString m.failedTasks).data ++ " task(s) failed".data) ++
        ". Review error details above.\n".data =
      "⚠️  ".data ++ (toString m.failedTasks).data ++
        " task(s) failed. Review error details above.\n".data
    rw [← e]
    simp only [List.append_assoc]
  · refine Contains_false_of_not_mem _ _ 'A' (by decide) (not_mem_join _ _ ?_)
    intro w hw
    simp only [List.mem_cons, List.mem_singleton, List.not_mem_nil, or_false] at hw
    rcases hw with rfl | rfl | rfl | rfl
    · refine not_mem_append_toList _ _ _ (not_mem_append_toList _ _ _ (by decide) ?_)
        (by decide)
      exact fun hc => absurd (toString_nat_isDigit _ _ hc) (by decide)
    · decide
    · decide
    · decide

theorem adviceWrites_succeeded_text (m : model) (h : m.failedTasks = 0) :
    Contains (String.join m.adviceWrites) "All selected tasks completed successfully!" =
      true ∧
    Contains (String.join m.adviceWrites) "task(s) failed" = false := by
  rw [adviceWrites_succeeded m h]
  exact ⟨by decide, by decide⟩

theorem createDetailedReport_contains_advice (m : model) (now : Time)
    (duration : Time → Time → String) :
    Contains (m.createDetailedReport now duration)
      ("💡 RECOMMENDATIONS\n" ++ (String.mk (List.replicate 40 '-') ++ "\n\n") ++
        String.join m.adviceWrites) = true := by
  rw [Contains_iff, createDetailedReport_eq]
  simp only [String.toList, String.data_append]
  exact (List.prefix_append _ _).isInfix.trans ((List.prefix_append _ _).isInfix.trans
    (List.suffix_append _ _).isInfix)

theorem length_filterMap_some {α β : Type} (f : α → Option β) (l : List α)
    (h : ∀ a ∈ l, (f a).isSome = true) : (l.filterMap f).length = l.length := by
  induction l with
  | nil => rfl
  | cons a l ih =>
    obtain ⟨b, hb⟩ := Option.isSome_iff_exists.mp (h a (List.mem_cons_self _ _))
    rw [List.filterMap_cons_some hb, List.length_cons, List.length_cons,
      ih (fun x hx => h x (List.mem_cons_of_mem _ hx))]

/-! ## Theorems on the session, the log and the report request -/

/-- C11 (the code breaks it): without root, when every `sudo` command fails,
`OptimizationModule.Execute` still returns nil, and so does
`DriversModule.Execute` when `ubuntu-drivers devices` is not available;
indeed `OptimizationModule.Execute` returns nil in every environment and
`DriversModule.Execute` whenever `ubuntu-drivers devices` fails. Only
`UpdatesModule.Execute` returns an error as soon as `sudo apt update` fails. -/
theorem Execute_without_root :
    (OptimizationModule.Execute
      { lsblk := .ok "NAME ROTA\nsda     0\n"
        fstrim := some "exit status 1"
        swappinessFile := .ok "60\n"
        sysctlSet := some "exit status 1"
        sysctlPersist := some "exit status 1"
        flushDns := some "exit status 1"
        resolveFlush := some "exit status 1"
        restartNetworkManager := some "exit status 1" }).ret = .nil ∧
    (DriversModule.Execute
      { ubuntuDriversDevices := .error "exec: \"ubuntu-drivers\": executable file not found in $PATH"
        autoinstall := some "exit status 1"
        nvidiaSmi := some "exit status 1"
        lspci := .error "exit status 1" }).ret = .nil ∧
    (∀ env : OptimizationEnv, (OptimizationModule.Execute env).ret = .nil) ∧
    (∀ (env : DriversEnv) (e : Err),
      (DriversModule.Execute { env with ubuntuDriversDevices := .error e }).ret = .nil) ∧
    (∀ (env : UpdatesEnv) (e : Err),
      (UpdatesModule.Execute { env with aptUpdate := some e }).ret =
        .err ("failed to update package lists: " ++ e)) := by
  refine ⟨?_, ?_, ?_, ?_, ?_⟩
  · obtain ⟨m₁, m₂, m₃, h⟩ := OptimizationModule.Execute_shape
      { lsblk := .ok "NAME ROTA\nsda     0\n"
        fstrim := some "exit status 1"
        swappinessFile := .ok "60\n"
        sysctlSet := some "exit status 1"
        sysctlPersist := some "exit status 1"
        flushDns := some "exit status 1"
        resolveFlush := some "exit status 1"
        restartNetworkManager := some "exit status 1" }
    rw [h]
  · simp [DriversModule.Execute, DriversModule.checkManualDrivers, Exec.after, Exec.done]
  · intro env
    obtain ⟨m₁, m₂, m₃, h⟩ := OptimizationModule.Execute_shape env
    rw [h]
  · intro env e
    unfold DriversModule.Execute DriversModule.checkManualDrivers
    simp only [Exec.after, Exec.done]
    repeat' split
    all_goals rfl
  · intro env e
    simp [UpdatesModule.Execute, Exec.after, Exec.done]

/-- C15 (counterexample): requesting a report from `initialModel` changes the
log: the returned model has log entries, the input has none. -/
theorem generateReport_changes_log :
    (initialModel.generateReport ⟨fun _ => ⟨2024, 5, 1, 10, 0, 0⟩, none⟩).1.logs ≠
      initialModel.logs := by
  decide

/-- C15 (amended): `generateReport` appends two entries to the log, the request
("Generating detailed report...") and the result of saving the file, and
keeps the last 20 entries; the earlier entries are not altered. -/
theorem generateReport_logs (m : model) (rt : Runtime) :
    (m.generateReport rt).1.logs =
      List.drop (m.logs.length + 2 - 20)
        (m.logs ++
          ["[" ++ (rt.now 0).clock ++ "] " ++ "📄 Generating detailed report...",
           "[" ++ (rt.now 3).clock ++ "] " ++
             (match rt.writeFile with
              | some err => "Failed to save report: " ++ err
              | none => "📄 Report saved to: " ++
                  ("ububu_report_" ++ (rt.now 2).fileStamp ++ ".txt"))]) := by
  have key : ∀ (l : List String) (e₁ e₂ : String),
      List.drop ((List.drop (l.length + 1 - 20) (l ++ [e₁])).length + 1 - 20)
        (List.drop (l.length + 1 - 20) (l ++ [e₁]) ++ [e₂]) =
      List.drop (l.length + 2 - 20) (l ++ [e₁, e₂]) := by
    intro l e₁ e₂
    have h₁ : l ++ [e₁, e₂] = (l ++ [e₁]) ++ [e₂] := by simp
    rw [h₁, ← List.drop_append_of_le_length (by simp; omega), List.drop_drop]
    congr 1
    simp only [List.length_drop, List.length_append, List.length_singleton]
    omega
  unfold model.generateReport
  simp only []
  split <;> rw [addLog_eq, addLog_eq] <;> exact key _ _ _

/-- C16 (counterexample): the model returned for a report request from
`initialModel` is not the input with only the phase and the report flag
changed. -/
theorem generateReport_changes_more :
    (initialModel.generateReport ⟨fun _ => ⟨2024, 5, 1, 10, 0, 0⟩, none⟩).1 ≠
      { initialModel with phase := "report", reportGenerated := true } := by
  intro h
  have := congrArg model.logs h
  revert this
  decide

/-- C16 (amended): `generateReport` returns no command and a model whose tasks,
cursor of the run, counters, overall progress, running flag and cursor equal
those of the input; only the phase (set to "report"), the report-generated
flag (set) and the log change. -/
theorem generateReport_session_untouched (m : model) (rt : Runtime) :
    (m.generateReport rt).2 = .nil ∧
    (m.generateReport rt).1.tasks = m.tasks ∧
    (m.generateReport rt).1.currentTask = m.currentTask ∧
    (m.generateReport rt).1.totalTasks = m.totalTasks ∧
    (m.generateReport rt).1.completedTasks = m.completedTasks ∧
    (m.generateReport rt).1.overallProgress = m.overallProgress ∧
    (m.generateReport rt).1.running = m.running ∧
    (m.generateReport rt).1.cursor = m.cursor ∧
    (m.generateReport rt).1.phase = "report" ∧
    (m.generateReport rt).1.reportGenerated = true ∧
    (m.generateReport rt).1 =
      { m with phase := "report", reportGenerated := true,
               logs := (m.generateReport rt).1.logs } := by
  obtain ⟨h₁, h₂, -⟩ := generateReport_fields m rt
  refine ⟨h₁, ?_, ?_, ?_, ?_, ?_, ?_, ?_, ?_, ?_, h₂⟩ <;> rw [h₂]

/-- C17: for a log of length n <= 20, the log after `addLog` is the last
min(n+1, 20) elements of the old log followed by the new entry, in their
order and with the new entry last; hence the log never has more than 20
entries in a state reachable from `initialModel`. -/
theorem addLog_keeps_last_twenty (m : model) (now : Time) (level message : String)
    (h : m.logs.length ≤ 20) :
    (m.addLog now level message).logs =
      List.drop ((m.logs ++ ["[" ++ now.clock ++ "] " ++ message]).length -
          min (m.logs.length + 1) 20)
        (m.logs ++ ["[" ++ now.clock ++ "] " ++ message]) ∧
    (m.addLog now level message).logs.length = min (m.logs.length + 1) 20 ∧
    (m.addLog now level message).logs.getLast? = some ("[" ++ now.clock ++ "] " ++ message) ∧
    List.IsSuffix (m.addLog now level message).logs
      (m.logs ++ ["[" ++ now.clock ++ "] " ++ message]) ∧
    (∀ (ins : List Input) (s : Session), Session.init.run ins = some s →
      s.m.logs.length ≤ 20) := by
  refine ⟨?_, addLog_length m now level message, ?_, ?_, ?_⟩
  · rw [addLog_eq]
    simp only [List.length_append, List.length_singleton]
    congr 1
    omega
  · rw [addLog_eq]
    simp only []
    rw [List.drop_append_of_le_length (by omega), List.getLast?_concat]
  · rw [addLog_eq]
    exact List.drop_suffix _ _
  · intro ins s hs
    exact Session.run_induction (fun m => m.logs.length ≤ 20)
      (fun m m' msg rt c hm hu => Update_logs m m' msg rt c hm hu) ins Session.init s
      (by decide) hs

/-- Witness for C17: the first entry logged in `initialModel`. -/
theorem addLog_keeps_last_twenty_witness :
    (initialModel.addLog ⟨2024, 5, 1, 10, 0, 0⟩ "INFO" "hello").logs.length = 1 ∧
    (initialModel.addLog ⟨2024, 5, 1, 10, 0, 0⟩ "INFO" "hello").logs.getLast? =
      some ("[" ++ (⟨2024, 5, 1, 10, 0, 0⟩ : Time).clock ++ "] " ++ "hello") :=
  ⟨(addLog_keeps_last_twenty initialModel ⟨2024, 5, 1, 10, 0, 0⟩ "INFO" "hello"
      (by decide)).2.1,
   (addLog_keeps_last_twenty initialModel ⟨2024, 5, 1, 10, 0, 0⟩ "INFO" "hello"
      (by decide)).2.2.1⟩

/-- C18: for every model whose phase is not "select" and for every message,
`Update` leaves the `Selected` flag of every task unchanged and the phase
outside "select", so `getSelectedTasks` returns the same list after the
message and after any further sequence of inputs. -/
theorem selection_frozen (m : model) (hp : m.phase ≠ "select") :
    (∀ (msg : Msg) (rt : Runtime) (m' : model) (c : Cmd),
      m.Update msg rt = some (m', c) →
        m'.tasks.map (·.Selected) = m.tasks.map (·.Selected) ∧
        m'.getSelectedTasks = m.getSelectedTasks ∧ m'.phase ≠ "select") ∧
    (∀ (outstanding : List (Nat × Task)) (ins : List Input) (s' : Session),
      Session.run ⟨m, outstanding⟩ ins = some s' →
        s'.m.tasks.map (·.Selected) = m.tasks.map (·.Selected) ∧
        s'.m.getSelectedTasks = m.getSelectedTasks ∧ s'.m.phase ≠ "select") := by
  constructor
  · intro msg rt m' c h
    obtain ⟨h₁, h₂⟩ := Update_running m m' msg rt c hp h
    exact ⟨h₁, getSelectedTasks_congr _ _ h₁, h₂⟩
  · intro outstanding ins s' hs
    have := Session.run_induction
      (fun x => x.tasks.map (·.Selected) = m.tasks.map (·.Selected) ∧ x.phase ≠ "select")
      (fun x x' msg rt c hx hu => by
        obtain ⟨h₁, h₂⟩ := Update_running x x' msg rt c hx.2 hu
        exact ⟨h₁.trans hx.1, h₂⟩)
      ins ⟨m, outstanding⟩ s' ⟨rfl, hp⟩ hs
    exact ⟨this.1, getSelectedTasks_congr _ _ this.1, this.2⟩

/-- Witness for C18: in the model `initialModel` is in after the enter key, the
keys that change the selection in the selection phase (space, "n") do
nothing to it. -/
theorem selection_frozen_witness :
    ∃ s', Session.run ⟨initialModel.started ⟨fun _ => ⟨2024, 5, 1, 10, 0, 0⟩, none⟩, []⟩
        [.msg (.key " ") ⟨fun _ => ⟨2024, 5, 1, 10, 0, 1⟩, none⟩,
         .msg (.key "n") ⟨fun _ => ⟨2024, 5, 1, 10, 0, 2⟩, none⟩] = some s' ∧
      s'.m.getSelectedTasks = [0, 1] := by
  have hp : (initialModel.started ⟨fun _ => ⟨2024, 5, 1, 10, 0, 0⟩, none⟩).phase ≠ "select" := by
    decide
  have hrun : ∃ s', Session.run
        ⟨initialModel.started ⟨fun _ => ⟨2024, 5, 1, 10, 0, 0⟩, none⟩, []⟩
        [.msg (.key " ") ⟨fun _ => ⟨2024, 5, 1, 10, 0, 1⟩, none⟩,
         .msg (.key "n") ⟨fun _ => ⟨2024, 5, 1, 10, 0, 2⟩, none⟩] = some s' := ⟨_, rfl⟩
  obtain ⟨s', hs⟩ := hrun
  have h := ((selection_frozen _ hp).2 [] _ s' hs).2.1
  have h₀ : (initialModel.started ⟨fun _ => ⟨2024, 5, 1, 10, 0, 0⟩, none⟩).getSelectedTasks =
      [0, 1] := by decide
  exact ⟨s', hs, h.trans h₀⟩

/-- C20: handling the completion message for an in-range task index i sets task
i's Progress to 1.0, stores the message's error, start time, end time and
details in it, sets its Status to "✅ Complete" when the message reports
success and to "❌ Failed" otherwise, and leaves task i's Name, Description,
Icon, Module and Selected flag and every other task unchanged; `Update`
does return when the cursor of the run is not negative. The message built
by `executeNextTask` reports success with a nil error when `Execute`
returned nil, and failure with the error when `Execute` returned an error;
so after it is handled the Status is "✅ Complete" with a nil Error when the
task returned no error, and "❌ Failed" with the returned error otherwise:
the Status is Failed exactly when the recorded Error is not nil. -/
theorem completion_recorded (m : model) (msg : taskCompleteMsg) (rt : Runtime) (i : Nat)
    (task : Task) (hi : msg.taskIndex = i) (ht : m.tasks[i]? = some task) :
    (∀ (m' : model) (c : Cmd), m.Update (.taskComplete msg) rt = some (m', c) →
      m'.tasks.length = m.tasks.length ∧
      (∀ j, j ≠ i → m'.tasks[j]? = m.tasks[j]?) ∧
      ∃ task', m'.tasks[i]? = some task' ∧
        task'.Progress = .finite 1 ∧ task'.Error = msg.error ∧
        task'.StartTime = msg.startTime ∧ task'.EndTime = msg.endTime ∧
        task'.Details = msg.details ∧
        task'.Status = (if msg.success then "✅ Complete" else "❌ Failed") ∧
        task'.Name = task.Name ∧ task'.Description = task.Description ∧
        task'.Icon = task.Icon ∧ task'.Module = task.Module ∧
        task'.Selected = task.Selected) ∧
    (0 ≤ m.currentTask → m.currentTask < 9223372036854775807 →
      ∃ m' c, m.Update (.taskComplete msg) rt = some (m', c)) ∧
    (∀ (taskIndex : Nat) (t : Task) (r : TaskRun) (built : taskCompleteMsg),
      runTask taskIndex t r = some built →
        built.taskIndex = taskIndex ∧ (built.success = false ↔ built.error ≠ none) ∧
        (r.exec.ret = .nil → built.success = true ∧ built.error = none) ∧
        (∀ e, r.exec.ret = .err e → built.success = false ∧ built.error = some e) ∧
        ((∃ e, r.exec.ret = .err e) ∨ r.exec.ret = .nil)) ∧
    (∀ (t : Task) (r : TaskRun), runTask i t r = some msg →
      ∀ (m' : model) (c : Cmd), m.Update (.taskComplete msg) rt = some (m', c) →
        ∃ task', m'.tasks[i]? = some task' ∧
          ((r.exec.ret = .nil ∧ task'.Status = "✅ Complete" ∧ task'.Error = none) ∨
           (∃ e, r.exec.ret = .err e ∧ task'.Status = "❌ Failed" ∧
             task'.Error = some e)) ∧
          (task'.Status = "❌ Failed" ↔ task'.Error ≠ none)) := by
  have hilt : i < m.tasks.length := by
    by_contra hc
    rw [List.getElem?_eq_none (by omega)] at ht
    cases ht
  have hidx : index m.tasks msg.taskIndex = some task := by
    unfold index
    rw [hi]
    simp [ht]
  have hlt : msg.taskIndex < m.tasks.length := by rw [hi]; exact_mod_cast hilt
  have hupd := updateTaskComplete_eq m msg rt task hlt hidx
  have htasks : (m.afterCompletion msg rt task).tasks =
      m.tasks.set i (recordCompletion task msg) := by
    show m.tasks.set msg.taskIndex.toNat _ = _
    rw [hi]
    rfl
  have hrec : ∀ m' : model, m'.tasks = m.tasks.set i (recordCompletion task msg) →
      m'.tasks.length = m.tasks.length ∧
      (∀ j, j ≠ i → m'.tasks[j]? = m.tasks[j]?) ∧
      ∃ task', m'.tasks[i]? = some task' ∧
        task'.Progress = .finite 1 ∧ task'.Error = msg.error ∧
        task'.StartTime = msg.startTime ∧ task'.EndTime = msg.endTime ∧
        task'.Details = msg.details ∧
        task'.Status = (if msg.success then "✅ Complete" else "❌ Failed") ∧
        task'.Name = task.Name ∧ task'.Description = task.Description ∧
        task'.Icon = task.Icon ∧ task'.Module = task.Module ∧
        task'.Selected = task.Selected := by
    intro m' hm'
    refine ⟨by rw [hm', List.length_set], ?_, recordCompletion task msg, ?_, ?_⟩
    · intro j hj
      rw [hm', List.getElem?_set_ne (fun h => hj h.symm)]
    · rw [hm', List.getElem?_set_self hilt]
    · obtain ⟨h₁, h₂, -, h₄, h₅, h₆, h₇⟩ := recordCompletion_recorded task msg
      refine ⟨h₁, h₄, h₅, h₆, h₇, h₂, ?_⟩
      unfold recordCompletion
      split <;> exact ⟨rfl, rfl, rfl, rfl, rfl⟩
  have hbuilt : ∀ (taskIndex : Nat) (t : Task) (r : TaskRun) (built : taskCompleteMsg),
      runTask taskIndex t r = some built →
        built.taskIndex = taskIndex ∧ (built.success = false ↔ built.error ≠ none) ∧
        (r.exec.ret = .nil → built.success = true ∧ built.error = none) ∧
        (∀ e, r.exec.ret = .err e → built.success = false ∧ built.error = some e) ∧
        ((∃ e, r.exec.ret = .err e) ∨ r.exec.ret = .nil) := by
    intro taskIndex t r built hb
    unfold runTask at hb
    simp only [] at hb
    split at hb
    · cases hb
    · rename_i hret
      simp only [Option.some.injEq] at hb
      subst hb
      simp [hret]
    · rename_i err hret
      simp only [Option.some.injEq] at hb
      subst hb
      simp [hret]
  have hhandled : ∀ (m' : model) (c : Cmd), m.Update (.taskComplete msg) rt = some (m', c) →
      m'.tasks.length = m.tasks.length ∧
      (∀ j, j ≠ i → m'.tasks[j]? = m.tasks[j]?) ∧
      ∃ task', m'.tasks[i]? = some task' ∧
        task'.Progress = .finite 1 ∧ task'.Error = msg.error ∧
        task'.StartTime = msg.startTime ∧ task'.EndTime = msg.endTime ∧
        task'.Details = msg.details ∧
        task'.Status = (if msg.success then "✅ Complete" else "❌ Failed") ∧
        task'.Name = task.Name ∧ task'.Description = task.Description ∧
        task'.Icon = task.Icon ∧ task'.Module = task.Module ∧
        task'.Selected = task.Selected := by
    intro m' c h
    simp only [model.Update] at h
    rw [hupd] at h
    split at h
    · simp only [Option.some.injEq, Prod.mk.injEq] at h
      obtain ⟨rfl, rfl⟩ := h
      exact hrec _ (by rw [addLog_eq]; exact htasks)
    · cases hex : (m.afterCompletion msg rt task).executeNextTask with
      | none => simp [hex] at h
      | some next =>
        simp only [hex, Option.some.injEq, Prod.mk.injEq] at h
        obtain ⟨rfl, rfl⟩ := h
        exact hrec _ htasks
  refine ⟨hhandled, ?_, hbuilt, ?_⟩
  · intro h₀ h₁
    simp only [model.Update]
    rw [hupd]
    split
    · exact ⟨_, _, rfl⟩
    · obtain ⟨next, hnext⟩ := executeNextTask_isSome (m.afterCompletion msg rt task) (by
        show 0 ≤ wrap64 (m.currentTask + 1)
        rw [wrap64_eq _ (by omega) (by omega)]
        omega)
      rw [hnext]
      exact ⟨_, _, rfl⟩
  · intro t r hb m' c hu
    obtain ⟨-, -, task', ht', -, herr, -, -, -, hst, -⟩ := hhandled m' c hu
    obtain ⟨-, -, hnil, hfail, hret⟩ := hbuilt i t r msg hb
    refine ⟨task', ht', ?_, ?_⟩
    · rcases hret with ⟨e, he⟩ | he
      · obtain ⟨h₁, h₂⟩ := hfail e he
        right
        refine ⟨e, he, ?_, by rw [herr, h₂]⟩
        rw [hst, h₁]
        rfl
      · obtain ⟨h₁, h₂⟩ := hnil he
        left
        refine ⟨he, ?_, by rw [herr, h₂]⟩
        rw [hst, h₁]
        rfl
    · rcases hret with ⟨e, he⟩ | he
      · obtain ⟨h₁, h₂⟩ := hfail e he
        rw [hst, h₁, herr, h₂]
        simp
      · obtain ⟨h₁, h₂⟩ := hnil he
        rw [hst, h₁, herr, h₂]
        simp

/-- Witness for C20: the first task of `initialModel` fails with "permission
denied"; the message its closure builds is handled in `initialModel`, and
the task is then Failed with that error. -/
theorem completion_recorded_witness :
    ∃ msg m' c task',
      runTask 0 initialModel.tasks[0]
        ⟨⟨2024, 5, 1, 10, 0, 1⟩, ⟨[.progress 0.1 "a"], .err "permission denied"⟩,
          ⟨2024, 5, 1, 10, 0, 2⟩⟩ = some msg ∧
      initialModel.Update (.taskComplete msg) ⟨fun _ => ⟨2024, 5, 1, 10, 0, 2⟩, none⟩ =
        some (m', c) ∧
      m'.tasks.length = initialModel.tasks.length ∧
      m'.tasks[0]? = some task' ∧ task'.Status = "❌ Failed" ∧
      task'.Error = some "permission denied" := by
  have hrun : ∃ msg, runTask 0 initialModel.tasks[0]
      ⟨⟨2024, 5, 1, 10, 0, 1⟩, ⟨[.progress 0.1 "a"], .err "permission denied"⟩,
        ⟨2024, 5, 1, 10, 0, 2⟩⟩ = some msg ∧ msg.taskIndex = 0 := ⟨_, rfl, rfl⟩
  obtain ⟨msg, hmsg, hidx⟩ := hrun
  obtain ⟨h₁, h₂, -, h₄⟩ := completion_recorded initialModel msg
    ⟨fun _ => ⟨2024, 5, 1, 10, 0, 2⟩, none⟩ 0 initialModel.tasks[0] hidx rfl
  obtain ⟨m', c, h⟩ := h₂ (by decide) (by decide)
  obtain ⟨task', ht', hcase, -⟩ := h₄ _ _ hmsg m' c h
  rcases hcase with ⟨hnil, -, -⟩ | ⟨e, he, hst, herr⟩
  · cases hnil
  · have : e = "permission denied" := by
      injection he with he'
      exact he'.symm
    subst this
    exact ⟨msg, m', c, task', hmsg, h, (h₁ m' c h).1, ht', hst, herr⟩

/-- C19: in every state reachable from `initialModel` (any messages other than
completion messages, and completion messages only as produced by outstanding
task commands), 0 <= currentTask <= len(getSelectedTasks()), currentTask =
completedTasks <= totalTasks, and once a run has started (the phase is no
longer "select") at least one task is selected, totalTasks =
len(getSelectedTasks()) and overallProgress is the quotient completedTasks /
totalTasks. -/
theorem counters_within_selection (ins : List Input) (s : Session)
    (h : Session.init.run ins = some s) :
    0 ≤ s.m.currentTask ∧ s.m.currentTask ≤ s.m.getSelectedTasks.length ∧
    s.m.currentTask = s.m.completedTasks ∧ s.m.completedTasks ≤ s.m.totalTasks ∧
    (s.m.phase ≠ "select" →
      s.m.totalTasks = s.m.getSelectedTasks.length ∧ 1 ≤ s.m.totalTasks ∧
      s.m.overallProgress = Float64.ofIntDiv s.m.completedTasks s.m.totalTasks ∧
      s.m.overallProgress = .finite ((s.m.completedTasks : ℚ) / (s.m.totalTasks : ℚ))) := by
  have hseq : Sequential Session.init := ⟨by simp [Session.init], fun _ => rfl⟩
  have hcnt : Counted Session.init :=
    ⟨by decide, fun _ => ⟨rfl, rfl, rfl⟩, fun hp => absurd rfl hp⟩
  obtain ⟨-, hselect, hrun⟩ := Session.run_counted ins Session.init s hseq hcnt h
  by_cases hp : s.m.phase = "select"
  · obtain ⟨h₁, h₂, h₃⟩ := hselect hp
    exact ⟨by omega, by omega, by omega, by omega, fun hcon => absurd hp hcon⟩
  · obtain ⟨hN, htot, hcc, hprog, h0, hle, -⟩ := hrun hp
    refine ⟨h0, hle, hcc.symm, by omega, fun _ => ⟨htot, by omega, hprog, ?_⟩⟩
    rw [hprog]
    have hz : ¬ (s.m.totalTasks = 0) := by omega
    simp [Float64.ofIntDiv, hz]

/-- Witness for C19: after the enter key and the return of the first task, one of
the two selected tasks is completed and the overall progress is 1/2. -/
theorem counters_within_selection_witness :
    ∃ s, Session.init.run
        [.msg (.key "enter") ⟨fun _ => ⟨2024, 5, 1, 10, 0, 0⟩, none⟩,
         .finish 0 ⟨⟨2024, 5, 1, 10, 0, 1⟩, ⟨[.progress 0.1 "Y"], .nil⟩,
            ⟨2024, 5, 1, 10, 0, 2⟩⟩ ⟨fun _ => ⟨2024, 5, 1, 10, 0, 2⟩, none⟩] = some s ∧
      s.m.completedTasks = 1 ∧ s.m.totalTasks = 2 ∧
      s.m.currentTask = s.m.completedTasks ∧
      s.m.overallProgress = Float64.ofIntDiv s.m.completedTasks s.m.totalTasks := by
  have h : ∃ s, Session.init.run
        [.msg (.key "enter") ⟨fun _ => ⟨2024, 5, 1, 10, 0, 0⟩, none⟩,
         .finish 0 ⟨⟨2024, 5, 1, 10, 0, 1⟩, ⟨[.progress 0.1 "Y"], .nil⟩,
            ⟨2024, 5, 1, 10, 0, 2⟩⟩ ⟨fun _ => ⟨2024, 5, 1, 10, 0, 2⟩, none⟩] = some s ∧
      s.m.completedTasks = 1 ∧ s.m.totalTasks = 2 ∧ s.m.phase ≠ "select" :=
    ⟨_, rfl, rfl, rfl, by decide⟩
  obtain ⟨s, hs, h₁, h₂, hp⟩ := h
  have hc := counters_within_selection _ s hs
  exact ⟨s, hs, h₁, h₂, hc.2.2.1, (hc.2.2.2.2 hp).2.2.1⟩

/-- C12 (as stated, refuted): a model with one selected task whose description
holds a line break followed by "Status: "; the block of that task, and the
whole document, contain two lines that begin with "Status: ". -/
theorem createDetailedReport_two_status_lines :
    ({ initialModel with
        tasks := [{ Name := "Health Check", Description := "System health\nStatus: unknown",
                    Icon := "🏥", Module := .HealthModule, Selected := true }] }
      : model).getSelectedTasks = [0] ∧
    statusLines (String.join (taskWrites (fun _ _ => "1s")
      { Name := "Health Check", Description := "System health\nStatus: unknown",
        Icon := "🏥", Module := .HealthModule, Selected := true })) = 2 ∧
    statusLines (({ initialModel with
        tasks := [{ Name := "Health Check", Description := "System health\nStatus: unknown",
                    Icon := "🏥", Module := .HealthModule, Selected := true }] }
      : model).createDetailedReport ⟨2024, 5, 1, 10, 0, 0⟩ (fun _ _ => "1s")) = 2 := by
  decide!

/-- C12 (amended): for every model the document of `createDetailedReport` is, in
this order, the title block (generation time, task counts, overall
progress), one block per selected task in registry order, the log entries in
order each followed by a newline (under their heading, when there is any),
and the recommendations block; the log entries joined by newlines occur
verbatim in the document; and the block of a task contains exactly one line
beginning with "Status: " when the icon, name, description, status, error
text, detail lines and duration text of the task hold no line break and its
heading line does not begin with "Status: ". -/
theorem createDetailedReport_layout (m : model) (now : Time)
    (duration : Time → Time → String) :
    m.createDetailedReport now duration =
      String.join
        ["🐧 UBUBU 1.0 - SYSTEM OPTIMIZATION REPORT\n",
         String.mk (List.replicate 60 '=') ++ "\n",
         "Generated: " ++ now.stamp ++ "\n",
         "Total Tasks: " ++ toString m.totalTasks ++ "\n",
         "Completed: " ++ toString m.completedTasks ++ "\n",
         "Overall Progress: " ++ m.overallProgress.percentText ++ "%\n\n",
         "📋 TASK DETAILS\n",
         String.mk (List.replicate 40 '-') ++ "\n\n"] ++
      String.join ((m.getSelectedTasks.filterMap fun i => m.tasks[i]?).map fun task =>
        String.join (taskWrites duration task)) ++
      (if m.logs = [] then ""
       else "📝 EXECUTION LOG\n" ++ (String.mk (List.replicate 40 '-') ++ "\n\n") ++
         String.join (m.logs.map fun log => log ++ "\n") ++ "\n") ++
      ("💡 RECOMMENDATIONS\n" ++ (String.mk (List.replicate 40 '-') ++ "\n\n") ++
        String.join m.adviceWrites ++
        "Generated by Ububu 1.0 - Ubuntu System Optimizer\n" ++
        "https://github.com/rokoss21/ububu\n") ∧
    (m.getSelectedTasks.filterMap fun i => m.tasks[i]?).length = m.getSelectedTasks.length ∧
    List.Sublist (m.getSelectedTasks.filterMap fun i => m.tasks[i]?) m.tasks ∧
    Contains (m.createDetailedReport now duration) (String.intercalate "\n" m.logs) = true ∧
    (∀ task : Task, task.singleLine duration = true →
      statusLines (String.join (taskWrites duration task)) = 1) := by
  refine ⟨createDetailedReport_eq m now duration, ?_, ?_,
    createDetailedReport_contains_logs m now duration,
    fun task h => (taskWrites_statusLines duration task h).count⟩
  · apply length_filterMap_some
    intro i hi
    obtain ⟨t, ht, -⟩ := (mem_getSelectedTasks m i).mp hi
    rw [ht]
    rfl
  · rw [← selected_tasks_eq]
    exact List.filter_sublist _

/-- Witness for C12: the block of the first task of `initialModel`. -/
theorem createDetailedReport_layout_witness :
    statusLines (String.join (taskWrites (fun _ _ => "1s")
      { Name := "Health Check", Description := "System health & performance",
        Icon := "🏥", Module := .HealthModule, Selected := true })) = 1 :=
  (createDetailedReport_layout initialModel ⟨2024, 5, 1, 10, 0, 0⟩ (fun _ _ => "1s")).2.2.2.2
    { Name := "Health Check", Description := "System health & performance",
      Icon := "🏥", Module := .HealthModule, Selected := true } (by decide)

/-- C13: the number `failedTasks` is positive exactly when a selected task
carries a non-nil Error; then the recommendations block opens with the
advisory "k task(s) failed" for k = `failedTasks` and does not hold the
"All selected tasks completed successfully!" note; otherwise it opens with
that note and does not hold "task(s) failed"; the block is written after the
recommendations heading of the document. -/
theorem recommendations_follow_failures (m : model) :
    (0 < m.failedTasks ↔ ∃ task ∈ m.tasks, task.Selected = true ∧ task.Error ≠ none) ∧
    m.failedTasks =
      ((m.tasks.filter fun task => task.Selected).filter fun task => task.Error.isSome).length ∧
    (0 < m.failedTasks →
      m.adviceWrites.head? =
        some ("⚠️  " ++ toString m.failedTasks ++
          " task(s) failed. Review error details above.\n") ∧
      Contains (String.join m.adviceWrites)
        (toString m.failedTasks ++ " task(s) failed") = true ∧
      Contains (String.join m.adviceWrites)
        "All selected tasks completed successfully!" = false) ∧
    (m.failedTasks = 0 →
      m.adviceWrites.head? = some "✅ All selected tasks completed successfully!\n" ∧
      Contains (String.join m.adviceWrites)
        "All selected tasks completed successfully!" = true ∧
      Contains (String.join m.adviceWrites) "task(s) failed" = false) ∧
    (∀ (now : Time) (duration : Time → Time → String),
      Contains (m.createDetailedReport now duration)
        ("💡 RECOMMENDATIONS\n" ++ (String.mk (List.replicate 40 '-') ++ "\n\n") ++
          String.join m.adviceWrites) = true) := by
  refine ⟨failedTasks_pos_iff m, ?_, fun h => ?_, fun h => ?_,
    fun now duration => createDetailedReport_contains_advice m now duration⟩
  · unfold model.failedTasks
    rw [List.filter_filter]
    congr 2
    funext task
    exact Bool.and_comm _ _
  · exact ⟨by rw [adviceWrites_failed m h]; rfl, adviceWrites_failed_text m h⟩
  · exact ⟨by rw [adviceWrites_succeeded m h]; rfl, adviceWrites_succeeded_text m h⟩

/-- Witness for C13, the scenario of two selected tasks of which the second fails
with "permission denied": the advisory is written with k = 1. -/
theorem recommendations_follow_failures_witness :
    ∃ s, Session.init.run
        [.msg (.key "enter") ⟨fun _ => ⟨2024, 5, 1, 10, 0, 0⟩, none⟩,
         .finish 0 ⟨⟨2024, 5, 1, 10, 0, 1⟩, ⟨[.progress 0.1 "X", .progress 1.0 "X completed"],
            .nil⟩, ⟨2024, 5, 1, 10, 0, 2⟩⟩ ⟨fun _ => ⟨2024, 5, 1, 10, 0, 2⟩, none⟩,
         .finish 0 ⟨⟨2024, 5, 1, 10, 0, 3⟩, ⟨[.progress 0.1 "Y"], .err "permission denied"⟩,
            ⟨2024, 5, 1, 10, 0, 4⟩⟩ ⟨fun _ => ⟨2024, 5, 1, 10, 0, 4⟩, none⟩] = some s ∧
      s.m.tasks.map (·.Error) = [none, some "permission denied", none, none, none] ∧
      s.m.failedTasks = 1 ∧
      s.m.adviceWrites.head? =
        some ("⚠️  " ++ toString s.m.failedTasks ++
          " task(s) failed. Review error details above.\n") := by
  have h : ∃ s, Session.init.run
        [.msg (.key "enter") ⟨fun _ => ⟨2024, 5, 1, 10, 0, 0⟩, none⟩,
         .finish 0 ⟨⟨2024, 5, 1, 10, 0, 1⟩, ⟨[.progress 0.1 "X", .progress 1.0 "X completed"],
            .nil⟩, ⟨2024, 5, 1, 10, 0, 2⟩⟩ ⟨fun _ => ⟨2024, 5, 1, 10, 0, 2⟩, none⟩,
         .finish 0 ⟨⟨2024, 5, 1, 10, 0, 3⟩, ⟨[.progress 0.1 "Y"], .err "permission denied"⟩,
            ⟨2024, 5, 1, 10, 0, 4⟩⟩ ⟨fun _ => ⟨2024, 5, 1, 10, 0, 4⟩, none⟩] = some s ∧
      s.m.tasks.map (·.Error) = [none, some "permission denied", none, none, none] ∧
      s.m.failedTasks = 1 := ⟨_, rfl, rfl, rfl⟩
  obtain ⟨s, hs, he, hk⟩ := h
  exact ⟨s, hs, he, hk, ((recommendations_follow_failures s.m).2.2.1 (by omega)).1⟩

/-- C14 (as stated, refuted): after the enter key, the message "disk check
started" and twenty further messages are logged; the document of a report
requested then holds the later messages but not "disk check started". -/
theorem generateReportFile_drops_old_messages :
    (Session.init.run
      ([.msg (.key "enter") ⟨fun _ => ⟨2024, 5, 1, 10, 0, 0⟩, none⟩,
        .msg (.log ⟨"INFO", "disk check started"⟩) ⟨fun _ => ⟨2024, 5, 1, 10, 0, 1⟩, none⟩] ++
       List.replicate 20
        (.msg (.log ⟨"INFO", "tick"⟩) ⟨fun _ => ⟨2024, 5, 1, 10, 0, 2⟩, none⟩))).map
      (fun s => (s.m.phase, s.m.logs.length,
        Contains (s.m.generateReportFile ⟨fun _ => ⟨2024, 5, 1, 10, 0, 3⟩, none⟩
          (fun _ _ => "1s")).2 "tick",
        Contains (s.m.generateReportFile ⟨fun _ => ⟨2024, 5, 1, 10, 0, 3⟩, none⟩
          (fun _ _ => "1s")).2 "disk check started")) =
      some ("running", 20, true, false) := by
  decide!

/-- C14 (amended): the document produced by a report request holds every entry
retained in the log at that moment, that is the last 20 entries of the log
followed by the entry "Generating detailed report..." of the request itself;
messages logged earlier are not available to it. -/
theorem generateReportFile_contains_retained (m : model) (rt : Runtime)
    (duration : Time → Time → String) (entry : String)
    (h : entry ∈ List.drop (m.logs.length + 1 - 20)
      (m.logs ++ ["[" ++ (rt.now 0).clock ++ "] " ++ "📄 Generating detailed report..."])) :
    Contains (m.generateReportFile rt duration).2 entry = true := by
  unfold model.generateReportFile
  simp only []
  apply createDetailedReport_contains_entry
  rw [addLog_eq]
  exact h

/-- Witness for C14: the entry of the request itself, for `initialModel`. -/
theorem generateReportFile_contains_retained_witness :
    Contains (initialModel.generateReportFile ⟨fun _ => ⟨2024, 5, 1, 10, 0, 0⟩, none⟩
      (fun _ _ => "1s")).2 "[10:00:00] 📄 Generating detailed report..." = true :=
  generateReportFile_contains_retained initialModel ⟨fun _ => ⟨2024, 5, 1, 10, 0, 0⟩, none⟩
    (fun _ _ => "1s") "[10:00:00] 📄 Generating detailed report..." (by decide)

/-! ## Theorems on the selection keys, the task closure and the modules -/

/-- C21: in the selection phase, with the cursor on a task, the space key flips
only the Selected flag of the task under the cursor and returns no command,
so pressing it twice restores the model; "a" sets the flag of every task and
"n" clears it, so after "a" and then "n" no task is selected; none of the
three changes another field of a task or of the model. -/
theorem selection_keys (m : model) (rt rt' : Runtime) (task : Task)
    (hp : m.phase = "select") (hc : index m.tasks m.cursor = some task) :
    m.Update (.key " ") rt =
      some ({ m with
        tasks := m.tasks.set m.cursor.toNat ({ task with Selected := !task.Selected } : Task) },
        .nil) ∧
    (∀ j, j ≠ m.cursor.toNat →
      (m.tasks.set m.cursor.toNat ({ task with Selected := !task.Selected } : Task))[j]? =
        m.tasks[j]?) ∧
    (∃ m₁, m.Update (.key " ") rt = some (m₁, .nil) ∧
      m₁.Update (.key " ") rt' = some (m, .nil)) ∧
    m.Update (.key "a") rt =
      some ({ m with tasks := m.tasks.map fun t => { t with Selected := true } }, .nil) ∧
    m.Update (.key "n") rt =
      some ({ m with tasks := m.tasks.map fun t => { t with Selected := false } }, .nil) ∧
    ({ m with tasks := m.tasks.map fun t => { t with Selected := true } }
      : model).getSelectedTasks = List.range m.tasks.length ∧
    ({ m with tasks := m.tasks.map fun t => { t with Selected := false } }
      : model).getSelectedTasks = [] ∧
    (∃ m₁, m.Update (.key "a") rt = some (m₁, .nil) ∧
      m₁.Update (.key "n") rt' =
        some ({ m with tasks := m.tasks.map fun t => { t with Selected := false } }, .nil)) := by
  obtain ⟨h0, hlt, hget⟩ := index_eq_some _ _ _ hc
  have htoggle : ∀ (x : model) (t : Task) (r : Runtime), x.phase = "select" →
      index x.tasks x.cursor = some t →
      x.Update (.key " ") r =
        some ({ x with
          tasks := x.tasks.set x.cursor.toNat ({ t with Selected := !t.Selected } : Task) },
          .nil) := by
    intro x t r hx hi
    simp [model.Update, model.updateKey, hx, hi]
  have hall : ∀ (x : model) (r : Runtime), x.phase = "select" →
      x.Update (.key "a") r =
        some ({ x with tasks := x.tasks.map fun t => { t with Selected := true } }, .nil) := by
    intro x r hx
    simp [model.Update, model.updateKey, hx]
  have hnone : ∀ (x : model) (r : Runtime), x.phase = "select" →
      x.Update (.key "n") r =
        some ({ x with tasks := x.tasks.map fun t => { t with Selected := false } }, .nil) := by
    intro x r hx
    simp [model.Update, model.updateKey, hx]
  refine ⟨htoggle m task rt hp hc, ?_, ⟨_, htoggle m task rt hp hc, ?_⟩, hall m rt hp,
    hnone m rt hp, ?_, ?_, ⟨_, hall m rt hp, ?_⟩⟩
  · intro j hj
    rw [List.getElem?_set_ne (fun h => hj h.symm)]
  · have hi : index (m.tasks.set m.cursor.toNat
          ({ task with Selected := !task.Selected } : Task)) m.cursor =
        some ({ task with Selected := !task.Selected } : Task) := by
      unfold index
      rw [if_pos h0]
      show (m.tasks.set m.cursor.toNat _)[m.cursor.toNat]? = _
      rw [List.getElem?_set_self hlt]
    rw [htoggle ({ m with
      tasks := m.tasks.set m.cursor.toNat ({ task with Selected := !task.Selected } : Task) })
      _ rt' hp hi]
    have htasks : (m.tasks.set m.cursor.toNat ({ task with Selected := !task.Selected } : Task)).set
        m.cursor.toNat ({ task with Selected := !(!task.Selected) } : Task) = m.tasks := by
      rw [List.set_set, Bool.not_not]
      apply List.ext_getElem?
      intro j
      by_cases hj : m.cursor.toNat = j
      · subst hj
        rw [List.getElem?_set_self hlt, hget]
      · rw [List.getElem?_set_ne hj]
    show some (({ m with tasks := _ } : model), Cmd.nil) = _
    simp only [htasks]
  · unfold model.getSelectedTasks
    simp only [List.length_map]
    apply List.filter_eq_self.mpr
    intro i hi
    have hi' : i < m.tasks.length := List.mem_range.mp hi
    simp [List.getElem?_map, List.getElem?_eq_getElem hi']
  · unfold model.getSelectedTasks
    simp only [List.length_map]
    apply List.filter_eq_nil_iff.mpr
    intro i _
    simp only [List.getElem?_map]
    cases m.tasks[i]? <;> simp
  · rw [hnone ({ m with tasks := m.tasks.map fun t => { t with Selected := true } }) rt' hp]
    simp [List.map_map, Function.comp]

/-- Witness for C21: the keys pressed on `initialModel`, whose cursor is on the
first task. -/
theorem selection_keys_witness :
    (∃ m₁, initialModel.Update (.key " ") ⟨fun _ => ⟨2024, 5, 1, 10, 0, 0⟩, none⟩ =
        some (m₁, .nil) ∧
      m₁.Update (.key " ") ⟨fun _ => ⟨2024, 5, 1, 10, 0, 1⟩, none⟩ =
        some (initialModel, .nil)) ∧
    ({ initialModel with tasks := initialModel.tasks.map fun t => { t with Selected := false } }
      : model).getSelectedTasks = [] :=
  ⟨(selection_keys initialModel ⟨fun _ => ⟨2024, 5, 1, 10, 0, 0⟩, none⟩
      ⟨fun _ => ⟨2024, 5, 1, 10, 0, 1⟩, none⟩ initialModel.tasks[0] rfl rfl).2.2.1,
   (selection_keys initialModel ⟨fun _ => ⟨2024, 5, 1, 10, 0, 0⟩, none⟩
      ⟨fun _ => ⟨2024, 5, 1, 10, 0, 1⟩, none⟩ initialModel.tasks[0] rfl rfl).2.2.2.2.2.2.1⟩

theorem twoPow_nonneg (e : Int) : 0 ≤ twoPow e := by
  unfold twoPow
  split_ifs
  · exact Nat.cast_nonneg _
  · exact div_nonneg zero_le_one (Nat.cast_nonneg _)

theorem Float64.ofRat_nonneg (q f : ℚ) (hq : 0 ≤ q) (h : Float64.ofRat q = .finite f) :
    0 ≤ f := by
  unfold Float64.ofRat at h
  simp only [] at h
  split_ifs at h with h₀ h₁ h₂ h₃
  · cases h
    exact le_refl _
  · exact absurd h₃ (not_lt.mpr hq)
  · cases h
    exact mul_nonneg (Nat.cast_nonneg _) (twoPow_nonneg _)

theorem roundHalfEven_near (x : ℚ) (hx : 0 ≤ x) : |(roundHalfEven x : ℚ) - x| ≤ 1 / 2 := by
  have hfl0 : 0 ≤ ⌊x⌋ := Int.floor_nonneg.mpr hx
  have hcast : ((⌊x⌋.toNat : Nat) : ℚ) = (⌊x⌋ : ℚ) := by
    have : ((⌊x⌋.toNat : Nat) : Int) = ⌊x⌋ := Int.toNat_of_nonneg hfl0
    exact_mod_cast this
  have h₁ : (⌊x⌋ : ℚ) ≤ x := Int.floor_le x
  have h₂ : x < (⌊x⌋ : ℚ) + 1 := Int.lt_floor_add_one x
  unfold roundHalfEven
  simp only []
  rw [hcast]
  split_ifs with a b c
  · rw [hcast, abs_le]
    constructor <;> linarith
  · push_cast
    rw [hcast, abs_le]
    constructor <;> linarith
  · rw [hcast, abs_le]
    constructor <;> linarith
  · push_cast
    rw [hcast, abs_le]
    constructor <;> linarith

/-- C23: the details of the completion message built by the task closure have
one entry per progress call of the task, in call order, the i-th being the
fraction of the i-th call as a whole-number percentage, then "% - ", then
the message of that call; no call gives no entry; and the closure returns a
message whenever `Execute` returns. The percentage is the numeral of the
integer nearest to the `float64` product of the fraction by 100, ties to
even: for a fraction that is not negative it is a string of digits, for a
fraction written k/100 with k from 0 to 100 it is the numeral of k, and it
follows the `float64` value where that differs from the decimal literal
(0.545 gives 55, 0.575 gives 57, 0.005 gives 0). -/
theorem details_one_per_call (taskIndex : Nat) (task : Task) (r : TaskRun) :
    (∀ msg, runTask taskIndex task r = some msg →
      msg.details = (progressCalls r.exec.events).map (fun c => percent0 c.1 ++ "% - " ++ c.2) ∧
      msg.details.length = (progressCalls r.exec.events).length ∧
      (∀ (i : Nat) (c : ℚ × String), (progressCalls r.exec.events)[i]? = some c →
        msg.details[i]? = some (percent0 c.1 ++ "% - " ++ c.2)) ∧
      (progressCalls r.exec.events = [] → msg.details = [])) ∧
    ((∀ w, r.exec.ret ≠ .panic w) → ∃ msg, runTask taskIndex task r = some msg) ∧
    (∀ k ∈ List.range 101, percent0 ((k : ℚ) / 100) = toString k) ∧
    (∀ (q f x : ℚ), 0 ≤ q → Float64.ofRat q = .finite f →
      Float64.ofRat (f * 100) = .finite x →
      percent0 q = toString (roundHalfEven (abs x)) ∧
      abs ((roundHalfEven (abs x) : ℚ) - abs x) ≤ 1 / 2 ∧
      (∀ ch ∈ (percent0 q).toList, ch.isDigit = true)) ∧
    Float64.ofRat 0.1 = .finite (3602879701896397 / 36028797018963968) ∧
    percent0 0.545 = "55" ∧ percent0 0.575 = "57" ∧ percent0 0.005 = "0" ∧
    percent0 0.015 = "2" ∧ percent0 0.87 = "87" := by
  refine ⟨?_, ?_, by decide!, ?_, by decide!, by decide!, by decide!, by decide!,
    by decide!, by decide!⟩
  · intro msg h
    have hd : msg.details =
        (progressCalls r.exec.events).map (fun c => percent0 c.1 ++ "% - " ++ c.2) := by
      unfold runTask at h
      simp only [] at h
      split at h
      · cases h
      · simp only [Option.some.injEq] at h
        rw [← h]
      · simp only [Option.some.injEq] at h
        rw [← h]
    refine ⟨hd, by rw [hd, List.length_map], ?_, ?_⟩
    · intro i c hi
      rw [hd, List.getElem?_map, hi]
      rfl
    · intro hnil
      rw [hd, hnil]
      rfl
  · intro hnp
    obtain ⟨msg, hmsg, -⟩ := runTask_some taskIndex task r hnp
    exact ⟨msg, hmsg⟩
  · intro q f x hq hf hx
    have hp : percent0 q = toString (roundHalfEven (abs x)) := by
      have hx0 : 0 ≤ x := Float64.ofRat_nonneg (f * 100) x
        (mul_nonneg (Float64.ofRat_nonneg q f hq hf) (by norm_num)) hx
      unfold percent0
      simp only [hf, hx, if_neg (not_lt.mpr hx0), String.empty_append]
    refine ⟨hp, roundHalfEven_near _ (abs_nonneg x), ?_⟩
    rw [hp]
    exact toString_nat_isDigit _

/-- Witness for C23: a task that reports 10% and, after a command, 100%. -/
theorem details_one_per_call_witness :
    ∃ msg, runTask 0 initialModel.tasks[0]
        ⟨⟨2024, 5, 1, 10, 0, 1⟩, ⟨[.progress 0.1 "X", .command ["df", "-h", "/"],
          .progress 1.0 "X completed"], .nil⟩, ⟨2024, 5, 1, 10, 0, 2⟩⟩ = some msg ∧
      msg.details = ["10% - X", "100% - X completed"] := by
  obtain ⟨h₁, h₂, -⟩ := details_one_per_call 0 initialModel.tasks[0]
    ⟨⟨2024, 5, 1, 10, 0, 1⟩, ⟨[.progress 0.1 "X", .command ["df", "-h", "/"],
      .progress 1.0 "X completed"], .nil⟩, ⟨2024, 5, 1, 10, 0, 2⟩⟩
  obtain ⟨msg, hmsg⟩ := h₂ (by intro w h; cases h)
  refine ⟨msg, hmsg, (h₁ msg hmsg).1.trans ?_⟩
  decide!

/-- C24: `RequiresRoot` depends on the type of the module only: false for
HealthModule and CleanupModule, true for UpdatesModule, DriversModule and
OptimizationModule; so for the tasks of the registry. -/
theorem RequiresRoot_by_type :
    SystemModule.RequiresRoot .HealthModule = false ∧
    SystemModule.RequiresRoot .CleanupModule = false ∧
    SystemModule.RequiresRoot .UpdatesModule = true ∧
    SystemModule.RequiresRoot .DriversModule = true ∧
    SystemModule.RequiresRoot .OptimizationModule = true ∧
    (∀ mod : SystemModule, mod.RequiresRoot = true ↔
      mod = .UpdatesModule ∨ mod = .DriversModule ∨ mod = .OptimizationModule) ∧
    initialModel.tasks.map (fun t => (t.Name, t.Module.RequiresRoot)) =
      [("Health Check", false), ("Cleanup", false), ("Updates", true), ("Drivers", true),
       ("Optimization", true)] := by
  refine ⟨rfl, rfl, rfl, rfl, rfl, ?_, rfl⟩
  intro mod
  cases mod <;> decide

/-- C25 (the code breaks it): `checkManualDrivers` returns nil and makes a
progress call on every outcome, and when `lspci` succeeds its last message
is "Hardware check completed"; but when `lspci` fails its last message is
"Could not detect hardware", which does not contain "completed". -/
theorem checkManualDrivers_last_message :
    (∀ env : DriversEnv, (DriversModule.checkManualDrivers env).ret = .nil ∧
      0 < (progressCalls (DriversModule.checkManualDrivers env).events).length) ∧
    (∀ (env : DriversEnv) (output : String),
      (progressCalls (DriversModule.checkManualDrivers
        { env with lspci := .ok output }).events).getLast? =
        some (1.0, "Hardware check completed")) ∧
    (∀ (env : DriversEnv) (e : Err),
      (progressCalls (DriversModule.checkManualDrivers
        { env with lspci := .error e }).events).getLast? =
        some (1.0, "Could not detect hardware")) ∧
    Contains (ToLower "Hardware check completed") "completed" = true ∧
    Contains (ToLower "Could not detect hardware") "completed" = false := by
  refine ⟨?_, ?_, ?_, by decide, by decide⟩
  · intro env
    unfold DriversModule.checkManualDrivers
    simp only [Exec.after, Exec.done]
    repeat' split
    all_goals simp [progressCalls]
  · intro env output
    unfold DriversModule.checkManualDrivers
    simp only [Exec.after, Exec.done]
    repeat' split
    all_goals simp [progressCalls]
  · intro env e
    simp [DriversModule.checkManualDrivers, Exec.after, Exec.done, progressCalls]

theorem fieldsAux_within : ∀ (cs cur : List Char) (f : List Char),
    f ∈ fieldsAux cs cur → f <:+: cur.reverse ++ cs := by
  intro cs
  induction cs with
  | nil =>
    intro cur f hf
    unfold fieldsAux at hf
    split at hf
    · cases hf
    · rw [List.mem_singleton] at hf
      rw [hf, List.append_nil]
  | cons c cs ih =>
    intro cur f hf
    unfold fieldsAux at hf
    split at hf
    · split at hf
      · have := ih [] f hf
        exact this.trans ((List.suffix_cons c cs).isInfix.trans
          (List.suffix_append _ _).isInfix)
      · rcases List.mem_cons.mp hf with rfl | hf
        · exact (List.prefix_append _ _).isInfix
        · have := ih [] f hf
          exact this.trans ((List.suffix_cons c cs).isInfix.trans
            (List.suffix_append _ _).isInfix)
    · have := ih (c :: cur) f hf
      rw [List.reverse_cons, List.append_assoc] at this
      exact this

/-- A field of a line occurs in the line. -/
theorem Fields_within (line field : String) (h : field ∈ Fields line) :
    Contains line field = true := by
  rw [Contains_iff]
  unfold Fields at h
  obtain ⟨f, hf, rfl⟩ := List.mem_map.mp h
  exact fieldsAux_within line.toList [] f hf

theorem optimizeSSD_trims_iff (env : OptimizationEnv) (output : String) :
    ["sudo", "fstrim", "-av"] ∈
      commands (OptimizationModule.optimizeSSD { env with lsblk := .ok output }).events ↔
    (((SplitLines output).drop 1).any fun line => Contains line "0") = true := by
  have hs : sliceFrom (SplitLines output) 1 = some ((SplitLines output).drop 1) :=
    sliceFrom_SplitLines output
  unfold OptimizationModule.optimizeSSD
  simp only [hs, Exec.after, Exec.done]
  cases h : ((SplitLines output).drop 1).any fun line => Contains line "0"
  · simp [commands]
  · cases env.fstrim <;> simp [commands]

/-- When the `lsblk` output lists a device whose rota column is 0,
`optimizeSSD` runs `fstrim -av`. -/
theorem optimizeSSD_trims_listed_ssd (env : OptimizationEnv) (output : String)
    (h : listsSSD output = true) :
    ["sudo", "fstrim", "-av"] ∈
      commands (OptimizationModule.optimizeSSD { env with lsblk := .ok output }).events := by
  rw [optimizeSSD_trims_iff]
  unfold listsSSD at h
  rw [List.any_eq_true] at h ⊢
  obtain ⟨line, hline, hrota⟩ := h
  refine ⟨line, hline, Fields_within line "0" ?_⟩
  have : (Fields line)[1]? = some "0" := by simpa using hrota
  exact List.getElem?_mem this

/-- C26 (the code breaks it): `optimizeSSD` runs `fstrim -av` exactly when a line
of the `lsblk` output after the first contains the character `0`, wherever
in the line; for an output listing only the rotational device `sr0` no
device has rota 0 and TRIM is run all the same. -/
theorem optimizeSSD_trims_on_any_zero :
    (∀ (env : OptimizationEnv) (output : String),
      (["sudo", "fstrim", "-av"] ∈
        commands (OptimizationModule.optimizeSSD { env with lsblk := .ok output }).events ↔
        (((SplitLines output).drop 1).any fun line => Contains line "0") = true)) ∧
    listsSSD "NAME ROTA\nsr0     1\n" = false ∧
    commands (OptimizationModule.optimizeSSD
      { lsblk := .ok "NAME ROTA\nsr0     1\n"
        fstrim := none
        swappinessFile := .ok "60\n"
        sysctlSet := none
        sysctlPersist := none
        flushDns := none
        resolveFlush := none
        restartNetworkManager := none }).events =
      [["lsblk", "-d", "-o", "name,rota"], ["sudo", "fstrim", "-av"]] ∧
    listsSSD "NAME ROTA\nsda     1\n" = false ∧
    (fun r : Exec => (commands r.events, (progressCalls r.events).map (·.2), r.ret))
      (OptimizationModule.optimizeSSD
        { lsblk := .ok "NAME ROTA\nsda     1\n"
          fstrim := none
          swappinessFile := .ok "60\n"
          sysctlSet := none
          sysctlPersist := none
          flushDns := none
          resolveFlush := none
          restartNetworkManager := none }) =
      ([["lsblk", "-d", "-o", "name,rota"]],
       ["No SSD detected, skipping SSD optimization"], .nil) := by
  exact ⟨optimizeSSD_trims_iff, by decide, by decide, by decide, by decide⟩

/-! ## Lemmas on a run that goes on after a report request -/

theorem runQueue_steady (sel : List Nat) :
    ∀ (ds : List Completion) (k : Nat) (mk : model) (ck : Cmd) (i : Nat) (t : Task),
      mk.getSelectedTasks = sel → mk.currentTask = k → mk.completedTasks = k →
      mk.tasks.length < 9223372036854775808 →
      k + ds.length < sel.length → sel[k]? = some i → ck.tasks = [(i, t)] →
      (∀ d ∈ ds, ∀ w, d.run.exec.ret ≠ .panic w) →
      ∃ mi ci msgs j tj, runQueue mk ck ds = some (mi, ci, msgs) ∧
        mi.phase = mk.phase ∧ mi.getSelectedTasks = sel ∧
        mi.currentTask = (k + ds.length : Nat) ∧ mi.completedTasks = (k + ds.length : Nat) ∧
        mi.totalTasks = mk.totalTasks ∧ mi.tasks.length = mk.tasks.length ∧
        sel[k + ds.length]? = some j ∧ ci.tasks = [(j, tj)] ∧
        msgs.map (·.taskIndex) = ((sel.drop k).take ds.length).map Int.ofNat := by
  intro ds
  induction ds with
  | nil =>
    intro k mk ck i t hsel hcur hdone _ _ hi hck _
    exact ⟨mk, ck, [], i, t, rfl, rfl, hsel, by simpa using hcur, by simpa using hdone, rfl, rfl,
      by simpa using hi, hck, by simp⟩
  | cons d ds ih =>
    intro k mk ck i t hsel hcur hdone hlen hsum hi hck hnp
    have hsum' : k + (ds.length + 1) < sel.length := hsum
    have hk : k < sel.length := by omega
    have hik : sel[k] = i := by
      rw [List.getElem?_eq_getElem hk] at hi
      exact Option.some.inj hi
    obtain ⟨msg, hrun, hidxm⟩ := runTask_some i t d.run (hnp d (List.mem_cons_self _ _))
    have hmem : i ∈ mk.getSelectedTasks := by
      rw [hsel, ← hik]
      exact List.getElem_mem hk
    obtain ⟨task₀, htask₀, -⟩ := (mem_getSelectedTasks mk _).mp hmem
    have hidx : index mk.tasks msg.taskIndex = some task₀ := by
      unfold index
      rw [hidxm]
      simp [htask₀]
    have hlt : msg.taskIndex < mk.tasks.length := by
      have := index_eq_some _ _ _ hidx
      omega
    have hle := getSelectedTasks_length_le mk
    rw [hsel] at hle
    have hupd := updateTaskComplete_eq mk msg d.rt task₀ hlt hidx
    have hc : (mk.afterCompletion msg d.rt task₀).currentTask = ((k + 1 : Nat) : Int) := by
      show wrap64 (mk.currentTask + 1) = _
      rw [hcur, wrap64_eq _ (by omega) (by omega)]
      push_cast
      rfl
    have hd : (mk.afterCompletion msg d.rt task₀).completedTasks = ((k + 1 : Nat) : Int) := by
      show wrap64 (mk.completedTasks + 1) = _
      rw [hdone, wrap64_eq _ (by omega) (by omega)]
      push_cast
      rfl
    have hsel₁ : (mk.afterCompletion msg d.rt task₀).getSelectedTasks = sel := by
      rw [afterCompletion_getSelectedTasks mk msg d.rt task₀ hidx, hsel]
    have hlen₁ : (mk.afterCompletion msg d.rt task₀).tasks.length = mk.tasks.length := by
      show (mk.tasks.set _ _).length = _
      rw [List.length_set]
    have hkN : k + 1 < sel.length := by omega
    have hge : ¬ ((mk.afterCompletion msg d.rt task₀).currentTask ≥
        (mk.getSelectedTasks.length : Int)) := by
      rw [hc, hsel]
      omega
    obtain ⟨t', -, -, hex⟩ := executeNextTask_some (mk.afterCompletion msg d.rt task₀)
      (k + 1) hc (by rw [hsel₁]; exact hkN)
    rw [if_neg hge, hex] at hupd
    simp only [hsel₁] at hupd
    rw [runQueue_cons mk _ ck _ d ds i t msg hck hrun hupd]
    obtain ⟨mi, ci, msgs, j, tj, hq, h₁, h₂, h₃, h₄, h₅, h₆, h₇, h₈, h₉⟩ :=
      ih (k + 1) (mk.afterCompletion msg d.rt task₀)
        (.batch (.widget "progress.SetPercent") (.task sel[k + 1] t')) sel[k + 1] t' hsel₁ hc hd
        (by rw [hlen₁]; exact hlen) (by omega) (List.getElem?_eq_getElem hkN) rfl
        (fun d' hd' => hnp d' (List.mem_cons_of_mem _ hd'))
    have hidx' : k + 1 + ds.length = k + (ds.length + 1) := by omega
    refine ⟨mi, ci, msg :: msgs, j, tj, by rw [hq]; rfl, h₁, h₂, ?_, ?_, h₅, ?_, ?_, h₈, ?_⟩
    · rw [h₃]
      congr 1
    · rw [h₄]
      congr 1
    · rw [h₆, hlen₁]
    · rw [← h₇]
      congr 1
      exact hidx'.symm
    · have e : (sel.drop k).take (d :: ds).length =
          sel[k] :: (sel.drop (k + 1)).take ds.length := by
        rw [List.drop_eq_getElem_cons hk, List.length_cons, List.take_succ_cons]
      rw [e, List.map_cons, List.map_cons, h₉, hidxm, hik]
      rfl

theorem Update_phase (m m' : model) (msg : Msg) (rt : Runtime) (c : Cmd)
    (hp : m.phase ≠ "select") (h : m.Update msg rt = some (m', c)) :
    m'.phase = m.phase ∨ m'.phase = "report" ∨ m'.phase = "complete" := by
  cases msg with
  | taskComplete x =>
    rcases (updateTaskComplete_frame m m' x rt c h).2.2.2.1 with h₁ | h₁
    · exact Or.inl h₁
    · exact Or.inr (Or.inr h₁)
  | windowSize w ht =>
    simp only [model.Update, Option.some.injEq, Prod.mk.injEq] at h
    obtain ⟨rfl, rfl⟩ := h
    exact Or.inl rfl
  | spinnerTick =>
    simp only [model.Update, Option.some.injEq, Prod.mk.injEq] at h
    obtain ⟨rfl, rfl⟩ := h
    exact Or.inl rfl
  | progressFrame =>
    simp only [model.Update, Option.some.injEq, Prod.mk.injEq] at h
    obtain ⟨rfl, rfl⟩ := h
    exact Or.inl rfl
  | other =>
    simp only [model.Update, Option.some.injEq, Prod.mk.injEq] at h
    obtain ⟨rfl, rfl⟩ := h
    exact Or.inl rfl
  | log l =>
    simp only [model.Update, Option.some.injEq, Prod.mk.injEq] at h
    obtain ⟨rfl, rfl⟩ := h
    exact Or.inl (by rw [addLog_eq])
  | progress p =>
    simp only [model.Update] at h
    split at h
    · split at h
      · cases h
      · simp only [Option.some.injEq, Prod.mk.injEq] at h
        obtain ⟨rfl, rfl⟩ := h
        exact Or.inl (by rw [addLog_eq])
    · simp only [Option.some.injEq, Prod.mk.injEq] at h
      obtain ⟨rfl, rfl⟩ := h
      exact Or.inl rfl
  | key k =>
    simp only [model.Update] at h
    unfold model.updateKey at h
    simp only [hp, if_false] at h
    have hrep := (generateReport_fields m rt).2.1
    split_ifs at h
    all_goals
      simp only [Option.some.injEq] at h
      have h₁ := congrArg Prod.fst h
      simp only [] at h₁
      subst h₁
      first
      | exact Or.inl rfl
      | (right; left; rw [hrep])

/-- While the phase is "running" the cursor of the run points into the
selection; every message keeps it so. -/
theorem Update_running_cursor (m m' : model) (msg : Msg) (rt : Runtime) (c : Cmd)
    (hinv : m.phase = "running" → m.currentTask < m.getSelectedTasks.length)
    (h : m.Update msg rt = some (m', c)) (hr : m'.phase = "running") :
    m'.currentTask < m'.getSelectedTasks.length := by
  by_cases hmsg : ∀ x, msg ≠ .taskComplete x
  · rcases Update_frame m m' msg rt c hmsg h with ⟨-, -, hN, hm', -⟩ |
      ⟨-, h₁, -, -, -, -, -, h₇, h₈⟩
    · rw [hm', started_getSelectedTasks]
      show ((0 : Int)) < _
      omega
    · by_cases hp : m.phase = "select"
      · rw [h₇ hp] at hr
        exact absurd hr (by decide)
      · have hm : m.phase = "running" := by
          rcases Update_phase m m' msg rt c hp h with h₉ | h₉ | h₉
          · rw [← h₉]; exact hr
          · rw [h₉] at hr; exact absurd hr (by decide)
          · rw [h₉] at hr; exact absurd hr (by decide)
        rw [h₁, getSelectedTasks_congr _ _ (h₈ hp).2]
        exact hinv hm
  · push_neg at hmsg
    obtain ⟨x, rfl⟩ := hmsg
    have h' : m.updateTaskComplete x rt = some (m', c) := h
    by_cases hin : x.taskIndex < m.tasks.length
    · cases hidx : index m.tasks x.taskIndex with
      | none => simp [model.updateTaskComplete, hin, hidx] at h'
      | some task =>
        have hsel := afterCompletion_getSelectedTasks m x rt task hidx
        rw [updateTaskComplete_eq m x rt task hin hidx] at h'
        split at h'
        · simp only [Option.some.injEq, Prod.mk.injEq] at h'
          obtain ⟨rfl, rfl⟩ := h'
          rw [addLog_eq] at hr
          exact absurd (show ("complete" : String) = "running" from hr) (by decide)
        · rename_i hnot
          cases hex : (m.afterCompletion x rt task).executeNextTask with
          | none => simp [hex] at h'
          | some next =>
            simp only [hex, Option.some.injEq, Prod.mk.injEq] at h'
            obtain ⟨rfl, rfl⟩ := h'
            rw [hsel]
            omega
    · simp only [model.updateTaskComplete, hin, if_false, Option.some.injEq,
        Prod.mk.injEq] at h'
      obtain ⟨rfl, rfl⟩ := h'
      exact hinv hr

theorem Session.run_running_cursor (ins : List Input) (s : Session)
    (h : Session.init.run ins = some s) (hr : s.m.phase = "running") :
    0 ≤ s.m.currentTask ∧ s.m.currentTask < s.m.getSelectedTasks.length := by
  have h₁ := Session.run_induction
    (fun m => m.phase = "running" → m.currentTask < m.getSelectedTasks.length)
    (fun m m' msg rt c hm hu => Update_running_cursor m m' msg rt c hm hu)
    ins Session.init s (fun hc => absurd hc (by decide)) h
  have hseq : Sequential Session.init := ⟨by simp [Session.init], fun _ => rfl⟩
  have hcnt : Counted Session.init :=
    ⟨by decide, fun _ => ⟨rfl, rfl, rfl⟩, fun hp => absurd rfl hp⟩
  obtain ⟨-, -, hrun⟩ := Session.run_counted ins Session.init s hseq hcnt h
  have hp : s.m.phase ≠ "select" := by rw [hr]; decide
  exact ⟨(hrun hp).2.2.2.2.1, h₁ hr⟩

theorem mapM_isSome {α β : Type} (f : α → Option β) (l : List α)
    (h : ∀ a ∈ l, (f a).isSome = true) : (l.mapM f).isSome = true := by
  induction l with
  | nil => rfl
  | cons a l ih =>
    obtain ⟨b, hb⟩ := Option.isSome_iff_exists.mp (h a (List.mem_cons_self _ _))
    obtain ⟨bs, hbs⟩ := Option.isSome_iff_exists.mp
      (ih fun x hx => h x (List.mem_cons_of_mem _ hx))
    rw [List.mapM_cons, hb, hbs]
    rfl

/-- In every reachable model in the running phase the lookup
`selectedTasks[m.currentTask]` of `renderRunning` is in range: the status
list is produced. -/
theorem renderRunningStatus_isSome (ins : List Input) (s : Session)
    (h : Session.init.run ins = some s) (hr : s.m.phase = "running") :
    s.m.renderRunningStatus.isSome = true := by
  obtain ⟨h0, hlt⟩ := Session.run_running_cursor ins s h hr
  apply mapM_isSome
  intro it _
  have hidx : ∃ current, index s.m.getSelectedTasks s.m.currentTask = some current := by
    unfold index
    rw [if_pos h0, List.getElem?_eq_getElem (by omega)]
    exact ⟨_, rfl⟩
  obtain ⟨current, hidx⟩ := hidx
  unfold model.runningStatus
  simp only [hidx]
  split_ifs <;> rfl

theorem drop_append_twice (l : List String) (e₁ e₂ : String) :
    List.drop ((List.drop (l.length + 1 - 20) (l ++ [e₁])).length + 1 - 20)
      (List.drop (l.length + 1 - 20) (l ++ [e₁]) ++ [e₂]) =
    List.drop (l.length + 2 - 20) (l ++ [e₁, e₂]) := by
  have h₁ : l ++ [e₁, e₂] = (l ++ [e₁]) ++ [e₂] := by simp
  rw [h₁, ← List.drop_append_of_le_length (by simp; omega), List.drop_drop]
  congr 1
  simp only [List.length_drop, List.length_append, List.length_singleton]
  omega

/-! ## Theorems on progress events, the running view and a report during the run -/

/-- C22 (as stated, refuted): the first task of `initialModel` reports 10% with the
message "Checking disk health..." and fails. Its closure hands over one
message, which is not a progress message; after it is handled the Progress
of the task is 1.0, not the reported fraction, no log entry holds the
message of the call, and the call is kept as a detail line. -/
theorem progress_not_forwarded :
    (taskMessages 0 initialModel.tasks[0]
      ⟨⟨2024, 5, 1, 10, 0, 1⟩, ⟨[.progress 0.1 "Checking disk health..."], .err "boom"⟩,
        ⟨2024, 5, 1, 10, 0, 2⟩⟩).map
      (fun msg =>
        match msg with
        | .progress _ => "progress"
        | .taskComplete _ => "taskComplete"
        | _ => "other") = ["taskComplete"] ∧
    (Session.init.run
      [.msg (.key "enter") ⟨fun _ => ⟨2024, 5, 1, 10, 0, 0⟩, none⟩,
       .finish 0 ⟨⟨2024, 5, 1, 10, 0, 1⟩,
          ⟨[.progress 0.1 "Checking disk health..."], .err "boom"⟩,
          ⟨2024, 5, 1, 10, 0, 2⟩⟩ ⟨fun _ => ⟨2024, 5, 1, 10, 0, 2⟩, none⟩]).map
      (fun s => ((s.m.tasks.map (·.Progress)).head?,
        s.m.logs.any (fun entry => Contains entry "Checking disk health..."),
        (s.m.tasks.map (·.Details)).head?)) =
      some (some (.finite 1), false, some ["10% - Checking disk health..."]) := by
  decide!

/-- C22 (amended): the orchestrator does not forward progress events. The closure
of a task hands over exactly one message, its completion message, built
after `Execute` has returned; the progress calls of the task appear only as
its detail lines. Handling that message sets the Progress of the task to
1.0, stores the details, and logs the completion text (and "All tasks
completed!" after the last task), nothing else. The progress message that
`Update` can handle would set the Progress of its task to the fraction it
carries and log its text. -/
theorem progress_collected_in_details (taskIndex : Nat) (task : Task) (r : TaskRun)
    (msg : taskCompleteMsg) (h : runTask taskIndex task r = some msg) :
    taskMessages taskIndex task r = [.taskComplete msg] ∧
    (∀ p : progressMsg, Msg.progress p ∉ taskMessages taskIndex task r) ∧
    msg.details =
      (progressCalls r.exec.events).map (fun c => percent0 c.1 ++ "% - " ++ c.2) ∧
    (msg.message = "✅ " ++ task.Name ++ " completed successfully" ∨
      ∃ err, msg.message = "❌ " ++ task.Name ++ " failed: " ++ err) ∧
    (∀ (m m' : model) (rt : Runtime) (c : Cmd) (task₀ : Task),
      m.tasks[taskIndex]? = some task₀ → m.Update (.taskComplete msg) rt = some (m', c) →
      (∃ task', m'.tasks[taskIndex]? = some task' ∧ task'.Progress = .finite 1 ∧
        task'.Details = msg.details) ∧
      (m'.logs = List.drop (m.logs.length + 1 - 20)
          (m.logs ++ ["[" ++ (rt.now 0).clock ++ "] " ++ msg.message]) ∨
       m'.logs = List.drop (m.logs.length + 2 - 20)
          (m.logs ++ ["[" ++ (rt.now 0).clock ++ "] " ++ msg.message,
            "[" ++ (rt.now 1).clock ++ "] " ++ "🎉 All tasks completed!"]))) ∧
    (∀ (m : model) (p : progressMsg) (rt : Runtime) (task₀ : Task),
      p.taskIndex < m.tasks.length → index m.tasks p.taskIndex = some task₀ →
      ∃ m', m.Update (.progress p) rt = some (m', .widget "progress.SetPercent") ∧
        m'.tasks = m.tasks.set p.taskIndex.toNat ({ task₀ with Progress := p.progress } : Task) ∧
        m'.logs = List.drop (m.logs.length + 1 - 20)
          (m.logs ++ ["[" ++ (rt.now 0).clock ++ "] " ++ p.message])) := by
  have hidxm : msg.taskIndex = taskIndex ∧
      msg.details =
        (progressCalls r.exec.events).map (fun c => percent0 c.1 ++ "% - " ++ c.2) ∧
      (msg.message = "✅ " ++ task.Name ++ " completed successfully" ∨
        ∃ err, msg.message = "❌ " ++ task.Name ++ " failed: " ++ err) := by
    unfold runTask at h
    simp only [] at h
    split at h
    · cases h
    · simp only [Option.some.injEq] at h
      rw [← h]
      exact ⟨rfl, rfl, Or.inl rfl⟩
    · rename_i err _
      simp only [Option.some.injEq] at h
      rw [← h]
      exact ⟨rfl, rfl, Or.inr ⟨err, rfl⟩⟩
  have hmsgs : taskMessages taskIndex task r = [.taskComplete msg] := by
    unfold taskMessages
    rw [h]
  refine ⟨hmsgs, ?_, hidxm.2.1, hidxm.2.2, ?_, ?_⟩
  · intro p hp
    rw [hmsgs, List.mem_singleton] at hp
    cases hp
  · intro m m' rt c task₀ ht hu
    have hilt : taskIndex < m.tasks.length := by
      by_contra hc
      rw [List.getElem?_eq_none (by omega)] at ht
      cases ht
    have hidx : index m.tasks msg.taskIndex = some task₀ := by
      unfold index
      rw [hidxm.1]
      simp [ht]
    have hlt : msg.taskIndex < m.tasks.length := by rw [hidxm.1]; exact_mod_cast hilt
    have hupd := updateTaskComplete_eq m msg rt task₀ hlt hidx
    have htasks : (m.afterCompletion msg rt task₀).tasks[taskIndex]? =
        some (recordCompletion task₀ msg) := by
      show (m.tasks.set msg.taskIndex.toNat _)[taskIndex]? = _
      rw [hidxm.1]
      show (m.tasks.set taskIndex _)[taskIndex]? = _
      rw [List.getElem?_set_self hilt]
    obtain ⟨r₁, -, -, -, -, -, r₇⟩ := recordCompletion_recorded task₀ msg
    have hu' : m.updateTaskComplete msg rt = some (m', c) := hu
    rw [hupd] at hu'
    split at hu'
    · simp only [Option.some.injEq, Prod.mk.injEq] at hu'
      obtain ⟨rfl, rfl⟩ := hu'
      refine ⟨⟨_, by rw [addLog_eq]; exact htasks, r₁, r₇⟩, Or.inr ?_⟩
      rw [addLog_eq]
      exact drop_append_twice _ _ _
    · cases hex : (m.afterCompletion msg rt task₀).executeNextTask with
      | none => simp [hex] at hu'
      | some next =>
        simp only [hex, Option.some.injEq, Prod.mk.injEq] at hu'
        obtain ⟨rfl, rfl⟩ := hu'
        exact ⟨⟨_, htasks, r₁, r₇⟩, Or.inl rfl⟩
  · intro m p rt task₀ hlt hidx
    refine ⟨({ m with
        tasks := m.tasks.set p.taskIndex.toNat ({ task₀ with Progress := p.progress } : Task)
        progress := ⟨m.progress.Width, p.progress⟩ } : model).addLog (rt.now 0) "PROGRESS"
          p.message, ?_, ?_, ?_⟩
    · simp only [model.Update, hlt, if_true, hidx]
    · rw [addLog_eq]
    · rw [addLog_eq]

/-- Witness for C22 (amended): the closure of the first task of `initialModel`. -/
theorem progress_collected_in_details_witness :
    (taskMessages 0 initialModel.tasks[0]
      ⟨⟨2024, 5, 1, 10, 0, 1⟩, ⟨[.progress 0.1 "Checking disk health..."], .err "boom"⟩,
        ⟨2024, 5, 1, 10, 0, 2⟩⟩).length = 1 := by
  have h := (progress_collected_in_details 0 initialModel.tasks[0]
    ⟨⟨2024, 5, 1, 10, 0, 1⟩, ⟨[.progress 0.1 "Checking disk health..."], .err "boom"⟩,
      ⟨2024, 5, 1, 10, 0, 2⟩⟩ _ rfl).1
  rw [h]
  rfl

/-- C29 (the code breaks it): with only the tasks Drivers and Optimization selected
(registry indices 3 and 4) the run starts with task 3 executing, yet the
status list of `renderRunning` marks no task as "🔄 Running": the guard of
the test compares the registry index with the number of selected tasks.
With the default selection (indices 0 and 1) the executing task is marked. -/
theorem renderRunning_marks_no_task :
    (∃ s, Session.init.run
        [.msg (.key " ") ⟨fun _ => ⟨2024, 5, 1, 10, 0, 0⟩, none⟩,
         .msg (.key "down") ⟨fun _ => ⟨2024, 5, 1, 10, 0, 0⟩, none⟩,
         .msg (.key " ") ⟨fun _ => ⟨2024, 5, 1, 10, 0, 0⟩, none⟩,
         .msg (.key "down") ⟨fun _ => ⟨2024, 5, 1, 10, 0, 0⟩, none⟩,
         .msg (.key "down") ⟨fun _ => ⟨2024, 5, 1, 10, 0, 0⟩, none⟩,
         .msg (.key " ") ⟨fun _ => ⟨2024, 5, 1, 10, 0, 0⟩, none⟩,
         .msg (.key "down") ⟨fun _ => ⟨2024, 5, 1, 10, 0, 0⟩, none⟩,
         .msg (.key " ") ⟨fun _ => ⟨2024, 5, 1, 10, 0, 0⟩, none⟩,
         .msg (.key "enter") ⟨fun _ => ⟨2024, 5, 1, 10, 0, 1⟩, none⟩] = some s ∧
      s.m.phase = "running" ∧ s.m.getSelectedTasks = [3, 4] ∧ s.m.currentTask = 0 ∧
      s.outstanding.map (·.1) = [3] ∧
      s.m.renderRunningStatus = some [(3, "⏳ Pending"), (4, "⏳ Pending")]) ∧
    (∃ s, Session.init.run
        [.msg (.key "enter") ⟨fun _ => ⟨2024, 5, 1, 10, 0, 1⟩, none⟩] = some s ∧
      s.m.phase = "running" ∧ s.m.getSelectedTasks = [0, 1] ∧ s.m.currentTask = 0 ∧
      s.outstanding.map (·.1) = [0] ∧
      s.m.renderRunningStatus = some [(0, "🔄 Running"), (1, "⏳ Pending")]) :=
  ⟨⟨_, rfl, rfl, rfl, rfl, rfl, rfl⟩, ⟨_, rfl, rfl, rfl, rfl, rfl, rfl⟩⟩

/-- C30: when "p" is pressed in the phase "running" with k of the N selected tasks
completed and the (k+1)-th executing, the phase becomes "report" and no
command is issued; the completions of the remaining tasks are then handled
one after another with no further input: after n < N - k of them the phase
is still "report" and the next selected task is executing, and after all
N - k the phase is "complete" with nothing left to run; from there "p"
requests a report again. -/
theorem report_during_run (m : model) (ck : Cmd) (i : Nat) (t : Task) (k : Nat) (rt : Runtime)
    (ds : List Completion)
    (hp : m.phase = "running")
    (hcur : m.currentTask = k) (hdone : m.completedTasks = k)
    (htot : m.totalTasks = m.getSelectedTasks.length)
    (hlen : m.tasks.length < 9223372036854775808)
    (hi : m.getSelectedTasks[k]? = some i) (hck : ck.tasks = [(i, t)])
    (hds : k + ds.length = m.getSelectedTasks.length)
    (hnp : ∀ d ∈ ds, ∀ w, d.run.exec.ret ≠ .panic w) :
    ∃ m₁, m.Update (.key "p") rt = some (m₁, .nil) ∧ m₁.phase = "report" ∧
      (∀ n, n < ds.length → ∃ mi ci msgs j tj,
        runQueue m₁ ck (ds.take n) = some (mi, ci, msgs) ∧ mi.phase = "report" ∧
        mi.completedTasks = (k + n : Nat) ∧
        m.getSelectedTasks[k + n]? = some j ∧ ci.tasks = [(j, tj)]) ∧
      ∃ mf cf msgs, runQueue m₁ ck ds = some (mf, cf, msgs) ∧
        mf.phase = "complete" ∧ mf.running = false ∧ cf.tasks = [] ∧
        mf.completedTasks = m.getSelectedTasks.length ∧
        msgs.map (·.taskIndex) = (m.getSelectedTasks.drop k).map Int.ofNat ∧
        ∀ rt', ∃ m₂, mf.Update (.key "p") rt' = some (m₂, .nil) ∧ m₂.phase = "report" := by
  obtain ⟨hnil, hrep, -⟩ := generateReport_fields m rt
  have hkey : ∀ (x : model) (r : Runtime), x.phase = "running" ∨ x.phase = "complete" →
      x.Update (.key "p") r = some ((x.generateReport r).1, .nil) ∧
      (x.generateReport r).1.phase = "report" := by
    intro x r hx
    obtain ⟨hn, hr, -⟩ := generateReport_fields x r
    have he : x.generateReport r = ((x.generateReport r).1, .nil) := Prod.ext rfl hn
    refine ⟨?_, by rw [hr]⟩
    rcases hx with hx | hx
    · simp only [model.Update, model.updateKey, hx]
      simp only [show ¬ (("running" : String) = "select") by decide,
        show ¬ (("p" : String) = "ctrl+c" ∨ ("p" : String) = "q") by decide, if_false, if_true]
      rw [← he]
    · simp only [model.Update, model.updateKey, hx]
      simp only [show ¬ (("complete" : String) = "select") by decide,
        show ¬ (("complete" : String) = "running") by decide,
        show ¬ (("p" : String) = "ctrl+c" ∨ ("p" : String) = "q" ∨ ("p" : String) = "enter")
          by decide, if_false, if_true]
      rw [← he]
  have hk : k < m.getSelectedTasks.length := by
    by_contra hc
    rw [List.getElem?_eq_none (by omega)] at hi
    cases hi
  have hik : m.getSelectedTasks[k] = i := by
    rw [List.getElem?_eq_getElem hk] at hi
    exact Option.some.inj hi
  have hsel₁ : (m.generateReport rt).1.getSelectedTasks = m.getSelectedTasks :=
    getSelectedTasks_congr _ _ (by rw [hrep])
  have hcur₁ : (m.generateReport rt).1.currentTask = k := by rw [hrep]; exact hcur
  have hdone₁ : (m.generateReport rt).1.completedTasks = k := by rw [hrep]; exact hdone
  have htot₁ : (m.generateReport rt).1.totalTasks = m.getSelectedTasks.length := by
    rw [hrep]; exact htot
  have hlen₁ : (m.generateReport rt).1.tasks.length < 9223372036854775808 := by
    rw [hrep]; exact hlen
  have hph₁ : (m.generateReport rt).1.phase = "report" := by rw [hrep]
  refine ⟨(m.generateReport rt).1, (hkey m rt (Or.inl hp)).1, hph₁, ?_, ?_⟩
  · intro n hn
    have hlenn : (ds.take n).length = n := by
      rw [List.length_take]
      omega
    obtain ⟨mi, ci, msgs, j, tj, hq, h₁, -, -, h₄, -, -, h₇, h₈, -⟩ :=
      runQueue_steady m.getSelectedTasks (ds.take n) k (m.generateReport rt).1 ck i t
        hsel₁ hcur₁ hdone₁ hlen₁ (by omega) hi hck
        (fun d hd => hnp d (List.mem_of_mem_take hd))
    rw [hlenn] at h₄ h₇
    exact ⟨mi, ci, msgs, j, tj, hq, by rw [h₁, hph₁], h₄, h₇, h₈⟩
  · have hsorted := getSelectedTasks_sorted m
    have hnodup : m.getSelectedTasks.Nodup := hsorted.imp (fun h => Nat.ne_of_lt h)
    have hne : ds ≠ [] := by
      intro h
      rw [h] at hds
      simp at hds
      omega
    obtain ⟨mf, cf, msgs, hq, h₁, h₂, -, h₄, -, -, h₇, -, h₉, -, -⟩ :=
      runQueue_spec m.getSelectedTasks hnodup ds k (m.generateReport rt).1 ck t
        hsel₁ hcur₁ hdone₁ htot₁ hlen₁ hds hne hk (by rw [hik]; exact hck) hnp
    exact ⟨mf, cf, msgs, hq, h₁, h₂, h₇, h₄, h₉,
      fun rt' => ⟨_, (hkey mf rt' (Or.inr h₁)).1, (hkey mf rt' (Or.inr h₁)).2⟩⟩

/-- Witness for C30: the default selection of two tasks, "p" pressed while the
first is executing. -/
theorem report_during_run_witness :
    ∃ m₁, (initialModel.started ⟨fun _ => ⟨2024, 5, 1, 10, 0, 0⟩, none⟩).Update (.key "p")
        ⟨fun _ => ⟨2024, 5, 1, 10, 0, 1⟩, none⟩ = some (m₁, .nil) ∧
      m₁.phase = "report" ∧
      ∃ mf cf msgs, runQueue m₁ (.task 0 initialModel.tasks[0])
          [⟨⟨⟨2024, 5, 1, 10, 0, 1⟩, ⟨[.progress 1.0 "done"], .nil⟩, ⟨2024, 5, 1, 10, 0, 2⟩⟩,
            ⟨fun _ => ⟨2024, 5, 1, 10, 0, 2⟩, none⟩⟩,
           ⟨⟨⟨2024, 5, 1, 10, 0, 3⟩, ⟨[.progress 1.0 "done"], .nil⟩, ⟨2024, 5, 1, 10, 0, 4⟩⟩,
            ⟨fun _ => ⟨2024, 5, 1, 10, 0, 4⟩, none⟩⟩] = some (mf, cf, msgs) ∧
        mf.phase = "complete" := by
  obtain ⟨m₁, h₁, h₂, -, mf, cf, msgs, h₃, h₄, -⟩ :=
    report_during_run (initialModel.started ⟨fun _ => ⟨2024, 5, 1, 10, 0, 0⟩, none⟩)
      (.task 0 initialModel.tasks[0]) 0 initialModel.tasks[0] 0
      ⟨fun _ => ⟨2024, 5, 1, 10, 0, 1⟩, none⟩
      [⟨⟨⟨2024, 5, 1, 10, 0, 1⟩, ⟨[.progress 1.0 "done"], .nil⟩, ⟨2024, 5, 1, 10, 0, 2⟩⟩,
          ⟨fun _ => ⟨2024, 5, 1, 10, 0, 2⟩, none⟩⟩,
       ⟨⟨⟨2024, 5, 1, 10, 0, 3⟩, ⟨[.progress 1.0 "done"], .nil⟩, ⟨2024, 5, 1, 10, 0, 4⟩⟩,
          ⟨fun _ => ⟨2024, 5, 1, 10, 0, 4⟩, none⟩⟩]
      rfl rfl rfl (by decide) (by decide) (by decide) rfl (by decide)
      (by
        intro d hd w hw
        simp only [List.mem_cons, List.mem_singleton, List.not_mem_nil, or_false] at hd
        rcases hd with rfl | rfl <;> cases hw)
  exact ⟨m₁, h₁, h₂, mf, cf, msgs, h₃, h₄⟩

/-! ## Lemmas on the checks of the health module -/

theorem getElem?_isSome_of_lt {α : Type} (l : List α) (i : Nat) (h : i < l.length) :
    ∃ a, l[i]? = some a :=
  ⟨l[i], List.getElem?_eq_getElem h⟩

theorem memoryLine_isSome (acc : Int × Int) (line : String) :
    ∃ acc', HealthModule.memoryLine acc line = some acc' := by
  unfold HealthModule.memoryLine
  simp only []
  by_cases hlen : (Fields line).length < 2
  · rw [if_pos hlen]
    exact ⟨_, rfl⟩
  · rw [if_neg hlen]
    obtain ⟨f₁, h₁⟩ := getElem?_isSome_of_lt (Fields line) 1 (by omega)
    obtain ⟨f₀, h₀⟩ := getElem?_isSome_of_lt (Fields line) 0 (by omega)
    rw [h₁]
    simp only []
    cases Atoi f₁ with
    | error e => exact ⟨_, rfl⟩
    | ok value =>
      simp only [h₀]
      split_ifs <;> exact ⟨_, rfl⟩

theorem foldlM_memoryLine_isSome (lines : List String) :
    ∀ acc : Int × Int, ∃ acc', lines.foldlM HealthModule.memoryLine acc = some acc' := by
  induction lines with
  | nil => exact fun acc => ⟨acc, rfl⟩
  | cons line lines ih =>
    intro acc
    obtain ⟨acc₁, h₁⟩ := memoryLine_isSome acc line
    obtain ⟨acc₂, h₂⟩ := ih acc₁
    refine ⟨acc₂, ?_⟩
    rw [List.foldlM_cons, h₁]
    exact h₂

theorem parseMeminfo_isSome (data : String) :
    ∃ T A, HealthModule.parseMeminfo data = some (T, A) := by
  obtain ⟨acc, h⟩ := foldlM_memoryLine_isSome (SplitLines data) (0, 0)
  exact ⟨acc.1, acc.2, h⟩

theorem memoryReport_isSome (T A : Int) : ∃ r, HealthModule.memoryReport T A = some r := by
  unfold HealthModule.memoryReport
  by_cases h : T = 0
  · rw [if_pos h]
    exact ⟨_, rfl⟩
  · simp only [if_neg h]
    exact ⟨_, rfl⟩

theorem checkMemoryUsage_isSome (host : HealthHost) :
    ∃ r, HealthModule.checkMemoryUsage host = some r := by
  unfold HealthModule.checkMemoryUsage
  cases host.meminfo with
  | error e => exact ⟨_, rfl⟩
  | ok data =>
    obtain ⟨T, A, h⟩ := parseMeminfo_isSome data
    simp only [h]
    exact memoryReport_isSome T A

theorem checkDiskHealth_isSome (host : HealthHost) :
    ∃ r, HealthModule.checkDiskHealth host = some r := by
  unfold HealthModule.checkDiskHealth
  cases host.df with
  | error e => exact ⟨_, rfl⟩
  | ok output =>
    simp only []
    by_cases h₁ : (SplitLines output).length < 2
    · rw [if_pos h₁]
      exact ⟨_, rfl⟩
    · rw [if_neg h₁]
      obtain ⟨line, hline⟩ := getElem?_isSome_of_lt (SplitLines output) 1 (by omega)
      rw [hline]
      simp only []
      by_cases h₂ : (Fields line).length < 5
      · rw [if_pos h₂]
        exact ⟨_, rfl⟩
      · rw [if_neg h₂]
        obtain ⟨used, hused⟩ := getElem?_isSome_of_lt (Fields line) 4 (by omega)
        rw [hused]
        simp only []
        cases Atoi (TrimSuffix used "%") with
        | error e => exact ⟨_, rfl⟩
        | ok usedPercent => exact ⟨_, rfl⟩

theorem checkTemperature_isSome (host : HealthHost) :
    ∃ r, HealthModule.checkTemperature host = some r := by
  unfold HealthModule.checkTemperature
  simp only []
  by_cases h : (HealthModule.readTemps [host.thermalZone0, host.thermalZone1]).length = 0
  · rw [if_pos h]
    exact ⟨_, rfl⟩
  · rw [if_neg h]
    obtain ⟨first, hfirst⟩ := getElem?_isSome_of_lt
      (HealthModule.readTemps [host.thermalZone0, host.thermalZone1]) 0 (by omega)
    rw [hfirst]
    exact ⟨_, rfl⟩

theorem analyzeProcesses_isSome (host : HealthHost) :
    ∃ r, HealthModule.analyzeProcesses host = some r := by
  unfold HealthModule.analyzeProcesses
  cases host.ps with
  | error e => exact ⟨_, rfl⟩
  | ok output =>
    simp only []
    cases host.loadavg with
    | error e => exact ⟨_, rfl⟩
    | ok data =>
      simp only []
      by_cases h : (Fields data).length < 1
      · rw [if_pos h]
        exact ⟨_, rfl⟩
      · rw [if_neg h]
        obtain ⟨field0, h0⟩ := getElem?_isSome_of_lt (Fields data) 0 (by omega)
        rw [h0]
        simp only []
        cases host.ParseFloat field0 with
        | error e => exact ⟨_, rfl⟩
        | ok load1min => exact ⟨_, rfl⟩

theorem memoryReport_in_range (T A : Int) (hT : 0 < T) (hA : 0 ≤ A) (hAT : A ≤ T)
    (hmax : T ≤ 92233720368547758) :
    0 ≤ ((T - A) * 100) / T ∧ ((T - A) * 100) / T ≤ 100 ∧
    HealthModule.memoryReport T A =
      some (.ok ((if ((T - A) * 100) / T > 90 then "🔴 CRITICAL"
          else if ((T - A) * 100) / T > 80 then "⚠️ HIGH"
          else "✅ NORMAL") ++ ": Memory usage " ++ toString (((T - A) * 100) / T) ++ "% (" ++
        toString ((T - A) / 1024) ++ " MB / " ++ toString (T / 1024) ++ " MB)")) := by
  have hne : ¬ (T = 0) := by omega
  have hu : wrap64 (T - A) = T - A := wrap64_eq _ (by omega) (by omega)
  have hm : wrap64 ((T - A) * 100) = (T - A) * 100 := wrap64_eq _ (by omega) (by omega)
  have hnn : 0 ≤ (T - A) * 100 := by omega
  have hdiv : ((T - A) * 100).tdiv T = ((T - A) * 100) / T :=
    Int.tdiv_eq_ediv hnn (by omega)
  have hp0 : 0 ≤ ((T - A) * 100) / T := Int.ediv_nonneg hnn (by omega)
  have hp100 : ((T - A) * 100) / T ≤ 100 :=
    Int.ediv_le_of_le_mul hT (by omega)
  have hw : wrap64 (((T - A) * 100) / T) = ((T - A) * 100) / T :=
    wrap64_eq _ (by omega) (by omega)
  have h₁ : (T - A).tdiv 1024 = (T - A) / 1024 := Int.tdiv_eq_ediv (by omega) (by omega)
  have h₂ : T.tdiv 1024 = T / 1024 := Int.tdiv_eq_ediv (by omega) (by omega)
  refine ⟨hp0, hp100, ?_⟩
  unfold HealthModule.memoryReport
  simp only [if_neg hne, hu, hm, hdiv, hw, h₁, h₂]

/-! ## Theorems on the checks of the health module -/

/-- C27 (as stated, refuted): for the content "MemTotal: -5 kB" no MemTotal value
above 0 is parsed, yet no error is returned; and for MemTotal 2^62 with
MemAvailable 0 the product by 100 wraps around, so the usage reported is
0% with status NORMAL where ((T - A) * 100) div T is 100. -/
theorem checkMemoryUsage_off_the_claim :
    HealthModule.parseMeminfo "MemTotal: -5 kB\n" = some (-5, 0) ∧
    (HealthModule.checkMemoryUsage
      ⟨.error "", .error "", .error "", .error "", .ok "MemTotal: -5 kB\n", .error "",
        .error "", fun _ => .error "", fun _ => ""⟩).map
      (fun r =>
        match r with
        | .ok text => text
        | .error err => "error: " ++ err) =
      some "🔴 CRITICAL: Memory usage 100% (0 MB / 0 MB)" ∧
    HealthModule.parseMeminfo
      "MemTotal: 4611686018427387904 kB\nMemAvailable: 0 kB\n" =
      some (4611686018427387904, 0) ∧
    (HealthModule.checkMemoryUsage
      ⟨.error "", .error "", .error "", .error "",
        .ok "MemTotal: 4611686018427387904 kB\nMemAvailable: 0 kB\n", .error "",
        .error "", fun _ => .error "", fun _ => ""⟩).map
      (fun r =>
        match r with
        | .ok text => text
        | .error err => "error: " ++ err) =
      some "✅ NORMAL: Memory usage 0% (4503599627370496 MB / 4503599627370496 MB)" ∧
    ((4611686018427387904 - 0) * 100 : Int) / 4611686018427387904 = 100 := by
  decide!

/-- C27 (amended): with (T, A) the values of memTotal and memAvailable after the
loop over the lines of /proc/meminfo (the last parsed MemTotal and
MemAvailable values, 0 when there is none), `checkMemoryUsage` returns the
error "could not parse memory info" if and only if T = 0; and for
0 < T <= 92233720368547758 and 0 <= A <= T it returns no error and a result
that contains a percent sign, reports the usage ((T - A) * 100) div T, which
lies in [0, 100], and carries one status: CRITICAL iff the percentage is
above 90, HIGH iff it is above 80 and at most 90, NORMAL otherwise. -/
theorem checkMemoryUsage_report (host : HealthHost) (data : String) (T A : Int)
    (hd : host.meminfo = .ok data) (hparse : HealthModule.parseMeminfo data = some (T, A)) :
    (HealthModule.checkMemoryUsage host = some (.error "could not parse memory info") ↔
      T = 0) ∧
    (0 < T → 0 ≤ A → A ≤ T → T ≤ 92233720368547758 →
      0 ≤ ((T - A) * 100) / T ∧ ((T - A) * 100) / T ≤ 100 ∧
      ∃ status text, HealthModule.checkMemoryUsage host = some (.ok text) ∧
        text = status ++ ": Memory usage " ++ toString (((T - A) * 100) / T) ++ "% (" ++
          toString ((T - A) / 1024) ++ " MB / " ++ toString (T / 1024) ++ " MB)" ∧
        Contains text "%" = true ∧
        (status = "🔴 CRITICAL" ∨ status = "⚠️ HIGH" ∨ status = "✅ NORMAL") ∧
        (status = "🔴 CRITICAL" ↔ 90 < ((T - A) * 100) / T) ∧
        (status = "⚠️ HIGH" ↔ 80 < ((T - A) * 100) / T ∧ ((T - A) * 100) / T ≤ 90) ∧
        (status = "✅ NORMAL" ↔ ((T - A) * 100) / T ≤ 80)) := by
  have hcheck : HealthModule.checkMemoryUsage host = HealthModule.memoryReport T A := by
    unfold HealthModule.checkMemoryUsage
    rw [hd]
    simp only [hparse]
  rw [hcheck]
  constructor
  · unfold HealthModule.memoryReport
    by_cases hT : T = 0
    · simp [hT]
    · simp [hT]
  · intro hT hA hAT hmax
    obtain ⟨hp0, hp100, hrep⟩ := memoryReport_in_range T A hT hA hAT hmax
    refine ⟨hp0, hp100, _, _, hrep, rfl, ?_, ?_, ?_, ?_, ?_⟩
    · rw [Contains_iff]
      have h₁ : "%".toList <:+: "% (".toList := by decide
      simp only [String.toList, String.data_append] at h₁ ⊢
      exact h₁.trans ((List.suffix_append _ _).isInfix.trans
        ((List.prefix_append _ _).isInfix.trans ((List.prefix_append _ _).isInfix.trans
          ((List.prefix_append _ _).isInfix.trans (List.prefix_append _ _).isInfix))))
    · split_ifs
      · exact Or.inl rfl
      · exact Or.inr (Or.inl rfl)
      · exact Or.inr (Or.inr rfl)
    · split_ifs with h₁ h₂
      · exact ⟨fun _ => h₁, fun _ => rfl⟩
      · exact ⟨fun h => absurd h (by decide), fun h => absurd h h₁⟩
      · exact ⟨fun h => absurd h (by decide), fun h => absurd h h₁⟩
    · split_ifs with h₁ h₂
      · exact ⟨fun h => absurd h (by decide), fun h => by omega⟩
      · exact ⟨fun _ => ⟨h₂, by omega⟩, fun _ => rfl⟩
      · exact ⟨fun h => absurd h (by decide), fun h => absurd h.1 h₂⟩
    · split_ifs with h₁ h₂
      · exact ⟨fun h => absurd h (by decide), fun h => by omega⟩
      · exact ⟨fun h => absurd h (by decide), fun h => by omega⟩
      · exact ⟨fun _ => by omega, fun _ => rfl⟩

/-- Witness for C27 (amended): 16000 kB of memory of which 4000 kB are available. -/
theorem checkMemoryUsage_report_witness :
    ∃ status text, HealthModule.checkMemoryUsage
        ⟨.error "", .error "", .error "", .error "",
          .ok "MemTotal:       16000 kB\nMemFree: 100 kB\nMemAvailable:   4000 kB\n",
          .error "", .error "", fun _ => .error "", fun _ => ""⟩ = some (.ok text) ∧
      text = status ++ ": Memory usage " ++
        toString (((16000 - 4000 : Int) * 100) / 16000) ++ "% (" ++
        toString ((16000 - 4000 : Int) / 1024) ++ " MB / " ++
        toString ((16000 : Int) / 1024) ++ " MB)" ∧
      (status = "✅ NORMAL" ↔ ((16000 - 4000 : Int) * 100) / 16000 ≤ 80) := by
  obtain ⟨-, -, status, text, h₁, h₂, -, -, -, -, h₃⟩ :=
    (checkMemoryUsage_report
      ⟨.error "", .error "", .error "", .error "",
        .ok "MemTotal:       16000 kB\nMemFree: 100 kB\nMemAvailable:   4000 kB\n",
        .error "", .error "", fun _ => .error "", fun _ => ""⟩
      "MemTotal:       16000 kB\nMemFree: 100 kB\nMemAvailable:   4000 kB\n" 16000 4000
      rfl (by decide)).2 (by decide) (by decide) (by decide) (by decide)
  exact ⟨status, text, h₁, h₂, h₃⟩

/-- C28: for every output of the commands and every content of the files, none of
`checkDiskHealth`, `checkTemperature`, `checkMemoryUsage`,
`analyzeProcesses` and `optimizeSSD` panics: every index expression and the
division by memTotal is reached with a valid index or a divisor other than
zero; so `HealthModule.Execute` always receives four results. Malformed
input gives an error value or a fallback message. -/
theorem parsers_never_panic (host : HealthHost) (env : OptimizationEnv) :
    (HealthModule.checkDiskHealth host).isSome = true ∧
    (HealthModule.checkTemperature host).isSome = true ∧
    (HealthModule.checkMemoryUsage host).isSome = true ∧
    (HealthModule.analyzeProcesses host).isSome = true ∧
    host.env.isSome = true ∧
    ((OptimizationModule.optimizeSSD env).ret = .nil ∨
      ∃ err, (OptimizationModule.optimizeSSD env).ret = .err err) ∧
    (∀ (acc : Int × Int) (line : String), (HealthModule.memoryLine acc line).isSome = true) ∧
    (∀ T A : Int, (HealthModule.memoryReport T A).isSome = true) ∧
    HealthModule.checkDiskHealth { host with df := .ok "" } =
      some (.error "unexpected df output") ∧
    HealthModule.checkDiskHealth { host with df := .ok "Filesystem Size\n/dev/sda1 50G\n" } =
      some (.error "unexpected df fields") ∧
    HealthModule.checkTemperature
      { host with thermalZone0 := .ok "warm", thermalZone1 := .error "no such file" } =
      some (.ok "Temperature sensors not available") ∧
    HealthModule.checkMemoryUsage { host with meminfo := .ok "MemTotal:\nMemAvailable: x\n" } =
      some (.error "could not parse memory info") ∧
    HealthModule.analyzeProcesses { host with ps := .ok "", loadavg := .ok " \n" } =
      some (.error "could not parse load average") ∧
    (OptimizationModule.optimizeSSD { env with lsblk := .ok "" }).ret = .nil := by
  obtain ⟨r₁, h₁⟩ := checkDiskHealth_isSome host
  obtain ⟨r₂, h₂⟩ := checkTemperature_isSome host
  obtain ⟨r₃, h₃⟩ := checkMemoryUsage_isSome host
  obtain ⟨r₄, h₄⟩ := analyzeProcesses_isSome host
  have hssd : (OptimizationModule.optimizeSSD env).ret = .nil ∨
      ∃ err, (OptimizationModule.optimizeSSD env).ret = .err err := by
    cases hret : (OptimizationModule.optimizeSSD env).ret with
    | nil => exact Or.inl rfl
    | err e => exact Or.inr ⟨e, rfl⟩
    | panic w => exact absurd hret (optimizeSSD_ret env w)
  refine ⟨by rw [h₁]; rfl, by rw [h₂]; rfl, by rw [h₃]; rfl, by rw [h₄]; rfl, ?_,
    hssd, ?_, ?_, rfl, rfl, rfl, rfl, rfl, rfl⟩
  · unfold HealthHost.env
    rw [h₁, h₂, h₃, h₄]
    rfl
  · intro acc line
    obtain ⟨r, h⟩ := memoryLine_isSome acc line
    rw [h]
    rfl
  · intro T A
    obtain ⟨r, h⟩ := memoryReport_isSome T A
    rw [h]
    rfl

end Ububu
